import Mathlib

/-!
A shallow embedding of japacker.h (a single-header C texture-atlas packing
library) together with theorems that check the claims of its natural-language
specification against the code.

Modelling conventions:

- C structs become Lean structures with the same field names.  Pointers into
  the empty-area array become indices of type Nat; null pointers become none
  of type Option Nat.
- C unsigned int arithmetic is modelled by Nat arithmetic.  At the sites where
  wraparound is reachable and observable for the claims below (the
  images_needed counter, and the offset computation of japacker_get_dst_offset)
  the wraparound is modelled explicitly with mod 2 ^ 32 helpers.  At all other
  arithmetic sites the values reachable in the analysed runs stay far below
  2 ^ 32, where C unsigned arithmetic and Nat arithmetic agree.
- Code whose C behaviour is undefined (out-of-bounds store to the empty-area
  pool, dereferencing a null pointer, dividing by zero, calling a null function
  pointer) is modelled by an Except error carrying a JCrash value naming the
  crash site.
- Loops become fuel-based or well-founded recursion.  Every fuel parameter is
  instantiated at its call site with a value that dominates the length of the
  walked list, so the fuel-exhaustion branches are unreachable in well-formed
  states.
-/

set_option maxHeartbeats 4000000

namespace Japacker

/-- Decidable equality for Except results, used to evaluate the model on
concrete inputs. -/
instance {ε α : Type} [DecidableEq ε] [DecidableEq α] : DecidableEq (Except ε α) := fun x y =>
  match x, y with
  | .error a, .error b =>
    if h : a = b then isTrue (by rw [h]) else
      isFalse fun hc => h (by cases hc; rfl)
  | .ok a, .ok b =>
    if h : a = b then isTrue (by rw [h]) else
      isFalse fun hc => h (by cases hc; rfl)
  | .error _, .ok _ => isFalse fun hc => Except.noConfusion hc
  | .ok _, .error _ => isFalse fun hc => Except.noConfusion hc

/-- The modulus of C unsigned int arithmetic. -/
def U32 : Nat := 4294967296

/-- Addition of C unsigned ints, wrapping modulo 2 ^ 32. -/
def u32add (a b : Nat) : Nat := (a + b) % U32

/-- Subtraction of C unsigned ints, wrapping modulo 2 ^ 32. -/
def u32sub (a b : Nat) : Nat := (a % U32 + (U32 - b % U32)) % U32

/-- Multiplication of C unsigned ints, wrapping modulo 2 ^ 32. -/
def u32mul (a b : Nat) : Nat := a * b % U32

/-- The japacker_fail_policy enum: what happens when a rectangle does not fit.
The C default (value 0) is JAPACKER_STOP. -/
inductive japacker_fail_policy where
  | JAPACKER_STOP
  | JAPACKER_CONTINUE
  | JAPACKER_NEW_IMAGE
deriving Repr, DecidableEq, Inhabited

/-- The japacker_sort_type enum: how rectangles and empty areas are ordered.
The C default (value 0) is JAPACKER_SORT_BY_PERIMETER. -/
inductive japacker_sort_type where
  | JAPACKER_SORT_BY_PERIMETER
  | JAPACKER_SORT_BY_AREA
  | JAPACKER_SORT_BY_HEIGHT
  | JAPACKER_SORT_BY_WIDTH
deriving Repr, DecidableEq, Inhabited

/-- The input half of japacker_rect: caller-provided dimensions. -/
structure japacker_rect_input where
  width : Nat
  height : Nat
deriving Repr, DecidableEq, Inhabited

/-- The output half of japacker_rect, filled by the algorithm.  The C ints
packed and rotated only ever hold 0 or 1 and are modelled as Bool. -/
structure japacker_rect_output where
  x : Nat
  y : Nat
  packed : Bool
  rotated : Bool
  image_index : Nat
deriving Repr, DecidableEq, Inhabited

/-- The japacker_rect struct. -/
structure japacker_rect where
  input : japacker_rect_input
  output : japacker_rect_output
deriving Repr, DecidableEq, Inhabited

/-- One record of the empty-area pool.  The prev and next pointers of the C
struct become optional indices into the pool array. -/
structure japacker_empty_area where
  x : Nat
  y : Nat
  width : Nat
  height : Nat
  comparator : Nat
  prev : Option Nat
  next : Option Nat
deriving Repr, DecidableEq, Inhabited

/-- Undefined-behaviour sites of the C code, surfaced as model-level errors:
 - oobSplit: japacker_split_empty_area stores through list[++index] beyond the
   allocated pool;
 - nullComparator: a call through the set_comparator function pointer while it
   is still null;
 - nullFirst: japacker_pack dereferences empty_areas.first while it is null;
 - nullSortedRects: indexing through a null sorted_rects array;
 - divZero: the unsigned division by rects_area in
   japacker_reduce_last_image_size with rects_area equal to zero;
 - outOfFuel: a modelling artefact marking exhaustion of the image-loop fuel,
   unreachable with the fuel used by japacker_pack. -/
inductive JCrash where
  | oobSplit
  | nullComparator
  | nullFirst
  | nullSortedRects
  | divZero
  | outOfFuel
deriving Repr, DecidableEq

/-- The empty_areas struct inside japacker_internal_data.  The C function
pointer set_comparator is modelled by the sort type it was chosen from, with
none standing for the null pointer it holds before japacker_sort_rects runs. -/
structure japacker_empty_areas where
  first : Option Nat
  last : Option Nat
  list : Array japacker_empty_area
  index : Nat
  size : Nat
  set_comparator : Option japacker_sort_type
deriving Repr, DecidableEq, Inhabited

/-- The japacker_internal_data struct.  sorted_rects holds indices into the
rects array of the packer (the C version holds pointers into it); none models
the null pointer before the first japacker_sort_rects call. -/
structure japacker_internal_data where
  sorted_rects : Option (Array Nat)
  num_rects : Nat
  image_width : Nat
  image_height : Nat
  empty_areas : japacker_empty_areas
deriving Repr, DecidableEq, Inhabited

/-- The options struct of japacker_t.  The C int flags are modelled as Bool
(the code only ever compares them against 0 and 1). -/
structure japacker_options where
  allow_rotation : Bool
  rects_are_sorted : Bool
  always_repack : Bool
  reduce_image_size : Bool
  sort_by : japacker_sort_type
  fail_policy : japacker_fail_policy
deriving Repr, DecidableEq, Inhabited

/-- The result struct of japacker_t. -/
structure japacker_result where
  images_needed : Nat
  last_image_width : Nat
  last_image_height : Nat
deriving Repr, DecidableEq, Inhabited

/-- The japacker_t struct. -/
structure japacker_t where
  rects : Array japacker_rect
  options : japacker_options
  result : japacker_result
  internal_data : japacker_internal_data
deriving Repr, DecidableEq, Inhabited

/-- Reading the empty-area pool at index i (in well-formed states every such
read is in bounds; an out-of-bounds read yields the zero record). -/
def geta (data : japacker_internal_data) (i : Nat) : japacker_empty_area :=
  data.empty_areas.list.getD i default

/-- Updating one record of the empty-area pool in place. -/
def modArea (data : japacker_internal_data) (i : Nat)
    (f : japacker_empty_area → japacker_empty_area) : japacker_internal_data :=
  { data with empty_areas :=
    { data.empty_areas with list := data.empty_areas.list.modify i f } }

/-- japacker_empty_area_set_perimeter_comparator. -/
def japacker_empty_area_set_perimeter_comparator (a : japacker_empty_area) :
    japacker_empty_area :=
  { a with comparator := u32add a.height a.width }

/-- japacker_empty_area_set_area_comparator. -/
def japacker_empty_area_set_area_comparator (a : japacker_empty_area) :
    japacker_empty_area :=
  { a with comparator := u32mul a.height a.width }

/-- japacker_empty_area_set_width_comparator. -/
def japacker_empty_area_set_width_comparator (a : japacker_empty_area) :
    japacker_empty_area :=
  { a with comparator := a.width }

/-- japacker_empty_area_set_height_comparator. -/
def japacker_empty_area_set_height_comparator (a : japacker_empty_area) :
    japacker_empty_area :=
  { a with comparator := a.height }

/-- Dispatch over the four comparator-setting functions, indexed by the sort
type that selected the function pointer in japacker_sort_rects. -/
def japacker_set_comparator (t : japacker_sort_type) (a : japacker_empty_area) :
    japacker_empty_area :=
  match t with
  | .JAPACKER_SORT_BY_PERIMETER => japacker_empty_area_set_perimeter_comparator a
  | .JAPACKER_SORT_BY_AREA => japacker_empty_area_set_area_comparator a
  | .JAPACKER_SORT_BY_HEIGHT => japacker_empty_area_set_height_comparator a
  | .JAPACKER_SORT_BY_WIDTH => japacker_empty_area_set_width_comparator a

/-- japacker_reset_empty_areas: zero the pool (the C memset covers size
records), reset the high-water index, and make record 0 a single empty area
covering the whole image. -/
def japacker_reset_empty_areas (data : japacker_internal_data)
    (width height : Nat) : japacker_internal_data :=
  let ea := data.empty_areas
  let ea := { ea with
    list := ea.list.mapIdx fun i a => if i < ea.size then default else a,
    index := 0,
    first := some 0,
    last := some 0 }
  let ea := { ea with
    list := ea.list.modify 0 fun a => { a with width := width, height := height } }
  { data with empty_areas := ea }

/-- japacker_delist_empty_area: unlink record i from the doubly linked list,
fixing first, last and the neighbour links, then clear the links of i. -/
def japacker_delist_empty_area (data : japacker_internal_data) (i : Nat) :
    japacker_internal_data :=
  let ea := data.empty_areas
  let a := ea.list.getD i default
  let ea := if ea.first = some i then { ea with first := a.next } else ea
  let ea := if ea.last = some i then { ea with last := a.prev } else ea
  let ea :=
    match a.prev with
    | some p => { ea with list := ea.list.modify p fun x => { x with next := a.next } }
    | none => ea
  let ea :=
    match a.next with
    | some n => { ea with list := ea.list.modify n fun x => { x with prev := a.prev } }
    | none => ea
  let ea := { ea with list := ea.list.modify i fun x => { x with prev := none, next := none } }
  { data with empty_areas := ea }

/-- The backward walk of japacker_sort_empty_area: from current, follow prev
links until a record with a strictly smaller comparator is found, and insert
record i right after it; insert i at the front if none is found.  The fuel is
instantiated with pool size + 1 at the call site, which dominates the length
of any well-formed list, so the fuel-exhaustion branch is unreachable there.
In the branch where current is not last, the C code dereferences
current->next unconditionally; in a well-formed list it is non-null, and the
unreachable null case is modelled as leaving the state unchanged. -/
def japacker_sort_walk (data : japacker_internal_data) (i : Nat)
    (current : Option Nat) (fuel : Nat) : japacker_internal_data :=
  match fuel with
  | 0 => data
  | fuel + 1 =>
    match current with
    | some c =>
      let ea := data.empty_areas
      let ca := ea.list.getD c default
      if ca.comparator < (ea.list.getD i default).comparator then
        let ea :=
          if ea.last = some c then { ea with last := some i }
          else
            let ea := { ea with list := ea.list.modify i fun x => { x with next := ca.next } }
            match ca.next with
            | some nx => { ea with list := ea.list.modify nx fun x => { x with prev := some i } }
            | none => ea
        let ea := { ea with list := ea.list.modify i fun x => { x with prev := some c } }
        let ea := { ea with list := ea.list.modify c fun x => { x with next := some i } }
        { data with empty_areas := ea }
      else
        japacker_sort_walk data i ca.prev fuel
    | none =>
      let ea := data.empty_areas
      match ea.first with
      | some f =>
        let ea := { ea with list := ea.list.modify f fun x => { x with prev := some i } }
        let ea := { ea with list := ea.list.modify i fun x => { x with next := some f } }
        { data with empty_areas := { ea with first := some i } }
      | none => data

/-- japacker_sort_empty_area: if the list is empty the new area becomes the
only element, otherwise walk backward from current and insert. -/
def japacker_sort_empty_area (data : japacker_internal_data) (i : Nat)
    (current : Option Nat) : japacker_internal_data :=
  if data.empty_areas.first = none then
    { data with empty_areas :=
      { data.empty_areas with first := some i, last := some i } }
  else
    japacker_sort_walk data i current (data.empty_areas.list.size + 1)

/-- The four adjacency cases of japacker_merge_adjacent_empty_areas, in the
order the C code tests them for each list member. -/
inductive JMergeKind where
  | left
  | right
  | top
  | bottom
deriving Repr, DecidableEq

/-- The traversal inside japacker_merge_adjacent_empty_areas: walk the list
from cur and return the first member that can merge with record i, together
with the direction of the merge.  Fuel as in japacker_sort_walk. -/
def japacker_merge_find (data : japacker_internal_data) (i : Nat)
    (cur : Option Nat) (fuel : Nat) : Option (Nat × JMergeKind) :=
  match fuel with
  | 0 => none
  | fuel + 1 =>
    match cur with
    | none => none
    | some c =>
      let ca := geta data c
      let a := geta data i
      if ca.y = a.y ∧ ca.height = a.height ∧ ca.x + ca.width = a.x then
        some (c, .left)
      else if ca.y = a.y ∧ ca.height = a.height ∧ a.x + a.width = ca.x then
        some (c, .right)
      else if ca.x = a.x ∧ ca.width = a.width ∧ ca.y + ca.height = a.y then
        some (c, .top)
      else if ca.x = a.x ∧ ca.width = a.width ∧ a.y + a.height = ca.y then
        some (c, .bottom)
      else
        japacker_merge_find data i ca.next fuel

/-- japacker_merge_adjacent_empty_areas: repeatedly absorb a full-edge
neighbour into record i (growing i, unlinking the neighbour) until no
neighbour matches; returns whether at least one merge happened.  The outer
fuel is instantiated with pool size + 1 at the call sites, which dominates
the number of possible merges (each merge removes one listed record). -/
def japacker_merge_adjacent_empty_areas (data : japacker_internal_data)
    (i : Nat) (fuel : Nat) : japacker_internal_data × Bool :=
  match fuel with
  | 0 => (data, false)
  | fuel + 1 =>
    match japacker_merge_find data i data.empty_areas.first
        (data.empty_areas.list.size + 1) with
    | none => (data, false)
    | some (c, kind) =>
      let ca := geta data c
      let data := modArea data i fun a =>
        match kind with
        | .left => { a with x := ca.x, width := a.width + ca.width }
        | .right => { a with width := a.width + ca.width }
        | .top => { a with y := ca.y, height := a.height + ca.height }
        | .bottom => { a with height := a.height + ca.height }
      let data := japacker_delist_empty_area data c
      let data := (japacker_merge_adjacent_empty_areas data i fuel).1
      (data, true)

/-- The geometry stage of japacker_split_empty_area: write the leftover
piece chosen by the larger remaining dimension into the fresh slot ni and
reshape record i in place into the other piece. -/
def japacker_split_geometry (data : japacker_internal_data) (i ni width height : Nat) :
    japacker_internal_data :=
  let a := geta data i
  let remaining_width := a.width - width
  let remaining_height := a.height - height
  if remaining_height < remaining_width then
    let d1 := modArea data ni fun x =>
      { x with x := a.x, y := a.y + height, width := width, height := a.height - height }
    modArea d1 i fun x => { x with x := x.x + width, width := x.width - width }
  else
    let d1 := modArea data ni fun x =>
      { x with x := a.x + width, y := a.y, width := a.width - width, height := height }
    modArea d1 i fun x => { x with y := x.y + height, height := x.height - height }

/-- The comparator-and-reinsert stage of japacker_split_empty_area, after the
merges: recompute both comparators, then insert both records into the sorted
list with the backward-walk starting points the C code chooses. -/
def japacker_split_resort (data : japacker_internal_data) (i ni : Nat)
    (original_prev : Option Nat) (merged : Bool) (cmp : japacker_sort_type) :
    japacker_internal_data :=
  let d1 := modArea data i (japacker_set_comparator cmp)
  let d2 := modArea d1 ni (japacker_set_comparator cmp)
  if merged = false then
    let d3 := japacker_sort_empty_area d2 i original_prev
    japacker_sort_empty_area d3 ni (geta d3 i).prev
  else
    if (geta d2 ni).comparator < (geta d2 i).comparator then
      let d3 := japacker_sort_empty_area d2 i d2.empty_areas.last
      japacker_sort_empty_area d3 ni (geta d3 i).prev
    else
      let d3 := japacker_sort_empty_area d2 ni d2.empty_areas.last
      japacker_sort_empty_area d3 i (geta d3 ni).prev

/-- japacker_split_empty_area: place a width by height rectangle at the origin
of listed record i (both dimensions strictly smaller at every C call site),
allocate the next pool slot for one of the two leftover pieces, reshape record
i in place into the other piece, merge both with their neighbours, recompute
both comparators, and reinsert both into the sorted list.  A store beyond the
allocated pool is the oobSplit crash; a null set_comparator pointer is the
nullComparator crash (the C code would crash at the later call sites; the
model surfaces the crash before mutating, which is indistinguishable because
the crashed state is discarded). -/
def japacker_split_empty_area (data : japacker_internal_data) (i : Nat)
    (width height : Nat) : Except JCrash japacker_internal_data :=
  if data.empty_areas.index + 1 < data.empty_areas.list.size then
    match data.empty_areas.set_comparator with
    | none => .error .nullComparator
    | some cmp =>
      let ni := data.empty_areas.index + 1
      let d1 := { data with empty_areas := { data.empty_areas with index := ni } }
      let d2 := japacker_split_geometry d1 i ni width height
      let original_prev := (geta d2 i).prev
      let d3 := japacker_delist_empty_area d2 i
      let r1 := japacker_merge_adjacent_empty_areas d3 i (d3.empty_areas.list.size + 1)
      let r2 := japacker_merge_adjacent_empty_areas r1.1 ni (r1.1.empty_areas.list.size + 1)
      .ok (japacker_split_resort r2.1 i ni original_prev (r1.2 || r2.2) cmp)
  else
    .error .oobSplit

/-- The list walk of japacker_pack_rect: find the first (smallest) listed
area that can hold a width by height rectangle.  Fuel as above. -/
def japacker_find_fit (data : japacker_internal_data) (width height : Nat)
    (cur : Option Nat) (fuel : Nat) : Option Nat :=
  match fuel with
  | 0 => none
  | fuel + 1 =>
    match cur with
    | none => none
    | some i =>
      let a := geta data i
      if height > a.height ∨ width > a.width then
        japacker_find_fit data width height a.next fuel
      else
        some i

/-- The unlink-merge-resort stage shared by the two in-place shrink branches
of japacker_pack_rect, run after the geometry update of record i: remember
the predecessor, unlink, merge (restarting the insertion at the list tail if
a merge happened, since merging can only grow the comparator), recompute the
comparator and reinsert. -/
def japacker_shrink_resort (data : japacker_internal_data) (i : Nat)
    (cmp : japacker_sort_type) : japacker_internal_data :=
  let prev0 := (geta data i).prev
  let d1 := japacker_delist_empty_area data i
  let r := japacker_merge_adjacent_empty_areas d1 i (d1.empty_areas.list.size + 1)
  let prev1 := if r.2 then r.1.empty_areas.last else prev0
  let d2 := modArea r.1 i (japacker_set_comparator cmp)
  japacker_sort_empty_area d2 i prev1

/-- The body of japacker_pack_rect without the rotation retry (the C call with
allow_rotation equal to 0): find the smallest fitting area, stamp the output
position, and consume the area by removal, in-place shrink or split.  On
failure the rotated flag is cleared and the state is returned unchanged. -/
def japacker_pack_rect_noretry (data : japacker_internal_data)
    (rect : japacker_rect) :
    Except JCrash (japacker_internal_data × japacker_rect × Bool) :=
  let width := if rect.output.rotated = false then rect.input.width else rect.input.height
  let height := if rect.output.rotated = false then rect.input.height else rect.input.width
  match japacker_find_fit data width height data.empty_areas.first
      (data.empty_areas.list.size + 1) with
  | none =>
    .ok (data, { rect with output := { rect.output with rotated := false } }, false)
  | some i =>
    let a := geta data i
    let rect := { rect with output := { rect.output with x := a.x, y := a.y, packed := true } }
    if height = a.height ∧ width = a.width then
      .ok (japacker_delist_empty_area data i, rect, true)
    else if height = a.height then
      match data.empty_areas.set_comparator with
      | none => .error .nullComparator
      | some cmp =>
        let d1 := modArea data i fun x => { x with x := x.x + width, width := x.width - width }
        .ok (japacker_shrink_resort d1 i cmp, rect, true)
    else if width = a.width then
      match data.empty_areas.set_comparator with
      | none => .error .nullComparator
      | some cmp =>
        let d1 := modArea data i fun x => { x with y := x.y + height, height := x.height - height }
        .ok (japacker_shrink_resort d1 i cmp, rect, true)
    else
      match japacker_split_empty_area data i width height with
      | .error e => .error e
      | .ok data => .ok (data, rect, true)

/-- japacker_pack_rect: try the rectangle as is; if nothing fits and rotation
is allowed, set the rotated flag and retry once (the retry itself clears the
flag again if it also fails, exactly as the recursive C call does). -/
def japacker_pack_rect (data : japacker_internal_data) (rect : japacker_rect)
    (allow_rotation : Bool) :
    Except JCrash (japacker_internal_data × japacker_rect × Bool) :=
  match japacker_pack_rect_noretry data rect with
  | .ok (d, r, false) =>
    if allow_rotation then
      japacker_pack_rect_noretry d { r with output := { r.output with rotated := true } }
    else
      .ok (d, r, false)
  | other => other

/-- The descending sort metric of japacker_sort_rects, one case per C
comparison callback (perimeter, area, height, width). -/
def japacker_rect_metric (t : japacker_sort_type) (r : japacker_rect) : Nat :=
  match t with
  | .JAPACKER_SORT_BY_PERIMETER => r.input.height + r.input.width
  | .JAPACKER_SORT_BY_AREA => r.input.height * r.input.width
  | .JAPACKER_SORT_BY_HEIGHT => r.input.height
  | .JAPACKER_SORT_BY_WIDTH => r.input.width

/-- Insert an element into a list already sorted descending by key. -/
def insertDescBy (key : Nat → Nat) (x : Nat) : List Nat → List Nat
  | [] => [x]
  | y :: l => if key y < key x then x :: y :: l else y :: insertDescBy key x l

/-- Sort a list descending by key (an insertion sort). -/
def sortDescBy (key : Nat → Nat) : List Nat → List Nat
  | [] => []
  | x :: l => insertDescBy key x (sortDescBy key l)

/-- japacker_sort_rects: build the sorted_rects view (indices into the rects
array standing for the C pointers into it) and, unless the caller asserted the
rects are already sorted, sort it descending by the chosen metric and select
the matching empty-area comparator function.  The C qsort breaks ties in an
unspecified order; the model uses a stable insertion sort — no claim below
depends on the tie order.  The C out-of-memory path of the allocation is not
modelled. -/
def japacker_sort_rects (p : japacker_t) : japacker_t :=
  let data := p.internal_data
  let idxs := List.range data.num_rects
  if p.options.rects_are_sorted ≠ true then
    let key := fun i => japacker_rect_metric p.options.sort_by (p.rects.getD i default)
    let sorted := sortDescBy key idxs
    { p with
      internal_data := { data with
        sorted_rects := some sorted.toArray,
        empty_areas := { data.empty_areas with set_comparator := some p.options.sort_by } },
      options := { p.options with rects_are_sorted := true } }
  else
    { p with internal_data := { data with sorted_rects := some idxs.toArray } }

/-- The loop state of the rectangle loop inside japacker_pack: the packer, the
count of rects packed by this call, the area placed into the current image and
the request_new_image flag. -/
structure JPassSt where
  p : japacker_t
  packed_rects : Nat
  area_used : Nat
  request_new_image : Bool
deriving Repr, DecidableEq

/-- The outcome of one iteration (or of the whole rectangle loop) inside
japacker_pack: either an early return out of japacker_pack with value v and
the packer state at that point, or the loop state to continue from. -/
inductive JPassRes where
  | exited (v : Nat) (p : japacker_t)
  | completed (st : JPassSt)
deriving Repr, DecidableEq

/-- One iteration of the rectangle loop of japacker_pack, processing sorted
position i: skip already packed rects (unless a full repack of the first
image is underway), attempt placement, and on failure apply the overflow
policy, including the pristine-image abort of the JAPACKER_NEW_IMAGE policy
that decrements images_needed (with unsigned wraparound). -/
def japacker_pack_handle_rect (st : JPassSt) (i : Nat) : Except JCrash JPassRes :=
  let p := st.p
  match p.internal_data.sorted_rects with
  | none => .error .nullSortedRects
  | some sorted =>
    let ridx := sorted.getD i 0
    let rect := p.rects.getD ridx default
    if rect.output.packed = true ∧
        (p.options.always_repack ≠ true ∨ p.result.images_needed ≠ 0) then
      .ok (.completed st)
    else
      let rect := { rect with output := { rect.output with packed := false } }
      match japacker_pack_rect p.internal_data rect p.options.allow_rotation with
      | .error e => .error e
      | .ok (data, rect, success) =>
        let p := { p with internal_data := data, rects := p.rects.setD ridx rect }
        if success = false then
          if p.options.fail_policy = .JAPACKER_CONTINUE then
            .ok (.completed { st with p := p })
          else if p.options.fail_policy = .JAPACKER_NEW_IMAGE then
            let st := { st with p := p, request_new_image := true }
            match p.internal_data.empty_areas.first with
            | none => .error .nullFirst
            | some f =>
              let fa := geta p.internal_data f
              if fa.width = p.internal_data.image_width ∧
                  fa.height = p.internal_data.image_height then
                let p := { p with result := { p.result with
                  images_needed := u32sub p.result.images_needed 1 } }
                .ok (.exited st.packed_rects p)
              else
                .ok (.completed st)
          else
            .ok (.exited i p)
        else
          let rect := { rect with output := { rect.output with
            image_index := p.result.images_needed, packed := true } }
          let p := { p with rects := p.rects.setD ridx rect }
          let st := { st with p := p
                              packed_rects := st.packed_rects + 1
                              area_used := st.area_used + rect.input.width * rect.input.height }
          .ok (.completed st)

/-- The rectangle loop of japacker_pack, processing sorted positions
i, i + 1, ... while todo counts down the remaining iterations (the loop is
entered with i = 0 and todo = num_rects, matching the C for loop). -/
def japacker_pack_rect_loop (st : JPassSt) (i todo : Nat) :
    Except JCrash JPassRes :=
  match todo with
  | 0 => .ok (.completed st)
  | todo + 1 =>
    match japacker_pack_handle_rect st i with
    | .error e => .error e
    | .ok (.exited v p) => .ok (.exited v p)
    | .ok (.completed st) => japacker_pack_rect_loop st (i + 1) todo

/-- The outcome of the do-while image loop of japacker_pack: an early return
with value v, or normal completion carrying the packed count and the area
placed into the last image. -/
inductive JImagesRes where
  | returned (v : Nat) (p : japacker_t)
  | finished (p : japacker_t) (packed_rects : Nat) (area_used : Nat)
deriving Repr, DecidableEq

/-- The do-while loop of japacker_pack: reset the empty areas to one
image-sized area, run the rectangle loop, count the finished image and repeat
while a new image was requested.  japacker_pack instantiates the fuel with
num_rects + 1, which dominates the number of passes the C loop can make
(every continuing pass packs at least one previously unpacked rect). -/
def japacker_pack_images_loop (p : japacker_t) (packed_rects : Nat)
    (fuel : Nat) : Except JCrash JImagesRes :=
  match fuel with
  | 0 => .error .outOfFuel
  | fuel + 1 =>
    let data := japacker_reset_empty_areas p.internal_data
      p.internal_data.image_width p.internal_data.image_height
    let p := { p with internal_data := data }
    match japacker_pack_rect_loop
        { p := p, packed_rects := packed_rects, area_used := 0,
          request_new_image := false } 0 p.internal_data.num_rects with
    | .error e => .error e
    | .ok (.exited v pE) => .ok (.returned v pE)
    | .ok (.completed st) =>
      let p := { st.p with result := { st.p.result with
        images_needed := u32add st.p.result.images_needed 1 } }
      if st.request_new_image then
        japacker_pack_images_loop p st.packed_rects fuel
      else
        .ok (.finished p st.packed_rects st.area_used)

/-- JAPACKER_TOLERABLE_AREA_DIFFERENCE_PERCENTAGE. -/
def JAPACKER_TOLERABLE_AREA_DIFFERENCE_PERCENTAGE : Nat := 2

/-- Iteration for the floor square root: raise r while (r + 1) ^ 2 still
fits below n; the fuel n dominates the number of steps. -/
def isqrtFrom (n r fuel : Nat) : Nat :=
  match fuel with
  | 0 => r
  | fuel + 1 => if (r + 1) * (r + 1) ≤ n then isqrtFrom n (r + 1) fuel else r

/-- The floor square root of n (a structurally recursive equivalent of
Nat.sqrt, used because it evaluates on concrete inputs by kernel
reduction). -/
def isqrt (n : Nat) : Nat := isqrtFrom n 0 n

/-- The repack loop inside japacker_reduce_last_image_size: repack the rects
of the last image (in sorted order) into the candidate image size, stopping
at the first failure. -/
def japacker_reduce_attempt (p : japacker_t) (image_index : Nat) (i todo : Nat) :
    Except JCrash (japacker_t × Bool) :=
  match todo with
  | 0 => .ok (p, false)
  | todo + 1 =>
    match p.internal_data.sorted_rects with
    | none => .error .nullSortedRects
    | some sorted =>
      let ridx := sorted.getD i 0
      let rect := p.rects.getD ridx default
      if rect.output.image_index ≠ image_index then
        japacker_reduce_attempt p image_index (i + 1) todo
      else
        match japacker_pack_rect p.internal_data rect p.options.allow_rotation with
        | .error e => .error e
        | .ok (data, rect, success) =>
          let p := { p with internal_data := data, rects := p.rects.setD ridx rect }
          if success = false then
            .ok (p, true)
          else
            japacker_reduce_attempt p image_index (i + 1) todo

/-- The final repack loop of japacker_reduce_last_image_size (run after
restoring the last successful size); it ignores placement failures exactly as
the C code ignores the japacker_pack_rect return value there. -/
def japacker_reduce_restore (p : japacker_t) (image_index : Nat) (i todo : Nat) :
    Except JCrash japacker_t :=
  match todo with
  | 0 => .ok p
  | todo + 1 =>
    match p.internal_data.sorted_rects with
    | none => .error .nullSortedRects
    | some sorted =>
      let ridx := sorted.getD i 0
      let rect := p.rects.getD ridx default
      if rect.output.image_index ≠ image_index then
        japacker_reduce_restore p image_index (i + 1) todo
      else
        match japacker_pack_rect p.internal_data rect p.options.allow_rotation with
        | .error e => .error e
        | .ok (data, rect, _) =>
          let p := { p with internal_data := data, rects := p.rects.setD ridx rect }
          japacker_reduce_restore p image_index (i + 1) todo

/-- The while loop of japacker_reduce_last_image_size: shrink the candidate
size by the deltas after a success, grow it after a failure, halve the deltas
each turn, and stop when a success lands inside the tolerance or a delta
reaches zero.  Returns the packer and the last successful width and height.
The fuel is instantiated with delta_width + 1 at the call site, which
dominates the number of halving iterations; the fuel-exhaustion branch
coincides with the zero-delta exit. -/
def japacker_reduce_loop (p : japacker_t) (rects_area image_index : Nat)
    (lsw lsh dw dh : Nat) (fuel : Nat) : Except JCrash (japacker_t × Nat × Nat) :=
  match fuel with
  | 0 => .ok (p, lsw, lsh)
  | fuel + 1 =>
  if dw = 0 ∨ dh = 0 then
    .ok (p, lsw, lsh)
  else
    let res := p.result
    let res :=
      if lsw = res.last_image_width then
        { res with last_image_width := res.last_image_width - dw
                   last_image_height := res.last_image_height - dh }
      else
        { res with last_image_width := res.last_image_width + dw
                   last_image_height := res.last_image_height + dh }
    let p := { p with result := res }
    let dataR := japacker_reset_empty_areas p.internal_data
      res.last_image_width res.last_image_height
    let p := { p with internal_data := dataR }
    match japacker_reduce_attempt p image_index 0 p.internal_data.num_rects with
    | .error e => .error e
    | .ok (p, failed) =>
      if failed = false then
        let lsw := p.result.last_image_width
        let lsh := p.result.last_image_height
        if lsw * lsh * 100 / rects_area <
            100 + JAPACKER_TOLERABLE_AREA_DIFFERENCE_PERCENTAGE then
          .ok (p, lsw, lsh)
        else
          japacker_reduce_loop p rects_area image_index lsw lsh (dw / 2) (dh / 2) fuel
      else
        japacker_reduce_loop p rects_area image_index lsw lsh (dw / 2) (dh / 2) fuel

/-- japacker_reduce_last_image_size.  The C guard divides by rects_area with
unsigned division, so rects_area equal to zero is the divZero crash.  The C
code derives needed_width and needed_height from double sqrt applied to
rects_area scaled by the float aspect ratio image_width / image_height; the
model uses the Nat square root of the correspondingly scaled integer.  On the
concrete inputs used by the theorems below the image is square (the ratio is
exactly 1.0f) and rects_area is an exactly representable perfect square, so
the C computation is exact and agrees with the Nat computation. -/
def japacker_reduce_last_image_size (p : japacker_t) (rects_area : Nat) :
    Except JCrash japacker_t :=
  let data := p.internal_data
  let current_area := data.image_width * data.image_height
  if rects_area = 0 then
    .error .divZero
  else if current_area * 100 / rects_area <
      100 + JAPACKER_TOLERABLE_AREA_DIFFERENCE_PERCENTAGE then
    .ok p
  else
    let image_index := u32sub p.result.images_needed 1
    let needed_width := isqrt (rects_area * data.image_width / data.image_height) + 1
    let needed_height := isqrt (rects_area * data.image_height / data.image_width) + 1
    let delta_width := (data.image_width - needed_width) / 2
    let delta_height := (data.image_height - needed_height) / 2
    match japacker_reduce_loop p rects_area image_index data.image_width
        data.image_height delta_width delta_height (delta_width + 1) with
    | .error e => .error e
    | .ok (p, lsw, lsh) =>
      if lsw ≠ p.result.last_image_width then
        let resR := { p.result with last_image_width := lsw, last_image_height := lsh }
        let p := { p with result := resR }
        let dataR := japacker_reset_empty_areas p.internal_data lsw lsh
        let p := { p with internal_data := dataR }
        japacker_reduce_restore p image_index 0 p.internal_data.num_rects
      else
        .ok p

/-- japacker_init: allocate and zero everything.  The out-of-memory paths
are not modelled (the model cannot fail to allocate); the zeroed C structs
correspond to the default values of the structures above. -/
def japacker_init (num_rectangles width height : Nat) : japacker_t :=
  { rects := Array.mkArray num_rectangles default,
    options := default,
    result := default,
    internal_data := {
      sorted_rects := none,
      num_rects := num_rectangles,
      image_width := width,
      image_height := height,
      empty_areas := {
        first := none,
        last := none,
        list := Array.mkArray (num_rectangles + 1) default,
        index := 0,
        size := num_rectangles + 1,
        set_comparator := none } } }

/-- japacker_pack: validate the setup, sort the rects if needed, optionally
reset the images counter for a full repack, run the image loop, record the
nominal size as the last-image size and optionally run the shrink-to-fit
optimizer.  Returns the C int return value (negative for the parameter
error) together with the final packer state; crashes are Except errors.
The C check of the rects pointer against null has no model counterpart (the
model array always exists) and is dropped. -/
def japacker_pack (p : japacker_t) : Except JCrash (Int × japacker_t) :=
  let data := p.internal_data
  if data.num_rects = 0 ∨ data.image_width = 0 ∨ data.image_height = 0 ∨
      data.empty_areas.size ≠ data.num_rects + 1 then
    .ok (-1, p)
  else
    let p := if p.options.rects_are_sorted ≠ true ∨ data.sorted_rects = none then
      japacker_sort_rects p else p
    let p := if p.options.always_repack = true then
      { p with result := { p.result with images_needed := 0 } } else p
    match japacker_pack_images_loop p 0 (p.internal_data.num_rects + 1) with
    | .error e => .error e
    | .ok (.returned v pE) => .ok ((v : Int), pE)
    | .ok (.finished pF packed area_used) =>
      let pF := { pF with result := { pF.result with
        last_image_width := pF.internal_data.image_width,
        last_image_height := pF.internal_data.image_height } }
      if pF.options.reduce_image_size = true then
        match japacker_reduce_last_image_size pF area_used with
        | .error e => .error e
        | .ok pR => .ok ((packed : Int), pR)
      else
        .ok ((packed : Int), pF)

/-- japacker_get_dst_offset, with the C unsigned arithmetic modelled by the
wrapping helpers (the rotated branch subtracts x * dst_width, which wraps for
out-of-footprint arguments). -/
def japacker_get_dst_offset (p : japacker_t) (rect : japacker_rect)
    (x y : Nat) : Nat :=
  let dst_width :=
    if p.options.reduce_image_size = true ∧
        rect.output.image_index = u32sub p.result.images_needed 1 then
      p.result.last_image_width
    else
      p.internal_data.image_width
  if rect.output.rotated = false then
    u32add (u32mul (u32add y rect.output.y) dst_width) (u32add rect.output.x x)
  else
    u32sub
      (u32add (u32mul (u32add rect.output.y (u32sub rect.input.width 1)) dst_width)
        (u32add y rect.output.x))
      (u32mul x dst_width)

/-! Specification-side observation apparatus (not translated from the C code:
these definitions only read the model state to express the claims). -/

/-- The indices of the empty-area list, read by following next links from
cur; the fuel dominates the length of any well-formed list. -/
def chainFrom (data : japacker_internal_data) (cur : Option Nat) (fuel : Nat) :
    List Nat :=
  match fuel with
  | 0 => []
  | fuel + 1 =>
    match cur with
    | none => []
    | some i => i :: chainFrom data (geta data i).next fuel

/-- The indices of the empty-area list from first to last. -/
def chainIndices (data : japacker_internal_data) : List Nat :=
  chainFrom data data.empty_areas.first (data.empty_areas.list.size + 1)

/-- The comparators of the empty-area list, from first to last. -/
def chainComparators (data : japacker_internal_data) : List Nat :=
  (chainIndices data).map fun i => (geta data i).comparator

/-- A plain geometric rectangle (a half-open box of pixels). -/
structure JRectGeo where
  x : Nat
  y : Nat
  w : Nat
  h : Nat
deriving Repr, DecidableEq

/-- The geometric footprint of an empty-area record. -/
def areaGeo (a : japacker_empty_area) : JRectGeo :=
  { x := a.x, y := a.y, w := a.width, h := a.height }

/-- The geometric footprints of the current empty-area list. -/
def chainGeos (data : japacker_internal_data) : List JRectGeo :=
  (chainIndices data).map fun i => areaGeo (geta data i)

/-- The destination-image footprint of a packed rectangle: its output
position together with its effective (rotated if the flag is set)
dimensions. -/
def footprintOf (r : japacker_rect) : JRectGeo :=
  if r.output.rotated then
    { x := r.output.x, y := r.output.y, w := r.input.height, h := r.input.width }
  else
    { x := r.output.x, y := r.output.y, w := r.input.width, h := r.input.height }

/-- Whether pixel (px, py) lies in a geometric rectangle. -/
def inGeo (g : JRectGeo) (px py : Nat) : Bool :=
  decide (g.x ≤ px ∧ px < g.x + g.w ∧ g.y ≤ py ∧ py < g.y + g.h)

/-- How many rectangles of the list cover pixel (px, py). -/
def coverCount (l : List JRectGeo) (px py : Nat) : Nat :=
  l.countP fun g => inGeo g px py

/-- The list of regions tiles the W by H destination exactly: every pixel of
the destination is covered by exactly one region and every pixel outside it
by none (this simultaneously expresses pairwise disjointness, the absence of
gaps, and containment in the destination). -/
def exactPartition (l : List JRectGeo) (W H : Nat) : Prop :=
  ∀ px py : Nat, coverCount l px py = if px < W ∧ py < H then 1 else 0

/-- Run a sequence of japacker_pack_rect placements against the empty-area
store, requiring every placement to succeed, and collect the footprints of
the placed rectangles (an unsuccessful placement or a crash yields none). -/
def runPlacements (data : japacker_internal_data)
    (steps : List (japacker_rect × Bool)) :
    Option (japacker_internal_data × List JRectGeo) :=
  match steps with
  | [] => some (data, [])
  | (r, a) :: rest =>
    match japacker_pack_rect data r a with
    | .error _ => none
    | .ok (d, rp, success) =>
      if success then
        match runPlacements d rest with
        | none => none
        | some (dF, fps) => some (dF, footprintOf rp :: fps)
      else
        none

/-- Whether a list of comparator values is in ascending order. -/
def ascending : List Nat → Bool
  | [] => true
  | [_] => true
  | a :: b :: l => a ≤ b && ascending (b :: l)

/-- The number of destination images that actually hold at least one packed
rectangle (the count of distinct image indices among packed rects). -/
def imagesUsed (p : japacker_t) : Nat :=
  ((p.rects.toList.filterMap fun r =>
    if r.output.packed then some r.output.image_index else none).dedup).length

/-- The geometric footprint of pool record i. -/
def geoOf (data : japacker_internal_data) (i : Nat) : JRectGeo :=
  areaGeo (geta data i)

/-- The footprints of a list of pool records. -/
def geoList (data : japacker_internal_data) (l : List Nat) : List JRectGeo :=
  l.map (geoOf data)

/-- The doubly linked list spells the index sequence l when entered at cur
with entry predecessor prev, and leaves with successor pointer after: each
record points back at its predecessor and forward along the sequence. -/
def segOk (data : japacker_internal_data) :
    Option Nat → Option Nat → List Nat → Option Nat → Prop
  | _, cur, [], after => cur = after
  | prev, cur, i :: rest, after => cur = some i ∧ (geta data i).prev = prev ∧
      segOk data (some i) (geta data i).next rest after

instance segOkDecidable (data : japacker_internal_data) :
    ∀ (prev cur : Option Nat) (l : List Nat) (after : Option Nat),
    Decidable (segOk data prev cur l after)
  | _, cur, [], after => by unfold segOk; infer_instance
  | prev, cur, i :: rest, after => by
      unfold segOk
      have := segOkDecidable data (some i) (geta data i).next rest after
      infer_instance

/-- The predecessor pointer a chain segment hands to what follows it: its
last record if it has one, the predecessor it was entered with otherwise. -/
def entryPrev (l : List Nat) (prev : Option Nat) : Option Nat :=
  match l.getLast? with
  | some x => some x
  | none => prev

/-- The empty-area store holds exactly the doubly linked chain l: the links
spell l from first to last, and the indices are distinct, in bounds and
within the allocated high-water index. -/
def chainWF (data : japacker_internal_data) (l : List Nat) : Prop :=
  segOk data none data.empty_areas.first l none ∧
  data.empty_areas.last = l.getLast? ∧
  l.Nodup ∧
  ∀ i ∈ l, i < data.empty_areas.list.size ∧ i ≤ data.empty_areas.index

/-- Every pool slot outside the chain has cleared links (as after a delist
or a reset): the split step relies on this for the fresh slot it allocates
and the sorted insert relies on it for the record it links in. -/
def clearedOutside (data : japacker_internal_data) (l : List Nat) : Prop :=
  ∀ j, j < data.empty_areas.list.size → j ∉ l →
    (geta data j).prev = none ∧ (geta data j).next = none

/-- The store invariant of the tiling claim. -/
def StoreWF (data : japacker_internal_data) (l : List Nat) : Prop :=
  chainWF data l ∧ clearedOutside data l

/-! Concrete inputs used by the theorems below. -/

/-- A packer with the input dimensions of rect i filled in (step 6 of the
usage protocol of the header). -/
def withRect (p : japacker_t) (i w h : Nat) : japacker_t :=
  let r : japacker_rect := { input := { width := w, height := h }, output := default }
  { p with rects := p.rects.setD i r }

/-- One 4 by 1 rect into a 6 by 2 image, default options. -/
def c2_packer : japacker_t := withRect (japacker_init 1 6 2) 0 4 1

/-- One 60 by 60 rect into a 100 by 100 image with reduce_image_size on. -/
def c4_packer : japacker_t :=
  let p := withRect (japacker_init 1 100 100) 0 60 60
  { p with options := { p.options with reduce_image_size := true } }

/-- The packer state right before the shrink-to-fit step for c4_packer: the
result of a full pack with the reduce flag held off, with the flag then
switched back on.  The reduce step never reads the flag itself, so this is
exactly the state japacker_pack hands to japacker_reduce_last_image_size. -/
def c4_witness_packer : japacker_t :=
  match japacker_pack { c4_packer with options := { c4_packer.options with reduce_image_size := false } } with
  | .ok r => { r.2 with options := { r.2.options with reduce_image_size := true } }
  | .error _ => c4_packer

/-- The packer returned by the shrink-to-fit step on c4_witness_packer with
the 60 by 60 rects area. -/
def c4_witness_pR : japacker_t :=
  match japacker_reduce_last_image_size c4_witness_packer 3600 with
  | .ok r => r
  | .error _ => c4_witness_packer

/-- One 2 by 2 rect into a 10 by 10 image, default options. -/
def c5_packer : japacker_t := withRect (japacker_init 1 10 10) 0 2 2

/-- The packer state after the first japacker_pack call on c5_packer: the
2 by 2 rect is packed, the sorted view is built and rects_are_sorted is
set. -/
def c5_witness_packer : japacker_t :=
  match japacker_pack c5_packer with
  | .ok r => r.2
  | .error _ => c5_packer

/-- A 20 by 20 rect (which cannot fit) and a 2 by 2 rect into a 10 by 10
image under the Continue policy. -/
def c6_packer : japacker_t :=
  let p := withRect (withRect (japacker_init 2 10 10) 0 20 20) 1 2 2
  { p with options := { p.options with fail_policy := .JAPACKER_CONTINUE } }

/-- Pack c6_packer once under Continue (packing the 2 by 2 rect and skipping
the unfittable one), then switch the policy to Stop and pack again. -/
def c6_second : Except JCrash (Int × japacker_t) :=
  (japacker_pack c6_packer).bind fun r =>
    japacker_pack { r.2 with options := { r.2.options with fail_policy := .JAPACKER_STOP } }

/-- The packer after the first japacker_pack call on c6_packer, with the
fail policy switched to Stop for a second call (the 2 by 2 rect is already
packed, the unfittable 20 by 20 one is not). -/
def c6_witness_packer : japacker_t :=
  match japacker_pack c6_packer with
  | .ok r => { r.2 with options := { r.2.options with fail_policy := .JAPACKER_STOP } }
  | .error _ => c6_packer

/-- The packer state at the Stop abort of the second call on
c6_witness_packer: the exit state of its rectangle loop. -/
def c6_witness_pE : japacker_t :=
  let q := c6_witness_packer
  let d := japacker_reset_empty_areas q.internal_data q.internal_data.image_width
    q.internal_data.image_height
  match japacker_pack_rect_loop
      { p := { q with internal_data := d }, packed_rects := 0, area_used := 0,
        request_new_image := false } 0 q.internal_data.num_rects with
  | .ok (.exited _ r) => r
  | _ => q

/-- A 9 by 9 rect (which fits) and an 11 by 1 rect (which cannot fit any 10
by 10 image, rotated or not, and sorts after the 9 by 9 one) into a 10 by 10
image under the NewImage policy. -/
def c7_packer : japacker_t :=
  let p := withRect (withRect (japacker_init 2 10 10) 0 9 9) 1 11 1
  { p with options := { p.options with fail_policy := .JAPACKER_NEW_IMAGE } }

/-- A single 11 by 1 rect (which cannot fit a 10 by 10 image, rotated or
not) under the NewImage policy, with the sorted view already built: its
first packing pass aborts against the pristine image. -/
def c7_witness_packer : japacker_t :=
  let p := withRect (japacker_init 1 10 10) 0 11 1
  japacker_sort_rects
    { p with options := { p.options with fail_policy := .JAPACKER_NEW_IMAGE } }

/-- The packer state at the NewImage pristine-image abort of
c7_witness_packer: the exit state of its rectangle loop. -/
def c7_witness_pE : japacker_t :=
  let q := c7_witness_packer
  let d := japacker_reset_empty_areas q.internal_data q.internal_data.image_width
    q.internal_data.image_height
  match japacker_pack_rect_loop
      { p := { q with internal_data := d }, packed_rects := 0, area_used := 0,
        request_new_image := false } 0 q.internal_data.num_rects with
  | .ok (.exited _ r) => r
  | _ => q

/-- One 20 by 20 rect (which cannot fit) into a 10 by 10 image under the
Continue policy with reduce_image_size on, so the packing pass places
nothing and the optimizer is entered with a zero rects area. -/
def c9_packer : japacker_t :=
  let p := withRect (japacker_init 1 10 10) 0 20 20
  let o := { p.options with fail_policy := .JAPACKER_CONTINUE, reduce_image_size := true }
  { p with options := o }

/-- A 10 by 10 rect that fills the 10 by 10 image exactly (emptying the
empty-area list) followed by a 1 by 1 rect that then has no area to go to,
under the NewImage policy. -/
def c10_packer : japacker_t :=
  let p := withRect (withRect (japacker_init 2 10 10) 0 10 10) 1 1 1
  { p with options := { p.options with fail_policy := .JAPACKER_NEW_IMAGE } }

/-- The frame of the internal data that none of the empty-area operations
changes: rect counts, image dimensions, the sorted view, the pool length,
the capacity field and the comparator choice. -/
def eaShape (d d2 : japacker_internal_data) : Prop :=
  d2.num_rects = d.num_rects ∧
  d2.image_width = d.image_width ∧
  d2.image_height = d.image_height ∧
  d2.sorted_rects = d.sorted_rects ∧
  d2.empty_areas.list.size = d.empty_areas.list.size ∧
  d2.empty_areas.size = d.empty_areas.size ∧
  d2.empty_areas.set_comparator = d.empty_areas.set_comparator

/-- eaShape together with preservation of the high-water index: what the
list operations (unlink, insert, merge, in-place update) guarantee. -/
def keeps (d d2 : japacker_internal_data) : Prop :=
  eaShape d d2 ∧ d2.empty_areas.index = d.empty_areas.index

/-- The destination width japacker_get_dst_offset uses for a rect: the
shrink-adjusted size exactly for rectangles on the last image when
reduce_image_size is on, the nominal width otherwise — that is, the width of
the image the rectangle landed on. -/
def dstWidthOf (q : japacker_t) (r : japacker_rect) : Nat :=
  if q.options.reduce_image_size = true ∧
      r.output.image_index = u32sub q.result.images_needed 1 then
    q.result.last_image_width
  else
    q.internal_data.image_width

/-- A store for the C8 witness: one pristine 5 by 10 area (so a 10 by 5 rect
only fits rotated). -/
def c8_data : japacker_internal_data :=
  japacker_reset_empty_areas (japacker_init 1 5 10).internal_data 5 10

/-- The 10 by 5 rect of the C8 witness. -/
def c8_rect : japacker_rect :=
  { input := { width := 10, height := 5 }, output := default }

/-- A packer for the offset half of the C8 witness (image width 7, reduce
off). -/
def c8_q : japacker_t := japacker_init 1 7 9

/-- A rotated packed rect for the offset half of the C8 witness. -/
def c8_r : japacker_rect :=
  { input := { width := 10, height := 5 },
    output := { x := 3, y := 2, packed := true, rotated := true, image_index := 0 } }

/-- The walkthrough destination of the header as an internal store: one 150
by 100 empty area spanning the whole image in a six-slot pool, with the
default perimeter comparator installed. -/
def c1_data0 : japacker_internal_data :=
  { sorted_rects := none, num_rects := 0, image_width := 150, image_height := 100,
    empty_areas :=
      { first := some 0, last := some 0,
        list := #[{ x := 0, y := 0, width := 150, height := 100, comparator := 250, prev := none, next := none }, default, default, default, default, default],
        index := 0, size := 6,
        set_comparator := some .JAPACKER_SORT_BY_PERIMETER } }

/-- A fresh input rectangle for the walkthrough placements. -/
def c1_rect (w h : Nat) : japacker_rect :=
  { input := { width := w, height := h }, output := default }

/-- The walkthrough placement sequence: 100 by 100, then 50 by 50 twice,
without rotation. -/
def c1_steps : List (japacker_rect × Bool) :=
  [(c1_rect 100 100, false), (c1_rect 50 50, false), (c1_rect 50 50, false)]

/-- The state and footprints after the walkthrough placements. -/
def c1_run : japacker_internal_data × List JRectGeo :=
  match runPlacements c1_data0 c1_steps with
  | some r => r
  | none => (c1_data0, [])

instance chainWF_decidable (data : japacker_internal_data) (l : List Nat) :
    Decidable (chainWF data l) := by
  unfold chainWF
  infer_instance

instance clearedOutside_decidable (data : japacker_internal_data)
    (l : List Nat) : Decidable (clearedOutside data l) := by
  unfold clearedOutside
  infer_instance

instance StoreWF_decidable (data : japacker_internal_data) (l : List Nat) :
    Decidable (StoreWF data l) := by
  unfold StoreWF
  infer_instance

/-- Claim C2: the claim states that the empty-area list is sorted ascending
by comparator at every point during packing, and the source comments assert
the assumptions behind the backward-only insertion are always true.  The code
violates this: packing a single 4 by 1 rect into a 6 by 2 image (default
perimeter sort) splits the initial area into a 4 by 1 piece (comparator 5)
and a 2 by 2 piece (comparator 4); both insertions start their backward walk
at a null predecessor, so the pieces end up in descending order [5, 4].  This
theorem evaluates the code at that failing input. -/
theorem c2_empty_area_list_not_sorted :
    (japacker_pack c2_packer).map (fun r => chainComparators r.2.internal_data) =
      .ok [5, 4] ∧
    ascending [5, 4] = false := by
  constructor
  · decide
  · decide

/-- Claim C4 counterexample: for one 60 by 60 rect in a 100 by 100 image with
reduce_image_size on, the optimizer converges to 65 by 65 (each candidate
succeeds, so the size keeps shrinking until the deltas reach zero), an area
that is 117 percent of the 3600 rects area — outside the 102 percent
tolerance — while the original 100 by 100 size does not stand either; the
claim that the final product is within tolerance or the original size stands
is therefore false at this input. -/
theorem c4_counterexample :
    ((japacker_pack c4_packer).map fun r =>
      (r.1, r.2.result.last_image_width, r.2.result.last_image_height)) =
      .ok (1, 65, 65) ∧
    ¬ 65 * 65 * 100 / 3600 <
        100 + JAPACKER_TOLERABLE_AREA_DIFFERENCE_PERCENTAGE ∧
    (65, 65) ≠ ((100 : Nat), (100 : Nat)) := by
  refine ⟨by decide, by decide, by decide⟩

/-- Claim C5 counterexample: packing one 2 by 2 rect into a 10 by 10 image
returns 1 with images_needed 1; calling japacker_pack again (always_repack
off) is not a no-op as claimed: it returns 0 (not the already-packed count 1)
and increments images_needed to 2. -/
theorem c5_counterexample :
    ((japacker_pack c5_packer).map fun r => (r.1, r.2.result.images_needed)) =
      .ok (1, 1) ∧
    (((japacker_pack c5_packer).bind fun r => japacker_pack r.2).map fun r =>
      (r.1, r.2.result.images_needed)) = .ok (0, 2) := by
  refine ⟨by decide, by decide⟩

/-- Claim C6 counterexample: after a Continue-policy call packed the 2 by 2
rect (sorted second) and left the 20 by 20 rect (sorted first) unpacked, a
second call under Stop fails at the 20 by 20 rect and returns 0 — but the
remaining rectangle after the failing one is still packed from the earlier
call, refuting the claim that all remaining rectangles are left unpacked. -/
theorem c6_counterexample :
    (c6_second.map fun r => (r.1, r.2.rects.toList.map fun x => x.output.packed)) =
      .ok (0, [false, true]) := by
  decide

/-- Claim C7 counterexample: under the NewImage policy a 9 by 9 rect packs
into the first 10 by 10 image and an 11 by 1 rect fits no image; the abort on
the second (pristine) pass decrements images_needed from 1 to 0, yet one
destination image is actually used — so the counter does not equal the
number of images actually used. -/
theorem c7_counterexample :
    ((japacker_pack c7_packer).map fun r =>
      (r.1, r.2.result.images_needed, imagesUsed r.2)) = .ok (1, 0, 1) ∧
    (0 : Nat) ≠ 1 := by
  refine ⟨by decide, by decide⟩

/-- Claim C9: the claim asserts that the rects area passed to the
shrink-to-fit optimizer is always strictly positive so that the tolerance
division is well defined.  Evaluating the code at a Continue-policy run in
which the only rect fits no image shows the optimizer is entered with a zero
rects area, and the division current_area * 100 / rects_area divides by
zero (undefined behaviour in C, the divZero crash of the model). -/
theorem c9_rects_area_zero_crash :
    japacker_pack c9_packer = .error .divZero := by
  decide

/-- Claim C10: the claim asserts the empty-area list is never empty when the
NewImage pristine check reads the first area.  Evaluating the code at an
input whose first rect consumes the whole image exactly (removing the last
empty area) and whose second rect then fails shows the check dereferences a
null first pointer (undefined behaviour in C, the nullFirst crash of the
model). -/
theorem c10_null_first_crash :
    japacker_pack c10_packer = .error .nullFirst := by
  decide

/-! Arithmetic lemmas about the wrapping helpers. -/

theorem u32_pos : 0 < U32 := by decide

theorem u32add_eq_of_lt {a b : Nat} (h : a + b < U32) : u32add a b = a + b :=
  Nat.mod_eq_of_lt h

theorem u32mul_eq_of_lt {a b : Nat} (h : a * b < U32) : u32mul a b = a * b :=
  Nat.mod_eq_of_lt h

theorem u32mul_zero (a : Nat) : u32mul a 0 = 0 := by
  simp [u32mul]

theorem u32sub_eq_of_le {a b : Nat} (hb : b ≤ a) (ha : a < U32) :
    u32sub a b = a - b := by
  unfold u32sub
  rw [Nat.mod_eq_of_lt ha, Nat.mod_eq_of_lt (Nat.lt_of_le_of_lt hb ha)]
  have hU : 0 < U32 := u32_pos
  have hb2 : b ≤ U32 := Nat.le_of_lt (Nat.lt_of_le_of_lt hb ha)
  have : a + (U32 - b) = a - b + U32 := by omega
  rw [this, Nat.add_mod_right, Nat.mod_eq_of_lt (by omega)]

theorem u32sub_zero {a : Nat} (ha : a < U32) : u32sub a 0 = a := by
  unfold u32sub
  simp [Nat.mod_eq_of_lt ha, Nat.mod_self]

/-! Lemmas about japacker_pack_rect used by the C8 theorem. -/

/-- A successful japacker_pack_rect_noretry placement never changes the input
dimensions and never changes the rotated flag. -/
theorem pack_rect_noretry_ok_true {d d2 : japacker_internal_data}
    {r r2 : japacker_rect}
    (h : japacker_pack_rect_noretry d r = .ok (d2, r2, true)) :
    r2.input = r.input ∧ r2.output.rotated = r.output.rotated := by
  simp only [japacker_pack_rect_noretry] at h
  repeat' split at h
  all_goals cases h
  all_goals constructor <;> rfl

/-- A failed japacker_pack_rect_noretry attempt leaves the store unchanged
and only clears the rotated flag of the rect. -/
theorem pack_rect_noretry_ok_false {d d2 : japacker_internal_data}
    {r r2 : japacker_rect}
    (h : japacker_pack_rect_noretry d r = .ok (d2, r2, false)) :
    d2 = d ∧ r2 = { r with output := { r.output with rotated := false } } := by
  simp only [japacker_pack_rect_noretry] at h
  repeat' split at h
  all_goals cases h
  all_goals constructor <;> rfl

/-- Claim C8: when allow_rotation is on and a rectangle only fits rotated
(the walk over the empty areas finds no fit for the unrotated dimensions,
but the retry succeeds), packing leaves the input dimensions unchanged and
sets the rotated flag; and for any packed rotated rect,
japacker_get_dst_offset maps a local pixel (x, y) of the source image with
x < input.width to (output.y + input.width - 1 - x) * dst_width + output.x
+ y, where dst_width (dstWidthOf) is the width of the image the rectangle
landed on; the bound h6 states that this offset computation stays below
2 ^ 32, where the C unsigned arithmetic is exact. -/
theorem c8_rotation_and_offset
    (data dOut : japacker_internal_data) (rect rOut : japacker_rect)
    (q : japacker_t) (r : japacker_rect) (x y : Nat)
    (h1 : rect.output.rotated = false)
    (h2 : japacker_find_fit data rect.input.width rect.input.height
      data.empty_areas.first (data.empty_areas.list.size + 1) = none)
    (h3 : japacker_pack_rect data rect true = .ok (dOut, rOut, true))
    (h4 : r.output.rotated = true)
    (h5 : x < r.input.width)
    (h6 : (r.output.y + r.input.width - 1) * dstWidthOf q r + y + r.output.x < U32) :
    rOut.input = rect.input ∧ rOut.output.rotated = true ∧
    japacker_get_dst_offset q r x y =
      (r.output.y + r.input.width - 1 - x) * dstWidthOf q r + r.output.x + y := by
  have hfail : japacker_pack_rect_noretry data rect =
      .ok (data, { rect with output := { rect.output with rotated := false } }, false) := by
    simp only [japacker_pack_rect_noretry, h1, if_true, ite_true]
    rw [h2]
  have hretry : japacker_pack_rect_noretry data
      { rect with output := { rect.output with rotated := true } } = .ok (dOut, rOut, true) := by
    unfold japacker_pack_rect at h3
    rw [hfail] at h3
    simpa using h3
  have hpres := pack_rect_noretry_ok_true hretry
  refine ⟨hpres.1, by simpa using hpres.2, ?_⟩
  unfold japacker_get_dst_offset
  rw [h4]
  simp only [Bool.true_eq_false, if_false]
  have hdst : (if q.options.reduce_image_size = true ∧
      r.output.image_index = u32sub q.result.images_needed 1 then
      q.result.last_image_width else q.internal_data.image_width) = dstWidthOf q r := rfl
  rw [hdst]
  have hw1 : 1 ≤ r.input.width := by omega
  rcases Nat.eq_zero_or_pos (dstWidthOf q r) with hz | hpos
  · rw [hz] at h6 ⊢
    have hyx : y + r.output.x < U32 := by omega
    rw [u32mul_zero, u32mul_zero]
    have e2 : u32add 0 (u32add y r.output.x) = y + r.output.x := by
      unfold u32add
      rw [Nat.zero_add, Nat.mod_mod_of_dvd _ dvd_rfl, Nat.mod_eq_of_lt hyx]
    rw [e2, u32sub_zero hyx]
    omega
  · have hyw : r.output.y + r.input.width - 1 < U32 := by
      have hle : r.output.y + r.input.width - 1 ≤
          (r.output.y + r.input.width - 1) * dstWidthOf q r := Nat.le_mul_of_pos_right _ hpos
      omega
    have e1 : u32sub r.input.width 1 = r.input.width - 1 := by
      unfold u32sub
      have hU : U32 = 4294967296 := rfl
      have hwle : r.input.width ≤ U32 := by omega
      rw [hU] at hwle ⊢
      omega
    have e2 : u32add r.output.y (r.input.width - 1) = r.output.y + r.input.width - 1 := by
      rw [u32add_eq_of_lt (by omega)]
      omega
    have hmul : (r.output.y + r.input.width - 1) * dstWidthOf q r < U32 := by omega
    have e3 : u32mul (r.output.y + r.input.width - 1) (dstWidthOf q r) =
        (r.output.y + r.input.width - 1) * dstWidthOf q r := u32mul_eq_of_lt hmul
    have e4 : u32add y r.output.x = y + r.output.x := u32add_eq_of_lt (by omega)
    have e5 : u32add ((r.output.y + r.input.width - 1) * dstWidthOf q r) (y + r.output.x) =
        (r.output.y + r.input.width - 1) * dstWidthOf q r + (y + r.output.x) :=
      u32add_eq_of_lt (by omega)
    have hxle : x ≤ r.output.y + r.input.width - 1 := by omega
    have hxmul : x * dstWidthOf q r ≤ (r.output.y + r.input.width - 1) * dstWidthOf q r :=
      Nat.mul_le_mul_right _ hxle
    have e6 : u32mul x (dstWidthOf q r) = x * dstWidthOf q r := u32mul_eq_of_lt (by omega)
    rw [e1, e2, e3, e4, e5, e6]
    rw [u32sub_eq_of_le (by omega) (by omega)]
    rw [Nat.sub_mul (r.output.y + r.input.width - 1) x (dstWidthOf q r)]
    omega

/-- Witness for C8: a 10 by 5 rect packed into a pristine 5 by 10 image only
fits rotated; and the offset of local pixel (4, 1) of a rotated rect with
input width 10 placed at (3, 2) in a width-7 image is (2 + 10 - 1 - 4) * 7 +
3 + 1 = 53. -/
theorem c8_witness :
    japacker_find_fit c8_data c8_rect.input.width c8_rect.input.height
      c8_data.empty_areas.first (c8_data.empty_areas.list.size + 1) = none ∧
    ∃ dOut rOut, japacker_pack_rect c8_data c8_rect true = .ok (dOut, rOut, true) ∧
      rOut.input = c8_rect.input ∧ rOut.output.rotated = true ∧
      japacker_get_dst_offset c8_q c8_r 4 1 =
        (c8_r.output.y + c8_r.input.width - 1 - 4) * dstWidthOf c8_q c8_r +
          c8_r.output.x + 1 := by
  refine ⟨by decide, ?_⟩
  have hrun : japacker_pack_rect c8_data c8_rect true =
      .ok (japacker_delist_empty_area
        (japacker_reset_empty_areas (japacker_init 1 5 10).internal_data 5 10) 0,
        { input := { width := 10, height := 5 },
          output := { x := 0, y := 0, packed := true, rotated := true, image_index := 0 } },
        true) := by decide
  refine ⟨_, _, hrun, ?_⟩
  have := c8_rotation_and_offset c8_data _ c8_rect _ c8_q c8_r 4 1
    (by decide) (by decide) hrun (by decide) (by decide) (by decide)
  exact ⟨this.1, this.2.1, this.2.2⟩

/-! Frame lemmas: the list operations keep the store shape and (except the
split, which takes one new slot) the high-water index. -/

theorem keeps_refl (d : japacker_internal_data) : keeps d d :=
  ⟨⟨rfl, rfl, rfl, rfl, rfl, rfl, rfl⟩, rfl⟩

theorem keeps_trans {a b c : japacker_internal_data}
    (h1 : keeps a b) (h2 : keeps b c) : keeps a c := by
  obtain ⟨⟨e1, e2, e3, e4, e5, e6, e7⟩, e8⟩ := h1
  obtain ⟨⟨f1, f2, f3, f4, f5, f6, f7⟩, f8⟩ := h2
  exact ⟨⟨f1.trans e1, f2.trans e2, f3.trans e3, f4.trans e4, f5.trans e5,
    f6.trans e6, f7.trans e7⟩, f8.trans e8⟩

theorem keeps_modArea (d : japacker_internal_data) (i : Nat)
    (f : japacker_empty_area → japacker_empty_area) : keeps d (modArea d i f) :=
  ⟨⟨rfl, rfl, rfl, rfl, by simp [modArea], rfl, rfl⟩, rfl⟩

theorem keeps_delist (d : japacker_internal_data) (i : Nat) :
    keeps d (japacker_delist_empty_area d i) := by
  simp only [japacker_delist_empty_area]
  repeat' split
  all_goals exact ⟨⟨rfl, rfl, rfl, rfl, by simp, rfl, rfl⟩, rfl⟩

theorem keeps_sort_walk (fuel : Nat) :
    ∀ (d : japacker_internal_data) (i : Nat) (cur : Option Nat),
    keeps d (japacker_sort_walk d i cur fuel) := by
  induction fuel with
  | zero => intro d i cur; exact keeps_refl d
  | succ fuel ih =>
    intro d i cur
    simp only [japacker_sort_walk]
    repeat' split
    any_goals apply ih
    all_goals exact ⟨⟨rfl, rfl, rfl, rfl, by simp, rfl, rfl⟩, rfl⟩

theorem keeps_sort (d : japacker_internal_data) (i : Nat) (cur : Option Nat) :
    keeps d (japacker_sort_empty_area d i cur) := by
  simp only [japacker_sort_empty_area]
  split
  · exact ⟨⟨rfl, rfl, rfl, rfl, rfl, rfl, rfl⟩, rfl⟩
  · apply keeps_sort_walk

theorem keeps_merge (fuel : Nat) :
    ∀ (d : japacker_internal_data) (i : Nat),
    keeps d (japacker_merge_adjacent_empty_areas d i fuel).1 := by
  induction fuel with
  | zero => intro d i; exact keeps_refl d
  | succ fuel ih =>
    intro d i
    simp only [japacker_merge_adjacent_empty_areas]
    split
    · exact keeps_refl d
    · exact keeps_trans (keeps_trans (keeps_modArea _ _ _) (keeps_delist _ _)) (ih _ _)

/-- keeps composed through an outer operation. -/
theorem keeps_sort_of {a b : japacker_internal_data} (h : keeps a b) (i : Nat)
    (cur : Option Nat) : keeps a (japacker_sort_empty_area b i cur) :=
  keeps_trans h (keeps_sort b i cur)

theorem keeps_modArea_of {a b : japacker_internal_data} (h : keeps a b) (i : Nat)
    (f : japacker_empty_area → japacker_empty_area) : keeps a (modArea b i f) :=
  keeps_trans h (keeps_modArea b i f)

theorem keeps_delist_of {a b : japacker_internal_data} (h : keeps a b) (i : Nat) :
    keeps a (japacker_delist_empty_area b i) :=
  keeps_trans h (keeps_delist b i)

theorem keeps_merge_of {a b : japacker_internal_data} (h : keeps a b) (i fuel : Nat) :
    keeps a (japacker_merge_adjacent_empty_areas b i fuel).1 :=
  keeps_trans h (keeps_merge fuel b i)

theorem keeps_split_geometry (d : japacker_internal_data) (i ni w h : Nat) :
    keeps d (japacker_split_geometry d i ni w h) := by
  simp only [japacker_split_geometry]
  split
  · exact keeps_modArea_of (keeps_modArea _ _ _) _ _
  · exact keeps_modArea_of (keeps_modArea _ _ _) _ _

theorem keeps_split_geometry_of {a b : japacker_internal_data} (h : keeps a b)
    (i ni w hh : Nat) : keeps a (japacker_split_geometry b i ni w hh) :=
  keeps_trans h (keeps_split_geometry b i ni w hh)

theorem keeps_split_resort (d : japacker_internal_data) (i ni : Nat)
    (op : Option Nat) (m : Bool) (cmp : japacker_sort_type) :
    keeps d (japacker_split_resort d i ni op m cmp) := by
  simp only [japacker_split_resort]
  repeat' split
  all_goals
    repeat
      first
      | apply keeps_sort_of
      | apply keeps_modArea_of
      | exact keeps_refl _

theorem keeps_split_resort_of {a b : japacker_internal_data} (h : keeps a b)
    (i ni : Nat) (op : Option Nat) (m : Bool) (cmp : japacker_sort_type) :
    keeps a (japacker_split_resort b i ni op m cmp) :=
  keeps_trans h (keeps_split_resort b i ni op m cmp)

theorem keeps_shrink_resort (d : japacker_internal_data) (i : Nat)
    (cmp : japacker_sort_type) : keeps d (japacker_shrink_resort d i cmp) := by
  simp only [japacker_shrink_resort]
  repeat
    first
    | apply keeps_sort_of
    | apply keeps_modArea_of
    | apply keeps_merge_of
    | apply keeps_delist_of
    | exact keeps_refl _

theorem keeps_shrink_resort_of {a b : japacker_internal_data} (h : keeps a b)
    (i : Nat) (cmp : japacker_sort_type) :
    keeps a (japacker_shrink_resort b i cmp) :=
  keeps_trans h (keeps_shrink_resort b i cmp)

/-- Transport of keeps from the index-incremented store to the split goal. -/
theorem keeps_to_split_goal {d X : japacker_internal_data}
    (hk : keeps { d with empty_areas := { d.empty_areas with
      index := d.empty_areas.index + 1 } } X) :
    eaShape d X ∧ X.empty_areas.index = d.empty_areas.index + 1 :=
  ⟨hk.1, hk.2⟩

/-- A successful split keeps the shape and consumes exactly one pool slot. -/
theorem split_ok_keeps {d d2 : japacker_internal_data} {i w h : Nat}
    (hok : japacker_split_empty_area d i w h = .ok d2) :
    eaShape d d2 ∧ d2.empty_areas.index = d.empty_areas.index + 1 := by
  simp only [japacker_split_empty_area] at hok
  split at hok
  · split at hok
    · cases hok
    · cases hok
      refine keeps_to_split_goal ?_
      repeat
        first
        | apply keeps_split_resort_of
        | apply keeps_merge_of
        | apply keeps_delist_of
        | apply keeps_split_geometry_of
        | exact keeps_refl _
  · cases hok

theorem keeps_imp_goal {d X : japacker_internal_data} (hk : keeps d X) :
    eaShape d X ∧ X.empty_areas.index ≤ d.empty_areas.index + 1 :=
  ⟨hk.1, by rw [hk.2]; exact Nat.le_succ _⟩

theorem split_imp_goal {d X : japacker_internal_data}
    (h : eaShape d X ∧ X.empty_areas.index = d.empty_areas.index + 1) :
    eaShape d X ∧ X.empty_areas.index ≤ d.empty_areas.index + 1 :=
  ⟨h.1, Nat.le_of_eq h.2⟩

/-- A split never stores out of bounds when one slot is still free. -/
theorem split_no_oob {d : japacker_internal_data} {i w h : Nat}
    (hb : d.empty_areas.index + 1 < d.empty_areas.list.size) :
    japacker_split_empty_area d i w h ≠ .error .oobSplit := by
  intro hc
  simp only [japacker_split_empty_area] at hc
  split at hc
  · split at hc
    · cases hc
    · cases hc
  · omega

/-- One japacker_pack_rect_noretry call keeps the shape and takes at most
one pool slot. -/
theorem pack_rect_noretry_keeps {d d2 : japacker_internal_data}
    {r r2 : japacker_rect} {s2 : Bool}
    (hok : japacker_pack_rect_noretry d r = .ok (d2, r2, s2)) :
    eaShape d d2 ∧ d2.empty_areas.index ≤ d.empty_areas.index + 1 := by
  simp only [japacker_pack_rect_noretry] at hok
  repeat' split at hok
  all_goals cases hok
  all_goals
    first
    | exact split_imp_goal (split_ok_keeps (by assumption))
    | (refine keeps_imp_goal ?_
       repeat
         first
         | apply keeps_shrink_resort_of
         | apply keeps_modArea_of
         | apply keeps_delist_of
         | exact keeps_refl _)

/-- japacker_pack_rect_noretry never stores out of bounds when one slot is
still free. -/
theorem pack_rect_noretry_no_oob {d : japacker_internal_data} {r : japacker_rect}
    (hb : d.empty_areas.index + 1 < d.empty_areas.list.size) :
    japacker_pack_rect_noretry d r ≠ .error .oobSplit := by
  intro hc
  simp only [japacker_pack_rect_noretry] at hc
  repeat' split at hc
  all_goals cases hc
  all_goals exact split_no_oob hb (by assumption)

/-- One japacker_pack_rect call (rotation retry included) keeps the shape and
takes at most one pool slot. -/
theorem pack_rect_keeps {d d2 : japacker_internal_data} {r r2 : japacker_rect}
    {s2 ar : Bool}
    (hok : japacker_pack_rect d r ar = .ok (d2, r2, s2)) :
    eaShape d d2 ∧ d2.empty_areas.index ≤ d.empty_areas.index + 1 := by
  unfold japacker_pack_rect at hok
  cases h1 : japacker_pack_rect_noretry d r with
  | error e => rw [h1] at hok; cases hok
  | ok t =>
    obtain ⟨dm, rm, sm⟩ := t
    rw [h1] at hok
    cases sm with
    | true =>
      simp only [] at hok
      cases hok
      exact pack_rect_noretry_keeps h1
    | false =>
      simp only [] at hok
      split at hok
      · obtain ⟨hdm, _⟩ := pack_rect_noretry_ok_false h1
        subst hdm
        exact pack_rect_noretry_keeps hok
      · cases hok
        exact pack_rect_noretry_keeps h1

/-- japacker_pack_rect never stores out of bounds when one slot is still
free. -/
theorem pack_rect_no_oob {d : japacker_internal_data} {r : japacker_rect}
    {ar : Bool} (hb : d.empty_areas.index + 1 < d.empty_areas.list.size) :
    japacker_pack_rect d r ar ≠ .error .oobSplit := by
  intro hc
  unfold japacker_pack_rect at hc
  cases h1 : japacker_pack_rect_noretry d r with
  | error e =>
    rw [h1] at hc
    cases hc
    exact pack_rect_noretry_no_oob hb h1
  | ok t =>
    obtain ⟨dm, rm, sm⟩ := t
    rw [h1] at hc
    cases sm with
    | true => cases hc
    | false =>
      simp only [] at hc
      split at hc
      · obtain ⟨hdm, _⟩ := pack_rect_noretry_ok_false h1
        subst hdm
        exact pack_rect_noretry_no_oob hb hc
      · cases hc

theorem eaShape_refl (d : japacker_internal_data) : eaShape d d :=
  ⟨rfl, rfl, rfl, rfl, rfl, rfl, rfl⟩

theorem eaShape_trans {a b c : japacker_internal_data}
    (h1 : eaShape a b) (h2 : eaShape b c) : eaShape a c := by
  obtain ⟨e1, e2, e3, e4, e5, e6, e7⟩ := h1
  obtain ⟨f1, f2, f3, f4, f5, f6, f7⟩ := h2
  exact ⟨f1.trans e1, f2.trans e2, f3.trans e3, f4.trans e4, f5.trans e5,
    f6.trans e6, f7.trans e7⟩

/-- One iteration of the rectangle loop either continues with a state whose
store kept its shape and grew the high-water index by at most one, or exits
japacker_pack early. -/
theorem handle_rect_cases {st : JPassSt} {i : Nat} {res : JPassRes}
    (hok : japacker_pack_handle_rect st i = .ok res) :
    (∃ st2, res = .completed st2 ∧ eaShape st.p.internal_data st2.p.internal_data ∧
      st2.p.internal_data.empty_areas.index ≤
        st.p.internal_data.empty_areas.index + 1) ∨
    (∃ v p2, res = .exited v p2) := by
  simp only [japacker_pack_handle_rect] at hok
  repeat' split at hok
  all_goals cases hok
  all_goals
    first
    | exact Or.inr ⟨_, _, rfl⟩
    | exact Or.inl ⟨_, rfl, eaShape_refl _, Nat.le_succ _⟩
    | (obtain ⟨h1, h2⟩ := pack_rect_keeps (by assumption)
       exact Or.inl ⟨_, rfl, h1, h2⟩)

/-- One iteration of the rectangle loop never stores out of bounds when one
pool slot is still free. -/
theorem handle_rect_no_oob {st : JPassSt} {i : Nat}
    (hb : st.p.internal_data.empty_areas.index + 1 <
      st.p.internal_data.empty_areas.list.size) :
    japacker_pack_handle_rect st i ≠ .error .oobSplit := by
  intro hc
  simp only [japacker_pack_handle_rect] at hc
  repeat' split at hc
  all_goals cases hc
  all_goals exact pack_rect_no_oob hb (by assumption)

/-- The rectangle loop never stores out of bounds while the number of
remaining iterations is at most the number of free pool slots. -/
theorem pack_rect_loop_no_oob (todo : Nat) : ∀ (st : JPassSt) (i : Nat),
    st.p.internal_data.empty_areas.index + todo <
      st.p.internal_data.empty_areas.list.size →
    japacker_pack_rect_loop st i todo ≠ .error .oobSplit := by
  induction todo with
  | zero =>
    intro st i hb hc
    simp [japacker_pack_rect_loop] at hc
  | succ todo ih =>
    intro st i hb hc
    unfold japacker_pack_rect_loop at hc
    cases h1 : japacker_pack_handle_rect st i with
    | error e =>
      rw [h1] at hc
      cases hc
      exact handle_rect_no_oob (by omega) h1
    | ok res =>
      rw [h1] at hc
      cases res with
      | exited v p => cases hc
      | completed st2 =>
        obtain ⟨st2x, heq, hsh, hidx⟩ | ⟨v, p2, heq⟩ := handle_rect_cases h1
        · cases heq
          obtain ⟨e1, e2, e3, e4, e5, e6, e7⟩ := hsh
          exact ih st2 (i + 1) (by omega) hc
        · cases heq

/-- The rectangle loop keeps the store shape when it completes. -/
theorem pack_rect_loop_shape (todo : Nat) : ∀ (st : JPassSt) (i : Nat)
    (st2 : JPassSt),
    japacker_pack_rect_loop st i todo = .ok (.completed st2) →
    eaShape st.p.internal_data st2.p.internal_data := by
  induction todo with
  | zero =>
    intro st i st2 h
    simp [japacker_pack_rect_loop] at h
    rw [h]
    exact eaShape_refl _
  | succ todo ih =>
    intro st i st2 h
    unfold japacker_pack_rect_loop at h
    cases h1 : japacker_pack_handle_rect st i with
    | error e => rw [h1] at h; cases h
    | ok res =>
      rw [h1] at h
      cases res with
      | exited v p => cases h
      | completed stm =>
        obtain ⟨stx, heq, hsh, _⟩ | ⟨v, p2, heq⟩ := handle_rect_cases h1
        · cases heq
          exact eaShape_trans hsh (ih stm (i + 1) st2 h)
        · cases heq

/-- Facts about the reset: index zero, pool length and everything outside the
empty-area store unchanged. -/
theorem reset_facts (d : japacker_internal_data) (w h : Nat) :
    (japacker_reset_empty_areas d w h).empty_areas.index = 0 ∧
    (japacker_reset_empty_areas d w h).empty_areas.list.size =
      d.empty_areas.list.size ∧
    (japacker_reset_empty_areas d w h).num_rects = d.num_rects ∧
    (japacker_reset_empty_areas d w h).sorted_rects = d.sorted_rects ∧
    (japacker_reset_empty_areas d w h).image_width = d.image_width ∧
    (japacker_reset_empty_areas d w h).image_height = d.image_height ∧
    (japacker_reset_empty_areas d w h).empty_areas.size = d.empty_areas.size ∧
    (japacker_reset_empty_areas d w h).empty_areas.set_comparator =
      d.empty_areas.set_comparator := by
  refine ⟨rfl, ?_, rfl, rfl, rfl, rfl, rfl, rfl⟩
  simp [japacker_reset_empty_areas]

theorem reset_index (d : japacker_internal_data) (w h : Nat) :
    (japacker_reset_empty_areas d w h).empty_areas.index = 0 := rfl

theorem reset_num_rects (d : japacker_internal_data) (w h : Nat) :
    (japacker_reset_empty_areas d w h).num_rects = d.num_rects := rfl

theorem reset_list_size (d : japacker_internal_data) (w h : Nat) :
    (japacker_reset_empty_areas d w h).empty_areas.list.size =
      d.empty_areas.list.size := by
  simp [japacker_reset_empty_areas]

/-- The image loop never stores out of bounds when the pool is one slot
longer than the rectangle count. -/
theorem pack_images_loop_no_oob (fuel : Nat) : ∀ (p : japacker_t) (packed : Nat),
    p.internal_data.empty_areas.list.size = p.internal_data.num_rects + 1 →
    japacker_pack_images_loop p packed fuel ≠ .error .oobSplit := by
  induction fuel with
  | zero =>
    intro p packed hsz hc
    cases hc
  | succ fuel ih =>
    intro p packed hsz hc
    simp only [japacker_pack_images_loop] at hc
    split at hc
    · cases hc
      refine pack_rect_loop_no_oob _ _ _ ?_ (by assumption)
      show (0 : Nat) + p.internal_data.num_rects <
        (japacker_reset_empty_areas p.internal_data p.internal_data.image_width
          p.internal_data.image_height).empty_areas.list.size
      rw [(reset_facts p.internal_data _ _).2.1]
      omega
    · cases hc
    · rename_i st heq
      have hsh := pack_rect_loop_shape _ _ _ _ heq
      obtain ⟨e1, e2, e3, e4, e5, e6, e7⟩ := hsh
      split at hc
      · refine ih _ _ ?_ hc
        show st.p.internal_data.empty_areas.list.size =
          st.p.internal_data.num_rects + 1
        rw [e5, e1]
        show (japacker_reset_empty_areas p.internal_data _ _).empty_areas.list.size =
          (japacker_reset_empty_areas p.internal_data _ _).num_rects + 1
        rw [(reset_facts p.internal_data _ _).2.1]
        exact hsz
      · cases hc

/-- The optimizer repack loop never stores out of bounds while the number of
remaining iterations is at most the number of free pool slots. -/
theorem reduce_attempt_no_oob (todo : Nat) : ∀ (p : japacker_t) (ii i : Nat),
    p.internal_data.empty_areas.index + todo <
      p.internal_data.empty_areas.list.size →
    japacker_reduce_attempt p ii i todo ≠ .error .oobSplit := by
  induction todo with
  | zero =>
    intro p ii i hb hc
    cases hc
  | succ todo ih =>
    intro p ii i hb hc
    simp only [japacker_reduce_attempt] at hc
    split at hc
    · cases hc
    · split at hc
      · exact ih p ii (i + 1) (by omega) hc
      · split at hc
        · cases hc
          rename_i heq2
          exact pack_rect_no_oob (by omega) heq2
        · split at hc
          · cases hc
          · rename_i data rect success heq hfail
            obtain ⟨⟨e1, e2, e3, e4, e5, e6, e7⟩, hidx⟩ := pack_rect_keeps heq
            exact ih _ ii (i + 1) (by simp only []; omega) hc

/-- The optimizer repack loop keeps the store shape. -/
theorem reduce_attempt_shape (todo : Nat) : ∀ (p : japacker_t) (ii i : Nat)
    (p2 : japacker_t) (b : Bool),
    japacker_reduce_attempt p ii i todo = .ok (p2, b) →
    eaShape p.internal_data p2.internal_data := by
  induction todo with
  | zero =>
    intro p ii i p2 b h
    simp [japacker_reduce_attempt] at h
    rw [h.1]
    exact eaShape_refl _
  | succ todo ih =>
    intro p ii i p2 b h
    simp only [japacker_reduce_attempt] at h
    split at h
    · cases h
    · split at h
      · exact ih p ii (i + 1) p2 b h
      · split at h
        · cases h
        · split at h
          · cases h
            exact (pack_rect_keeps (by assumption)).1
          · rename_i data rect success heq hfail
            exact eaShape_trans (pack_rect_keeps heq).1 (ih _ ii (i + 1) p2 b h)

/-- The restore repack loop never stores out of bounds while the number of
remaining iterations is at most the number of free pool slots. -/
theorem reduce_restore_no_oob (todo : Nat) : ∀ (p : japacker_t) (ii i : Nat),
    p.internal_data.empty_areas.index + todo <
      p.internal_data.empty_areas.list.size →
    japacker_reduce_restore p ii i todo ≠ .error .oobSplit := by
  induction todo with
  | zero =>
    intro p ii i hb hc
    cases hc
  | succ todo ih =>
    intro p ii i hb hc
    simp only [japacker_reduce_restore] at hc
    split at hc
    · cases hc
    · split at hc
      · exact ih p ii (i + 1) (by omega) hc
      · split at hc
        · cases hc
          rename_i heq2
          exact pack_rect_no_oob (by omega) heq2
        · rename_i data rect success heq
          obtain ⟨⟨e1, e2, e3, e4, e5, e6, e7⟩, hidx⟩ := pack_rect_keeps heq
          exact ih _ ii (i + 1) (by simp only []; omega) hc

/-- The optimizer while loop never stores out of bounds when the pool is one
slot longer than the rectangle count. -/
theorem reduce_loop_no_oob (fuel : Nat) : ∀ (p : japacker_t)
    (ra ii lsw lsh dw dh : Nat),
    p.internal_data.empty_areas.list.size = p.internal_data.num_rects + 1 →
    japacker_reduce_loop p ra ii lsw lsh dw dh fuel ≠ .error .oobSplit := by
  induction fuel with
  | zero =>
    intro p ra ii lsw lsh dw dh hsz hc
    cases hc
  | succ fuel ih =>
    intro p ra ii lsw lsh dw dh hsz hc
    simp only [japacker_reduce_loop] at hc
    split at hc
    · cases hc
    · split at hc
      · cases hc
        refine reduce_attempt_no_oob _ _ _ _ ?_ (by assumption)
        simp only [reset_index, reset_num_rects, reset_list_size]
        omega
      · rename_i p2 b2 heq
        have hshape := reduce_attempt_shape _ _ _ _ _ _ heq
        obtain ⟨e1, e2, e3, e4, e5, e6, e7⟩ := hshape
        have hsz2 : p2.internal_data.empty_areas.list.size =
            p2.internal_data.num_rects + 1 := by
          rw [e5, e1]
          simp only [reset_list_size, reset_num_rects]
          exact hsz
        split at hc
        · split at hc
          · cases hc
          · exact ih _ _ _ _ _ _ _ hsz2 hc
        · exact ih _ _ _ _ _ _ _ hsz2 hc

/-- The reset keeps the store shape. -/
theorem eaShape_reset (d : japacker_internal_data) (w h : Nat) :
    eaShape d (japacker_reset_empty_areas d w h) := by
  obtain ⟨f1, f2, f3, f4, f5, f6, f7, f8⟩ := reset_facts d w h
  exact ⟨f3, f5, f6, f4, f2, f7, f8⟩

/-- The optimizer while loop keeps the store shape. -/
theorem reduce_loop_shape (fuel : Nat) : ∀ (p : japacker_t)
    (ra ii lsw lsh dw dh : Nat) (p2 : japacker_t) (w2 h2 : Nat),
    japacker_reduce_loop p ra ii lsw lsh dw dh fuel = .ok (p2, w2, h2) →
    eaShape p.internal_data p2.internal_data := by
  induction fuel with
  | zero =>
    intro p ra ii lsw lsh dw dh p2 w2 h2 h
    cases h
    exact eaShape_refl _
  | succ fuel ih =>
    intro p ra ii lsw lsh dw dh p2 w2 h2 h
    simp only [japacker_reduce_loop] at h
    split at h
    · cases h
      exact eaShape_refl _
    · split at h
      · cases h
      · rename_i p2x b2x heq
        have hshape := reduce_attempt_shape _ _ _ _ _ _ heq
        split at h
        · split at h
          · cases h
            exact eaShape_trans (eaShape_reset _ _ _) hshape
          · exact eaShape_trans (eaShape_trans (eaShape_reset _ _ _) hshape)
              (ih _ _ _ _ _ _ _ _ _ _ h)
        · exact eaShape_trans (eaShape_trans (eaShape_reset _ _ _) hshape)
            (ih _ _ _ _ _ _ _ _ _ _ h)

/-- The image loop keeps the store shape when it finishes normally. -/
theorem pack_images_loop_shape (fuel : Nat) : ∀ (p : japacker_t)
    (packed : Nat) (p2 : japacker_t) (pk au : Nat),
    japacker_pack_images_loop p packed fuel = .ok (.finished p2 pk au) →
    eaShape p.internal_data p2.internal_data := by
  induction fuel with
  | zero =>
    intro p packed p2 pk au h
    cases h
  | succ fuel ih =>
    intro p packed p2 pk au h
    simp only [japacker_pack_images_loop] at h
    split at h
    · cases h
    · cases h
    · rename_i st heq
      have hsh := pack_rect_loop_shape _ _ _ _ heq
      split at h
      · exact eaShape_trans (eaShape_trans (eaShape_reset _ _ _) hsh)
          (ih { st.p with result := { st.p.result with
            images_needed := u32add st.p.result.images_needed 1 } } _ _ _ _ h)
      · cases h
        exact eaShape_trans (eaShape_reset _ _ _) hsh

/-- The shrink-to-fit optimizer never stores out of bounds when the pool is
one slot longer than the rectangle count. -/
theorem reduce_no_oob {p : japacker_t} {ra : Nat}
    (hsz : p.internal_data.empty_areas.list.size =
      p.internal_data.num_rects + 1) :
    japacker_reduce_last_image_size p ra ≠ .error .oobSplit := by
  intro hc
  simp only [japacker_reduce_last_image_size] at hc
  split at hc
  · cases hc
  · split at hc
    · cases hc
    · split at hc
      · cases hc
        exact reduce_loop_no_oob _ _ _ _ _ _ _ _ hsz (by assumption)
      · rename_i p2 lsw lsh heq
        have hshape := reduce_loop_shape _ _ _ _ _ _ _ _ _ _ _ heq
        obtain ⟨e1, e2, e3, e4, e5, e6, e7⟩ := hshape
        split at hc
        · refine reduce_restore_no_oob _ _ _ _ ?_ hc
          simp only [reset_index, reset_num_rects, reset_list_size]
          omega
        · cases hc

/-- japacker_sort_rects does not touch the empty-area pool or the rect
count. -/
theorem sort_rects_facts (p : japacker_t) :
    (japacker_sort_rects p).internal_data.empty_areas.list.size =
      p.internal_data.empty_areas.list.size ∧
    (japacker_sort_rects p).internal_data.num_rects =
      p.internal_data.num_rects := by
  simp only [japacker_sort_rects]
  split
  · exact ⟨rfl, rfl⟩
  · exact ⟨rfl, rfl⟩

/-- Claim C3: for every input packer whose pool array really has the length
recorded in its size field (as japacker_init builds it), japacker_pack never
stores beyond the preallocated empty-area pool: the slot taken by the split
at list[++index] stays within the rectangleCount + 1 capacity, across all
image passes and all shrink-to-fit repacking iterations.  In the model every
out-of-bounds store would surface as the oobSplit crash, so the theorem
states that japacker_pack never returns it; the proof maintains the
invariant that the high-water index plus the number of remaining loop
iterations stays below the pool length, each placement taking at most one
fresh slot. -/
theorem c3_capacity_bound (p : japacker_t)
    (hcons : p.internal_data.empty_areas.size =
      p.internal_data.empty_areas.list.size) :
    japacker_pack p ≠ .error .oobSplit := by
  intro hc
  simp only [japacker_pack] at hc
  split at hc
  · cases hc
  · rename_i hval
    push_neg at hval
    have hszf : p.internal_data.empty_areas.size =
        p.internal_data.num_rects + 1 := hval.2.2.2
    have base : p.internal_data.empty_areas.list.size =
        p.internal_data.num_rects + 1 := by omega
    have hsorted : ∀ q : japacker_t,
        q.internal_data.empty_areas.list.size = q.internal_data.num_rects + 1 →
        (if q.options.always_repack = true then
          { q with result := { q.result with images_needed := 0 } } else
          q).internal_data.empty_areas.list.size =
        (if q.options.always_repack = true then
          { q with result := { q.result with images_needed := 0 } } else
          q).internal_data.num_rects + 1 := by
      intro q hq
      split
      · exact hq
      · exact hq
    have hstage : ∀ q : japacker_t,
        (if p.options.rects_are_sorted ≠ true ∨
            p.internal_data.sorted_rects = none then
          japacker_sort_rects p else p) = q →
        q.internal_data.empty_areas.list.size =
          q.internal_data.num_rects + 1 := by
      intro q hq
      subst hq
      split
      · obtain ⟨s1, s2⟩ := sort_rects_facts p
        rw [s1, s2]
        exact base
      · exact base
    split at hc
    · cases hc
      refine pack_images_loop_no_oob _ _ _ ?_ (by assumption)
      exact hsorted _ (hstage _ rfl)
    · cases hc
    · rename_i pF packed au heq
      have hsh := pack_images_loop_shape _ _ _ _ _ _ heq
      obtain ⟨e1, e2, e3, e4, e5, e6, e7⟩ := hsh
      split at hc
      · split at hc
        · cases hc
          refine reduce_no_oob ?_ (by assumption)
          simp only []
          rw [e5, e1]
          exact hsorted _ (hstage _ rfl)
        · cases hc
      · cases hc

/-- Witness for C3 at a concrete input. -/
theorem c3_witness :
    (japacker_init 1 4 3).internal_data.empty_areas.size =
      (japacker_init 1 4 3).internal_data.empty_areas.list.size ∧
    japacker_pack (japacker_init 1 4 3) ≠ .error .oobSplit :=
  ⟨by decide, c3_capacity_bound (japacker_init 1 4 3) (by decide)⟩

/-- When always_repack is off and every rect read through the sorted view is
already packed, the rectangle loop skips every iteration and leaves the
state untouched. -/
theorem pack_rect_loop_skips (todo : Nat) : ∀ (st : JPassSt) (i : Nat)
    (l : Array Nat),
    st.p.internal_data.sorted_rects = some l →
    st.p.options.always_repack = false →
    (∀ k, i ≤ k → k < i + todo →
      (st.p.rects.getD (l.getD k 0) default).output.packed = true) →
    japacker_pack_rect_loop st i todo = .ok (.completed st) := by
  induction todo with
  | zero => intro st i l _ _ _; rfl
  | succ todo ih =>
    intro st i l hsr halw hpk
    have hstep : japacker_pack_handle_rect st i = .ok (.completed st) := by
      simp only [japacker_pack_handle_rect, hsr]
      rw [if_pos]
      constructor
      · exact hpk i (Nat.le_refl i) (by omega)
      · exact Or.inl (by simp [halw])
    unfold japacker_pack_rect_loop
    rw [hstep]
    exact ih st (i + 1) l hsr halw fun k hk1 hk2 => hpk k (by omega) (by omega)

/-- Claim C5 amended: a second japacker_pack call with always_repack off on
an already fully packed set does not change any rectangle and does not
repack anything, but it is not a no-op: it returns 0 (the number of rects
packed by that call, not the already packed count), increments images_needed
by one (counting a fresh, unused destination image), resets the empty-area
store to one image-sized area and rewrites the last-image size to the
nominal destination size.  reduce_image_size must be off, since with it the
call would divide by a zero rects area (claim C9). -/
theorem c5_amended (p : japacker_t) (l : Array Nat)
    (hn : p.internal_data.num_rects ≠ 0)
    (hw : p.internal_data.image_width ≠ 0)
    (hh : p.internal_data.image_height ≠ 0)
    (hsz : p.internal_data.empty_areas.size = p.internal_data.num_rects + 1)
    (hsf : p.options.rects_are_sorted = true)
    (hsr : p.internal_data.sorted_rects = some l)
    (halw : p.options.always_repack = false)
    (hred : p.options.reduce_image_size = false)
    (hpk : ∀ k, k < p.internal_data.num_rects →
      (p.rects.getD (l.getD k 0) default).output.packed = true) :
    japacker_pack p = .ok (0, { p with
      result := { p.result with
        images_needed := u32add p.result.images_needed 1,
        last_image_width := p.internal_data.image_width,
        last_image_height := p.internal_data.image_height },
      internal_data := japacker_reset_empty_areas p.internal_data
        p.internal_data.image_width p.internal_data.image_height }) := by
  have hval : ¬ (p.internal_data.num_rects = 0 ∨
      p.internal_data.image_width = 0 ∨ p.internal_data.image_height = 0 ∨
      p.internal_data.empty_areas.size ≠ p.internal_data.num_rects + 1) := by
    simp [hn, hw, hh, hsz]
  have hC1 : ¬ (p.options.rects_are_sorted ≠ true ∨
      p.internal_data.sorted_rects = none) := by
    simp [hsf, hsr]
  have hC2 : ¬ p.options.always_repack = true := by simp [halw]
  simp only [japacker_pack]
  rw [if_neg hval, if_neg hC1, if_neg hC2]
  simp only [japacker_pack_images_loop]
  rw [reset_num_rects]
  generalize hD : japacker_reset_empty_areas p.internal_data
    p.internal_data.image_width p.internal_data.image_height = D
  have hsrD : D.sorted_rects = some l := by
    rw [← hD]
    rw [(reset_facts p.internal_data p.internal_data.image_width
      p.internal_data.image_height).2.2.2.1]
    exact hsr
  have hloop : japacker_pack_rect_loop
      { p := { p with internal_data := D }, packed_rects := 0, area_used := 0,
        request_new_image := false } 0 p.internal_data.num_rects =
      .ok (.completed
        { p := { p with internal_data := D }, packed_rects := 0, area_used := 0,
          request_new_image := false }) := by
    refine pack_rect_loop_skips _ _ _ l hsrD halw ?_
    intro k _ hk2
    exact hpk k (by omega)
  have hDw : D.image_width = p.internal_data.image_width := by
    rw [← hD]
    exact (reset_facts p.internal_data p.internal_data.image_width
      p.internal_data.image_height).2.2.2.2.1
  have hDh : D.image_height = p.internal_data.image_height := by
    rw [← hD]
    exact (reset_facts p.internal_data p.internal_data.image_width
      p.internal_data.image_height).2.2.2.2.2.1
  rw [hloop]
  simp only [hred, hDw, hDh, Bool.false_eq_true, if_false]
  rfl

/-- Witness for the amended C5 at a concrete input: the packer obtained by a
first japacker_pack call on c5_packer satisfies every hypothesis, and the
second call returns 0 with only the images counter, the last-image size and
the empty-area store changed. -/
theorem c5_witness :
    c5_witness_packer.internal_data.num_rects ≠ 0 ∧
    c5_witness_packer.internal_data.image_width ≠ 0 ∧
    c5_witness_packer.internal_data.image_height ≠ 0 ∧
    c5_witness_packer.internal_data.empty_areas.size =
      c5_witness_packer.internal_data.num_rects + 1 ∧
    c5_witness_packer.options.rects_are_sorted = true ∧
    c5_witness_packer.internal_data.sorted_rects = some #[0] ∧
    c5_witness_packer.options.always_repack = false ∧
    c5_witness_packer.options.reduce_image_size = false ∧
    (∀ k, k < c5_witness_packer.internal_data.num_rects →
      (c5_witness_packer.rects.getD ((#[0] : Array Nat).getD k 0)
        default).output.packed = true) ∧
    japacker_pack c5_witness_packer = .ok (0, { c5_witness_packer with
      result := { c5_witness_packer.result with
        images_needed := u32add c5_witness_packer.result.images_needed 1,
        last_image_width := c5_witness_packer.internal_data.image_width,
        last_image_height := c5_witness_packer.internal_data.image_height },
      internal_data := japacker_reset_empty_areas c5_witness_packer.internal_data
        c5_witness_packer.internal_data.image_width
        c5_witness_packer.internal_data.image_height }) :=
  ⟨by decide, by decide, by decide, by decide, by decide, by decide, by decide,
   by decide, by decide,
   c5_amended c5_witness_packer #[0] (by decide) (by decide) (by decide)
     (by decide) (by decide) (by decide) (by decide) (by decide) (by decide)⟩

/-- Writing a pool slot and reading it back: the written value in bounds,
the default out of bounds (setD is a no-op there and getD falls back). -/
theorem arr_setD_getD_self {α : Type} (a : Array α) (i : Nat) (v d : α) :
    (a.setD i v).getD i d = if i < a.size then v else d := by
  unfold Array.setD Array.getD
  split
  · rename_i h
    simp [h, Array.get_set_eq]
  · rename_i h
    simp [h]

/-- Writing one slot leaves reads of every other slot unchanged. -/
theorem arr_setD_getD_ne {α : Type} (a : Array α) (i j : Nat) (v d : α)
    (hne : i ≠ j) : (a.setD i v).getD j d = a.getD j d := by
  unfold Array.setD
  split
  · rename_i h
    unfold Array.getD
    simp only [Array.size_set]
    split
    · rename_i h2
      exact Array.get_set_ne a ⟨i, h⟩ v h2 hne
    · rfl
  · rfl

/-- A failed japacker_pack_rect attempt (with or without the rotation retry)
returns the rect unchanged except for the cleared rotated flag. -/
theorem pack_rect_ok_false {d d2 : japacker_internal_data}
    {r r2 : japacker_rect} {ar s : Bool}
    (h : japacker_pack_rect d r ar = .ok (d2, r2, s)) (hs : s = false) :
    r2 = { r with output := { r.output with rotated := false } } := by
  subst hs
  unfold japacker_pack_rect at h
  cases h1 : japacker_pack_rect_noretry d r with
  | error e => rw [h1] at h; cases h
  | ok t =>
    obtain ⟨dm, rm, sm⟩ := t
    rw [h1] at h
    cases sm with
    | true =>
      simp only [] at h
      simp at h
    | false =>
      simp only [] at h
      split at h
      · obtain ⟨_, hr⟩ := pack_rect_noretry_ok_false h
        obtain ⟨_, hrm⟩ := pack_rect_noretry_ok_false h1
        subst hr
        subst hrm
        rfl
      · cases h
        obtain ⟨_, hrm⟩ := pack_rect_noretry_ok_false h1
        exact hrm

/-- Under the Stop policy, an early exit of one loop iteration happens only
in the Stop branch: the exit value is the current sorted position, the
result struct is untouched, the failing rect is left unpacked and every
other rect slot is unchanged. -/
theorem handle_rect_stop_exit {st : JPassSt} {i v : Nat} {l : Array Nat}
    {pE : japacker_t}
    (hsr : st.p.internal_data.sorted_rects = some l)
    (hstop : st.p.options.fail_policy = .JAPACKER_STOP)
    (hh : japacker_pack_handle_rect st i = .ok (.exited v pE)) :
    v = i ∧ pE.result = st.p.result ∧
    (pE.rects.getD (l.getD i 0) default).output.packed = false ∧
    ∀ r, l.getD i 0 ≠ r →
      pE.rects.getD r default = st.p.rects.getD r default := by
  simp only [japacker_pack_handle_rect, hsr] at hh
  repeat' split at hh
  all_goals cases hh
  all_goals first
    | exact absurd
        (show st.p.options.fail_policy = .JAPACKER_NEW_IMAGE from by assumption)
        (by simp [hstop])
    | (refine ⟨rfl, rfl, ?_, ?_⟩
       · rw [arr_setD_getD_self]
         split
         · have hre := pack_rect_ok_false (by assumption) (by assumption)
           subst hre
           rfl
         · rfl
       · intro r hr
         exact arr_setD_getD_ne _ _ _ _ _ hr)

/-- When one loop iteration completes, the sorted view, the options and the
result struct are unchanged and only the rect slot of the current sorted
position may have been written. -/
theorem handle_rect_completed_frame {st st2 : JPassSt} {i : Nat}
    {l : Array Nat}
    (hsr : st.p.internal_data.sorted_rects = some l)
    (hh : japacker_pack_handle_rect st i = .ok (.completed st2)) :
    st2.p.internal_data.sorted_rects = some l ∧
    st2.p.options = st.p.options ∧
    st2.p.result = st.p.result ∧
    st.packed_rects ≤ st2.packed_rects ∧
    ∀ r, l.getD i 0 ≠ r →
      st2.p.rects.getD r default = st.p.rects.getD r default := by
  simp only [japacker_pack_handle_rect, hsr] at hh
  repeat' split at hh
  all_goals cases hh
  all_goals first
    | exact ⟨hsr, rfl, rfl, Nat.le_refl _, fun r _ => rfl⟩
    | (obtain ⟨⟨e1, e2, e3, e4, e5, e6, e7⟩, _⟩ := pack_rect_keeps (by assumption)
       refine ⟨e4.trans hsr, rfl, rfl, ?_, ?_⟩
       · first
           | exact Nat.le_refl _
           | exact Nat.le_succ _
       · intro r hr
         first
           | exact arr_setD_getD_ne _ _ _ _ _ hr
           | exact (arr_setD_getD_ne _ _ _ _ _ hr).trans
               (arr_setD_getD_ne _ _ _ _ _ hr))

/-- Under the Stop policy, when the rectangle loop exits early it does so at
the first failing sorted position v: v lies in the processed range, the
result struct (in particular images_needed) is untouched, the failing rect
is left unpacked and every rect slot not written in positions i..v keeps its
previous value. -/
theorem pack_rect_loop_stop_exit (todo : Nat) : ∀ (st : JPassSt) (i : Nat)
    (l : Array Nat) (v : Nat) (pE : japacker_t),
    st.p.internal_data.sorted_rects = some l →
    st.p.options.fail_policy = .JAPACKER_STOP →
    japacker_pack_rect_loop st i todo = .ok (.exited v pE) →
    i ≤ v ∧ v < i + todo ∧ pE.result = st.p.result ∧
    (pE.rects.getD (l.getD v 0) default).output.packed = false ∧
    ∀ r, (∀ k, i ≤ k → k ≤ v → l.getD k 0 ≠ r) →
      pE.rects.getD r default = st.p.rects.getD r default := by
  induction todo with
  | zero =>
    intro st i l v pE _ _ hrun
    cases hrun
  | succ todo ih =>
    intro st i l v pE hsr hstop hrun
    unfold japacker_pack_rect_loop at hrun
    cases hh : japacker_pack_handle_rect st i with
    | error e => rw [hh] at hrun; cases hrun
    | ok res =>
      rw [hh] at hrun
      cases res with
      | exited v0 p0 =>
        cases hrun
        obtain ⟨hvi, hres, hflag, hut⟩ := handle_rect_stop_exit hsr hstop hh
        refine ⟨by omega, by omega, hres, ?_, ?_⟩
        · rw [hvi]
          exact hflag
        · intro r hr
          exact hut r (hr i (by omega) (by omega))
      | completed st2 =>
        obtain ⟨f1, f2, f3, _, f4⟩ := handle_rect_completed_frame hsr hh
        obtain ⟨h1, h2, h3, h4, h5⟩ := ih st2 (i + 1) l v pE f1
          (by rw [f2]; exact hstop) hrun
        refine ⟨by omega, by omega, h3.trans f3, h4, ?_⟩
        intro r hr
        have hri : l.getD i 0 ≠ r := hr i (Nat.le_refl i) (by omega)
        exact (h5 r fun k hk1 hk2 => hr k (by omega) hk2).trans (f4 r hri)

/-- Claim C6 amended: under the Stop policy (with a valid setup, a built
sorted view and always_repack off), when a rectangle fails to be placed,
japacker_pack aborts immediately and returns the sorted position v of the
failing rectangle (the number of loop iterations before it, which counts
skipped already-packed rects too, not the number packed before this one);
images_needed is not incremented for the current image; the failing rect is
left unpacked; and every rect slot not processed up to position v keeps its
previous output — in particular, rectangles already packed by an earlier
call stay packed, they are not left unpacked. -/
theorem c6_amended (p : japacker_t) (l : Array Nat) (v : Nat)
    (pE : japacker_t)
    (hn : p.internal_data.num_rects ≠ 0)
    (hw : p.internal_data.image_width ≠ 0)
    (hh : p.internal_data.image_height ≠ 0)
    (hsz : p.internal_data.empty_areas.size = p.internal_data.num_rects + 1)
    (hsf : p.options.rects_are_sorted = true)
    (hsr : p.internal_data.sorted_rects = some l)
    (halw : p.options.always_repack = false)
    (hstop : p.options.fail_policy = .JAPACKER_STOP)
    (hloop : japacker_pack_rect_loop
      { p := { p with internal_data := japacker_reset_empty_areas p.internal_data p.internal_data.image_width p.internal_data.image_height },
        packed_rects := 0, area_used := 0, request_new_image := false }
      0 p.internal_data.num_rects = .ok (.exited v pE)) :
    japacker_pack p = .ok ((v : Int), pE) ∧
    v < p.internal_data.num_rects ∧
    pE.result.images_needed = p.result.images_needed ∧
    (pE.rects.getD (l.getD v 0) default).output.packed = false ∧
    ∀ r, (∀ k, k ≤ v → l.getD k 0 ≠ r) →
      pE.rects.getD r default = p.rects.getD r default := by
  obtain ⟨hv1, hv2, hres, hflag, hut⟩ :=
    pack_rect_loop_stop_exit p.internal_data.num_rects
      { p := { p with internal_data := japacker_reset_empty_areas p.internal_data p.internal_data.image_width p.internal_data.image_height },
        packed_rects := 0, area_used := 0, request_new_image := false }
      0 l v pE
      ((reset_facts p.internal_data p.internal_data.image_width
        p.internal_data.image_height).2.2.2.1.trans hsr)
      hstop hloop
  have hval : ¬ (p.internal_data.num_rects = 0 ∨
      p.internal_data.image_width = 0 ∨ p.internal_data.image_height = 0 ∨
      p.internal_data.empty_areas.size ≠ p.internal_data.num_rects + 1) := by
    simp [hn, hw, hh, hsz]
  have hC1 : ¬ (p.options.rects_are_sorted ≠ true ∨
      p.internal_data.sorted_rects = none) := by
    simp [hsf, hsr]
  have hC2 : ¬ p.options.always_repack = true := by simp [halw]
  refine ⟨?_, by omega, ?_, hflag, ?_⟩
  · simp only [japacker_pack]
    rw [if_neg hval, if_neg hC1, if_neg hC2]
    simp only [japacker_pack_images_loop]
    rw [reset_num_rects]
    generalize hD : japacker_reset_empty_areas p.internal_data
      p.internal_data.image_width p.internal_data.image_height = D
    rw [hD] at hloop
    rw [hloop]
  · exact congrArg japacker_result.images_needed hres
  · intro r hr
    exact hut r fun k _ hk2 => hr k hk2

/-- Witness for the amended C6 at a concrete input: after packing the 2 by 2
rect of c6_packer under Continue, a second call under Stop exits at sorted
position 0 (the unfittable 20 by 20 rect), leaves images_needed alone,
leaves the failing rect unpacked and keeps the already packed 2 by 2 rect
packed. -/
theorem c6_witness :
    (c6_witness_packer.internal_data.num_rects ≠ 0 ∧
     c6_witness_packer.internal_data.image_width ≠ 0 ∧
     c6_witness_packer.internal_data.image_height ≠ 0 ∧
     c6_witness_packer.internal_data.empty_areas.size =
       c6_witness_packer.internal_data.num_rects + 1 ∧
     c6_witness_packer.options.rects_are_sorted = true ∧
     c6_witness_packer.internal_data.sorted_rects = some #[0, 1] ∧
     c6_witness_packer.options.always_repack = false ∧
     c6_witness_packer.options.fail_policy = .JAPACKER_STOP ∧
     japacker_pack_rect_loop
       { p := { c6_witness_packer with internal_data := japacker_reset_empty_areas c6_witness_packer.internal_data c6_witness_packer.internal_data.image_width c6_witness_packer.internal_data.image_height },
         packed_rects := 0, area_used := 0, request_new_image := false }
       0 c6_witness_packer.internal_data.num_rects =
       .ok (.exited 0 c6_witness_pE)) ∧
    (japacker_pack c6_witness_packer = .ok (((0 : Nat) : Int), c6_witness_pE) ∧
     0 < c6_witness_packer.internal_data.num_rects ∧
     c6_witness_pE.result.images_needed =
       c6_witness_packer.result.images_needed ∧
     (c6_witness_pE.rects.getD ((#[0, 1] : Array Nat).getD 0 0)
       default).output.packed = false ∧
     ∀ r, (∀ k, k ≤ 0 → (#[0, 1] : Array Nat).getD k 0 ≠ r) →
       c6_witness_pE.rects.getD r default =
         c6_witness_packer.rects.getD r default) :=
  ⟨⟨by decide, by decide, by decide, by decide, by decide, by decide,
    by decide, by decide, by decide⟩,
   c6_amended c6_witness_packer #[0, 1] 0 c6_witness_pE (by decide) (by decide)
     (by decide) (by decide) (by decide) (by decide) (by decide) (by decide)
     (by decide)⟩

/-- Under the NewImage policy, an early exit of one loop iteration happens
only in the pristine-image branch: the exit value is the running packed
counter, images_needed is decremented by exactly one with unsigned
wraparound, and the first empty area at the exit is image-sized. -/
theorem handle_rect_newimage_exit {st : JPassSt} {i v : Nat}
    {pE : japacker_t}
    (hpol : st.p.options.fail_policy = .JAPACKER_NEW_IMAGE)
    (hh : japacker_pack_handle_rect st i = .ok (.exited v pE)) :
    v = st.packed_rects ∧
    pE.result.images_needed = u32sub st.p.result.images_needed 1 ∧
    ∃ f, pE.internal_data.empty_areas.first = some f ∧
      (geta pE.internal_data f).width = pE.internal_data.image_width ∧
      (geta pE.internal_data f).height = pE.internal_data.image_height := by
  simp only [japacker_pack_handle_rect] at hh
  repeat' split at hh
  all_goals cases hh
  all_goals first
    | exact absurd
        (show st.p.options.fail_policy = .JAPACKER_NEW_IMAGE from hpol)
        (by assumption)
    | exact ⟨rfl, rfl,
        ⟨_, by assumption, And.left (by assumption), And.right (by assumption)⟩⟩

/-- Under the NewImage policy, when the rectangle loop exits early the exit
value is at least the incoming packed counter, images_needed is decremented
by exactly one with unsigned wraparound, and the first empty area at the
exit is image-sized (the pristine-image abort). -/
theorem pack_rect_loop_newimage_exit (todo : Nat) : ∀ (st : JPassSt)
    (i : Nat) (l : Array Nat) (v : Nat) (pE : japacker_t),
    st.p.internal_data.sorted_rects = some l →
    st.p.options.fail_policy = .JAPACKER_NEW_IMAGE →
    japacker_pack_rect_loop st i todo = .ok (.exited v pE) →
    st.packed_rects ≤ v ∧
    pE.result.images_needed = u32sub st.p.result.images_needed 1 ∧
    ∃ f, pE.internal_data.empty_areas.first = some f ∧
      (geta pE.internal_data f).width = pE.internal_data.image_width ∧
      (geta pE.internal_data f).height = pE.internal_data.image_height := by
  induction todo with
  | zero =>
    intro st i l v pE _ _ hrun
    cases hrun
  | succ todo ih =>
    intro st i l v pE hsr hpol hrun
    unfold japacker_pack_rect_loop at hrun
    cases hh : japacker_pack_handle_rect st i with
    | error e => rw [hh] at hrun; cases hrun
    | ok res =>
      rw [hh] at hrun
      cases res with
      | exited v0 p0 =>
        cases hrun
        obtain ⟨hv, hres, hex⟩ := handle_rect_newimage_exit hpol hh
        exact ⟨by omega, hres, hex⟩
      | completed st2 =>
        obtain ⟨f1, f2, f3, fle, _⟩ := handle_rect_completed_frame hsr hh
        obtain ⟨h1, h2, h3⟩ := ih st2 (i + 1) l v pE f1
          (by rw [f2]; exact hpol) hrun
        rw [f3] at h2
        exact ⟨Nat.le_trans fle h1, h2, h3⟩

/-- Claim C7 amended: under the NewImage policy (valid setup, sorted view
built, always_repack off), if a failing rectangle cannot fit even a
pristine full-size empty area during the first packing pass, japacker_pack
aborts the whole operation, returns the running packed counter, and
decrements images_needed by exactly one with unsigned u32 wraparound — a
counter that does not in general equal the number of destination images
actually used: it wraps to 2 ^ 32 - 1 when images_needed was zero, and it
undercounts when earlier images already received rectangles in this
call. -/
theorem c7_amended (p : japacker_t) (l : Array Nat) (v : Nat)
    (pE : japacker_t)
    (hn : p.internal_data.num_rects ≠ 0)
    (hw : p.internal_data.image_width ≠ 0)
    (hh : p.internal_data.image_height ≠ 0)
    (hsz : p.internal_data.empty_areas.size = p.internal_data.num_rects + 1)
    (hsf : p.options.rects_are_sorted = true)
    (hsr : p.internal_data.sorted_rects = some l)
    (halw : p.options.always_repack = false)
    (hpol : p.options.fail_policy = .JAPACKER_NEW_IMAGE)
    (hloop : japacker_pack_rect_loop
      { p := { p with internal_data := japacker_reset_empty_areas p.internal_data p.internal_data.image_width p.internal_data.image_height },
        packed_rects := 0, area_used := 0, request_new_image := false }
      0 p.internal_data.num_rects = .ok (.exited v pE)) :
    japacker_pack p = .ok ((v : Int), pE) ∧
    pE.result.images_needed = u32sub p.result.images_needed 1 ∧
    ∃ f, pE.internal_data.empty_areas.first = some f ∧
      (geta pE.internal_data f).width = pE.internal_data.image_width ∧
      (geta pE.internal_data f).height = pE.internal_data.image_height := by
  obtain ⟨hv1, hres, hex⟩ :=
    pack_rect_loop_newimage_exit p.internal_data.num_rects
      { p := { p with internal_data := japacker_reset_empty_areas p.internal_data p.internal_data.image_width p.internal_data.image_height },
        packed_rects := 0, area_used := 0, request_new_image := false }
      0 l v pE
      ((reset_facts p.internal_data p.internal_data.image_width
        p.internal_data.image_height).2.2.2.1.trans hsr)
      hpol hloop
  have hval : ¬ (p.internal_data.num_rects = 0 ∨
      p.internal_data.image_width = 0 ∨ p.internal_data.image_height = 0 ∨
      p.internal_data.empty_areas.size ≠ p.internal_data.num_rects + 1) := by
    simp [hn, hw, hh, hsz]
  have hC1 : ¬ (p.options.rects_are_sorted ≠ true ∨
      p.internal_data.sorted_rects = none) := by
    simp [hsf, hsr]
  have hC2 : ¬ p.options.always_repack = true := by simp [halw]
  refine ⟨?_, hres, hex⟩
  simp only [japacker_pack]
  rw [if_neg hval, if_neg hC1, if_neg hC2]
  simp only [japacker_pack_images_loop]
  rw [reset_num_rects]
  generalize hD : japacker_reset_empty_areas p.internal_data
    p.internal_data.image_width p.internal_data.image_height = D
  rw [hD] at hloop
  rw [hloop]

/-- Witness for the amended C7 at a concrete input: a single 11 by 1 rect
cannot fit the pristine 10 by 10 image, so the call aborts with return
value 0 and decrements images_needed from 0 to 2 ^ 32 - 1 by unsigned
wraparound. -/
theorem c7_witness :
    (c7_witness_packer.internal_data.num_rects ≠ 0 ∧
     c7_witness_packer.internal_data.image_width ≠ 0 ∧
     c7_witness_packer.internal_data.image_height ≠ 0 ∧
     c7_witness_packer.internal_data.empty_areas.size =
       c7_witness_packer.internal_data.num_rects + 1 ∧
     c7_witness_packer.options.rects_are_sorted = true ∧
     c7_witness_packer.internal_data.sorted_rects = some #[0] ∧
     c7_witness_packer.options.always_repack = false ∧
     c7_witness_packer.options.fail_policy = .JAPACKER_NEW_IMAGE ∧
     japacker_pack_rect_loop
       { p := { c7_witness_packer with internal_data := japacker_reset_empty_areas c7_witness_packer.internal_data c7_witness_packer.internal_data.image_width c7_witness_packer.internal_data.image_height },
         packed_rects := 0, area_used := 0, request_new_image := false }
       0 c7_witness_packer.internal_data.num_rects =
       .ok (.exited 0 c7_witness_pE)) ∧
    (japacker_pack c7_witness_packer = .ok (((0 : Nat) : Int), c7_witness_pE) ∧
     c7_witness_pE.result.images_needed =
       u32sub c7_witness_packer.result.images_needed 1 ∧
     ∃ f, c7_witness_pE.internal_data.empty_areas.first = some f ∧
       (geta c7_witness_pE.internal_data f).width =
         c7_witness_pE.internal_data.image_width ∧
       (geta c7_witness_pE.internal_data f).height =
         c7_witness_pE.internal_data.image_height) :=
  ⟨⟨by decide, by decide, by decide, by decide, by decide, by decide,
    by decide, by decide, by decide⟩,
   c7_amended c7_witness_packer #[0] 0 c7_witness_pE (by decide) (by decide)
     (by decide) (by decide) (by decide) (by decide) (by decide) (by decide)
     (by decide)⟩

/-- An out-of-bounds pool read falls back to the supplied default. -/
theorem arr_getD_oob {α : Type} (a : Array α) (j : Nat) (d : α)
    (h : ¬ j < a.size) : a.getD j d = d := by
  unfold Array.getD
  simp [h]

/-- A successful japacker_pack_rect_noretry attempt marks the rect packed. -/
theorem pack_rect_noretry_packed {d d2 : japacker_internal_data}
    {r r2 : japacker_rect}
    (h : japacker_pack_rect_noretry d r = .ok (d2, r2, true)) :
    r2.output.packed = true := by
  simp only [japacker_pack_rect_noretry] at h
  repeat' split at h
  all_goals cases h
  all_goals rfl

/-- A successful japacker_pack_rect attempt marks the rect packed. -/
theorem pack_rect_true_packed {d d2 : japacker_internal_data}
    {r r2 : japacker_rect} {ar : Bool}
    (h : japacker_pack_rect d r ar = .ok (d2, r2, true)) :
    r2.output.packed = true := by
  unfold japacker_pack_rect at h
  cases h1 : japacker_pack_rect_noretry d r with
  | error e => rw [h1] at h; cases h
  | ok t =>
    obtain ⟨dm, rm, sm⟩ := t
    rw [h1] at h
    cases sm with
    | true =>
      simp only [] at h
      cases h
      exact pack_rect_noretry_packed h1
    | false =>
      simp only [] at h
      split at h
      · exact pack_rect_noretry_packed h
      · cases h

/-- japacker_pack_rect never clears the packed flag of the rect it is given
(on failure the rect comes back with the flag as it was, on success the flag
is set). -/
theorem pack_rect_packed_mono {d d2 : japacker_internal_data}
    {r r2 : japacker_rect} {ar s : Bool}
    (h : japacker_pack_rect d r ar = .ok (d2, r2, s))
    (hp : r.output.packed = true) : r2.output.packed = true := by
  cases s with
  | true => exact pack_rect_true_packed h
  | false =>
    rw [pack_rect_ok_false h rfl]
    exact hp

/-- The repack-attempt loop of the optimizer never touches the result
struct. -/
theorem reduce_attempt_result (todo : Nat) : ∀ (p : japacker_t) (ii i : Nat)
    (q : japacker_t) (b : Bool),
    japacker_reduce_attempt p ii i todo = .ok (q, b) →
    q.result = p.result := by
  induction todo with
  | zero =>
    intro p ii i q b h
    cases h
    rfl
  | succ todo ih =>
    intro p ii i q b h
    simp only [japacker_reduce_attempt] at h
    split at h
    · cases h
    · split at h
      · exact ih p ii (i + 1) q b h
      · split at h
        · cases h
        · split at h
          · cases h
            rfl
          · exact (ih _ ii (i + 1) q b h).trans rfl

/-- The repack-attempt loop of the optimizer never clears a packed flag: the
optimizer never unsets packed rects (a failed attempt leaves the flag as it
was, a successful one sets it). -/
theorem reduce_attempt_packed (todo : Nat) : ∀ (p : japacker_t) (ii i : Nat)
    (q : japacker_t) (b : Bool) (j : Nat),
    japacker_reduce_attempt p ii i todo = .ok (q, b) →
    (p.rects.getD j default).output.packed = true →
    (q.rects.getD j default).output.packed = true := by
  induction todo with
  | zero =>
    intro p ii i q b j h hj
    cases h
    exact hj
  | succ todo ih =>
    intro p ii i q b j h hj
    simp only [japacker_reduce_attempt] at h
    split at h
    · cases h
    · rename_i sorted hsorted
      split at h
      · exact ih p ii (i + 1) q b j h hj
      · split at h
        · cases h
        · rename_i data rect success heq
          have hj2 : ((p.rects.setD (sorted.getD i 0) rect).getD j
              default).output.packed = true := by
            by_cases hjr : sorted.getD i 0 = j
            · subst hjr
              rw [arr_setD_getD_self]
              split
              · exact pack_rect_packed_mono heq hj
              · rename_i hoob
                rw [arr_getD_oob _ _ _ hoob] at hj
                exact hj
            · rw [arr_setD_getD_ne _ _ _ _ _ hjr]
              exact hj
          split at h
          · cases h
            exact hj2
          · exact ih _ ii (i + 1) q b j h hj2

/-- The final restore loop of the optimizer never touches the result
struct. -/
theorem reduce_restore_result (todo : Nat) : ∀ (p : japacker_t) (ii i : Nat)
    (q : japacker_t),
    japacker_reduce_restore p ii i todo = .ok q →
    q.result = p.result := by
  induction todo with
  | zero =>
    intro p ii i q h
    cases h
    rfl
  | succ todo ih =>
    intro p ii i q h
    simp only [japacker_reduce_restore] at h
    split at h
    · cases h
    · split at h
      · exact ih p ii (i + 1) q h
      · split at h
        · cases h
        · exact (ih _ ii (i + 1) q h).trans rfl

/-- The final restore loop of the optimizer never clears a packed flag. -/
theorem reduce_restore_packed (todo : Nat) : ∀ (p : japacker_t) (ii i : Nat)
    (q : japacker_t) (j : Nat),
    japacker_reduce_restore p ii i todo = .ok q →
    (p.rects.getD j default).output.packed = true →
    (q.rects.getD j default).output.packed = true := by
  induction todo with
  | zero =>
    intro p ii i q j h hj
    cases h
    exact hj
  | succ todo ih =>
    intro p ii i q j h hj
    simp only [japacker_reduce_restore] at h
    split at h
    · cases h
    · rename_i sorted hsorted
      split at h
      · exact ih p ii (i + 1) q j h hj
      · split at h
        · cases h
        · rename_i data rect success heq
          have hj2 : ((p.rects.setD (sorted.getD i 0) rect).getD j
              default).output.packed = true := by
            by_cases hjr : sorted.getD i 0 = j
            · subst hjr
              rw [arr_setD_getD_self]
              split
              · exact pack_rect_packed_mono heq hj
              · rename_i hoob
                rw [arr_getD_oob _ _ _ hoob] at hj
                exact hj
            · rw [arr_setD_getD_ne _ _ _ _ _ hjr]
              exact hj
          exact ih _ ii (i + 1) q j h hj2

/-- Transport of the only-the-store-changes shape fact through two stages. -/
theorem shape_trans {d D E : japacker_internal_data}
    (h1 : ∃ ea, D = { d with empty_areas := ea })
    (h2 : ∃ ea, E = { D with empty_areas := ea }) :
    ∃ ea, E = { d with empty_areas := ea } := by
  obtain ⟨ea1, hD⟩ := h1
  obtain ⟨ea2, hE⟩ := h2
  refine ⟨ea2, ?_⟩
  rw [hE, hD]

/-- Modifying a pool record only rewrites the empty-area store. -/
theorem modArea_shape (d : japacker_internal_data) (i : Nat)
    (f : japacker_empty_area → japacker_empty_area) :
    ∃ ea, modArea d i f = { d with empty_areas := ea } := ⟨_, rfl⟩

/-- Unlinking a record only rewrites the empty-area store. -/
theorem delist_shape (d : japacker_internal_data) (k : Nat) :
    ∃ ea, japacker_delist_empty_area d k = { d with empty_areas := ea } :=
  ⟨_, rfl⟩

/-- The backward insert walk only rewrites the empty-area store. -/
theorem sort_walk_shape : ∀ (fuel : Nat) (d : japacker_internal_data)
    (i : Nat) (cur : Option Nat),
    ∃ ea, japacker_sort_walk d i cur fuel =
      { d with empty_areas := ea } := by
  intro fuel
  induction fuel with
  | zero => intro d i cur; exact ⟨d.empty_areas, rfl⟩
  | succ fu ih =>
    intro d i cur
    cases cur with
    | none =>
      cases hf : d.empty_areas.first with
      | none =>
        refine ⟨d.empty_areas, ?_⟩
        unfold japacker_sort_walk
        simp only []
        rw [hf]
      | some f =>
        have hstep : japacker_sort_walk d i none (fu + 1) =
            { d with empty_areas := { d.empty_areas with
              list := ((d.empty_areas.list.modify f fun x =>
                { x with prev := some i }).modify i fun x =>
                { x with next := some f }),
              first := some i } } := by
          unfold japacker_sort_walk
          simp only []
          rw [hf]
        rw [hstep]
        exact ⟨_, rfl⟩
    | some c =>
      by_cases hcmp : (d.empty_areas.list.getD c default).comparator <
          (d.empty_areas.list.getD i default).comparator
      · exact ⟨_, by
          unfold japacker_sort_walk
          simp only []
          rw [if_pos hcmp]⟩
      · have hstep : japacker_sort_walk d i (some c) (fu + 1) =
            japacker_sort_walk d i
              (d.empty_areas.list.getD c default).prev fu := by
          conv_lhs => unfold japacker_sort_walk
          simp only []
          rw [if_neg hcmp]
        rw [hstep]
        exact ih d i _

/-- The sorted insert only rewrites the empty-area store. -/
theorem sort_shape (d : japacker_internal_data) (i : Nat)
    (cur : Option Nat) :
    ∃ ea, japacker_sort_empty_area d i cur =
      { d with empty_areas := ea } := by
  simp only [japacker_sort_empty_area]
  by_cases hf : d.empty_areas.first = none
  · rw [if_pos hf]
    exact ⟨_, rfl⟩
  · rw [if_neg hf]
    exact sort_walk_shape _ d i cur

/-- The merge loop only rewrites the empty-area store. -/
theorem merge_shape : ∀ (fuel : Nat) (d : japacker_internal_data) (i : Nat),
    ∃ ea, (japacker_merge_adjacent_empty_areas d i fuel).1 =
      { d with empty_areas := ea } := by
  intro fuel
  induction fuel with
  | zero => intro d i; exact ⟨d.empty_areas, rfl⟩
  | succ fu ih =>
    intro d i
    cases hfind : japacker_merge_find d i d.empty_areas.first
        (d.empty_areas.list.size + 1) with
    | none =>
      have hstep : japacker_merge_adjacent_empty_areas d i (fu + 1) =
          (d, false) := by
        conv_lhs => unfold japacker_merge_adjacent_empty_areas
        rw [hfind]
      rw [hstep]
      exact ⟨d.empty_areas, rfl⟩
    | some res =>
      obtain ⟨c, kind⟩ := res
      have hkey : ∃ dD, japacker_delist_empty_area (modArea d i fun a =>
            match kind with
            | JMergeKind.left => { a with x := (geta d c).x, width := a.width + (geta d c).width }
            | JMergeKind.right => { a with width := a.width + (geta d c).width }
            | JMergeKind.top => { a with y := (geta d c).y, height := a.height + (geta d c).height }
            | JMergeKind.bottom => { a with height := a.height + (geta d c).height }) c = dD ∧
          japacker_merge_adjacent_empty_areas d i (fu + 1) =
            ((japacker_merge_adjacent_empty_areas dD i fu).1, true) := by
        refine ⟨_, rfl, ?_⟩
        conv_lhs => unfold japacker_merge_adjacent_empty_areas
        rw [hfind]
      obtain ⟨dD, hdD, hstep⟩ := hkey
      rw [hstep]
      have h3 : ∃ ea, dD = { d with empty_areas := ea } := by
        rw [← hdD]
        exact shape_trans (modArea_shape _ _ _) (delist_shape _ _)
      exact shape_trans h3 (ih dD i)

/-- The split geometry stage only rewrites the empty-area store. -/
theorem split_geometry_shape (d : japacker_internal_data)
    (i ni w h : Nat) :
    ∃ ea, japacker_split_geometry d i ni w h =
      { d with empty_areas := ea } := by
  simp only [japacker_split_geometry]
  by_cases hc : (geta d i).height - h < (geta d i).width - w
  · rw [if_pos hc]
    exact shape_trans (modArea_shape _ _ _) (modArea_shape _ _ _)
  · rw [if_neg hc]
    exact shape_trans (modArea_shape _ _ _) (modArea_shape _ _ _)

/-- The shrink-and-reinsert stage only rewrites the empty-area store. -/
theorem shrink_resort_shape (d : japacker_internal_data) (i : Nat)
    (cmp : japacker_sort_type) :
    ∃ ea, japacker_shrink_resort d i cmp =
      { d with empty_areas := ea } := by
  simp only [japacker_shrink_resort]
  exact shape_trans (shape_trans (shape_trans (delist_shape _ _)
    (merge_shape _ _ _)) (modArea_shape _ _ _)) (sort_shape _ _ _)

/-- The reinsert stage of the split only rewrites the empty-area store. -/
theorem split_resort_shape (d : japacker_internal_data) (i ni : Nat)
    (op : Option Nat) (m : Bool) (cmp : japacker_sort_type) :
    ∃ ea, japacker_split_resort d i ni op m cmp =
      { d with empty_areas := ea } := by
  simp only [japacker_split_resort]
  by_cases hm : m = false
  · rw [if_pos hm]
    exact shape_trans (shape_trans (shape_trans (modArea_shape _ _ _)
      (modArea_shape _ _ _)) (sort_shape _ _ _)) (sort_shape _ _ _)
  · rw [if_neg hm]
    by_cases hc : (geta (modArea (modArea d i (japacker_set_comparator cmp))
        ni (japacker_set_comparator cmp)) ni).comparator <
        (geta (modArea (modArea d i (japacker_set_comparator cmp))
          ni (japacker_set_comparator cmp)) i).comparator
    · rw [if_pos hc]
      exact shape_trans (shape_trans (shape_trans (modArea_shape _ _ _)
        (modArea_shape _ _ _)) (sort_shape _ _ _)) (sort_shape _ _ _)
    · rw [if_neg hc]
      exact shape_trans (shape_trans (shape_trans (modArea_shape _ _ _)
        (modArea_shape _ _ _)) (sort_shape _ _ _)) (sort_shape _ _ _)

/-- A successful split only rewrites the empty-area store. -/
theorem split_shape (d : japacker_internal_data) (i w h : Nat)
    (D : japacker_internal_data)
    (hok : japacker_split_empty_area d i w h = .ok D) :
    ∃ ea, D = { d with empty_areas := ea } := by
  simp only [japacker_split_empty_area] at hok
  split at hok
  · split at hok
    · cases hok
    · cases hok
      refine shape_trans ?_ (split_resort_shape _ _ _ _ _ _)
      refine shape_trans ?_ (merge_shape _ _ _)
      refine shape_trans ?_ (merge_shape _ _ _)
      refine shape_trans ?_ (delist_shape _ _)
      refine shape_trans ?_ (split_geometry_shape _ _ _ _ _)
      exact ⟨_, rfl⟩
  · cases hok

/-- A japacker_pack_rect_noretry call only rewrites the empty-area store,
and keeps the input dimensions and image assignment of the rectangle. -/
theorem pack_rect_noretry_pres {d d2 : japacker_internal_data}
    {r r2 : japacker_rect} {s : Bool}
    (h : japacker_pack_rect_noretry d r = .ok (d2, r2, s)) :
    (∃ ea, d2 = { d with empty_areas := ea }) ∧
    r2.input = r.input ∧ r2.output.image_index = r.output.image_index := by
  simp only [japacker_pack_rect_noretry] at h
  repeat' split at h
  all_goals cases h
  all_goals refine ⟨?_, rfl, rfl⟩
  all_goals first
    | exact ⟨d.empty_areas, rfl⟩
    | exact delist_shape _ _
    | exact shape_trans (modArea_shape _ _ _) (shrink_resort_shape _ _ _)
    | exact split_shape _ _ _ _ _ (by assumption)

/-- japacker_pack_rect only rewrites the empty-area store, and keeps the
input dimensions and image assignment of the rectangle. -/
theorem pack_rect_pres {d d2 : japacker_internal_data}
    {r r2 : japacker_rect} {ar s : Bool}
    (h : japacker_pack_rect d r ar = .ok (d2, r2, s)) :
    (∃ ea, d2 = { d with empty_areas := ea }) ∧
    r2.input = r.input ∧ r2.output.image_index = r.output.image_index := by
  unfold japacker_pack_rect at h
  cases h1 : japacker_pack_rect_noretry d r with
  | error e =>
    rw [h1] at h
    cases h
  | ok t =>
    obtain ⟨dm, rm, sm⟩ := t
    rw [h1] at h
    cases sm with
    | true =>
      cases h
      exact pack_rect_noretry_pres h1
    | false =>
      obtain ⟨hp1, hp2, hp3⟩ := pack_rect_noretry_pres h1
      simp only [] at h
      split at h
      · obtain ⟨hq1, hq2, hq3⟩ := pack_rect_noretry_pres h
        exact ⟨shape_trans hp1 hq1, hq2.trans hp2, hq3.trans hp3⟩
      · cases h
        exact ⟨hp1, hp2, hp3⟩

/-- The repack-attempt loop of the optimizer keeps the rectangle count, the
sorted view, the options, and each rectangle input and image assignment of
the packer it runs on. -/
theorem reduce_attempt_pins (todo : Nat) : ∀ (p : japacker_t) (ii i : Nat)
    (q : japacker_t) (b : Bool),
    japacker_reduce_attempt p ii i todo = .ok (q, b) →
    q.internal_data.num_rects = p.internal_data.num_rects ∧
    q.internal_data.sorted_rects = p.internal_data.sorted_rects ∧
    q.options = p.options ∧
    (∀ j, (q.rects.getD j default).input = (p.rects.getD j default).input) ∧
    (∀ j, (q.rects.getD j default).output.image_index =
      (p.rects.getD j default).output.image_index) := by
  induction todo with
  | zero =>
    intro p ii i q b h
    cases h
    exact ⟨rfl, rfl, rfl, fun j => rfl, fun j => rfl⟩
  | succ todo ih =>
    intro p ii i q b h
    simp only [japacker_reduce_attempt] at h
    split at h
    · cases h
    · rename_i sorted hsorted
      split at h
      · exact ih p ii (i + 1) q b h
      · split at h
        · cases h
        · rename_i data rect success heq
          obtain ⟨⟨eaM, hsh⟩, hr3, hr4⟩ := pack_rect_pres heq
          have hd1 : data.num_rects = p.internal_data.num_rects := by
            rw [hsh]
          have hd2 : data.sorted_rects = p.internal_data.sorted_rects := by
            rw [hsh]
          have hstep : ∀ (j : Nat),
              ((p.rects.setD (sorted.getD i 0) rect).getD j default).input =
                (p.rects.getD j default).input ∧
              ((p.rects.setD (sorted.getD i 0)
                  rect).getD j default).output.image_index =
                (p.rects.getD j default).output.image_index := by
            intro j
            by_cases hjr : sorted.getD i 0 = j
            · subst hjr
              rw [arr_setD_getD_self]
              by_cases hlt : sorted.getD i 0 < p.rects.size
              · rw [if_pos hlt]
                exact ⟨hr3, hr4⟩
              · rw [if_neg hlt, arr_getD_oob _ _ _ hlt]
                exact ⟨rfl, rfl⟩
            · rw [arr_setD_getD_ne _ _ _ _ _ hjr]
              exact ⟨rfl, rfl⟩
          split at h
          · cases h
            exact ⟨hd1, hd2, rfl, fun j => (hstep j).1,
              fun j => (hstep j).2⟩
          · obtain ⟨k1, k2, k3, k4, k5⟩ := ih _ ii (i + 1) q b h
            exact ⟨k1.trans hd1, k2.trans hd2, k3.trans rfl,
              fun j => (k4 j).trans (hstep j).1,
              fun j => (k5 j).trans (hstep j).2⟩

/-- When the shrink loop returns, the returned best size is either the pair
it started from or a candidate size at which a full repack attempt of the
last-image rects of this very packer succeeded: the attempt state carries
the same rectangle inputs, image assignments, rectangle count, sorted view
and options as the loop entry state, records the candidate size in its
result, and its empty-area store is a freshly reset single area of exactly
that candidate size. -/
theorem reduce_loop_size (fuel : Nat) : ∀ (p : japacker_t)
    (ra ii lsw lsh dw dh : Nat) (pO : japacker_t) (w h : Nat),
    japacker_reduce_loop p ra ii lsw lsh dw dh fuel = .ok (pO, w, h) →
    (w = lsw ∧ h = lsh) ∨
    (∃ q q2 d0, japacker_reduce_attempt q ii 0 q.internal_data.num_rects =
        .ok (q2, false) ∧
      q.internal_data.num_rects = p.internal_data.num_rects ∧
      q.internal_data.sorted_rects = p.internal_data.sorted_rects ∧
      q.options = p.options ∧
      (∀ j, (q.rects.getD j default).input =
        (p.rects.getD j default).input) ∧
      (∀ j, (q.rects.getD j default).output.image_index =
        (p.rects.getD j default).output.image_index) ∧
      q.internal_data.empty_areas =
        (japacker_reset_empty_areas d0 q.result.last_image_width
          q.result.last_image_height).empty_areas ∧
      q.result.last_image_width = w ∧ q.result.last_image_height = h) := by
  induction fuel with
  | zero =>
    intro p ra ii lsw lsh dw dh pO w h hrun
    cases hrun
    exact Or.inl ⟨rfl, rfl⟩
  | succ fuel ih =>
    intro p ra ii lsw lsh dw dh pO w h hrun
    simp only [japacker_reduce_loop] at hrun
    split at hrun
    · cases hrun
      exact Or.inl ⟨rfl, rfl⟩
    · split at hrun
      · cases hrun
      · rename_i p2 failed heqA
        split at hrun
        · rename_i hfail
          subst hfail
          split at hrun
          · cases hrun
            have hres := reduce_attempt_result _ _ _ _ _ _ heqA
            exact Or.inr ⟨_, _, p.internal_data, heqA, rfl, rfl, rfl,
              fun j => rfl, fun j => rfl, rfl,
              congrArg japacker_result.last_image_width hres.symm,
              congrArg japacker_result.last_image_height hres.symm⟩
          · obtain ⟨hw2, hh2⟩ | ⟨q, q2, d0, ha, k1, k2, k3, k4, k5, k6, k7,
              k8⟩ := ih _ _ _ _ _ _ _ _ _ _ hrun
            · have hres := reduce_attempt_result _ _ _ _ _ _ heqA
              refine Or.inr ⟨_, _, p.internal_data, heqA, rfl, rfl, rfl,
                fun j => rfl, fun j => rfl, rfl, ?_, ?_⟩
              · rw [hw2]
                exact congrArg japacker_result.last_image_width hres.symm
              · rw [hh2]
                exact congrArg japacker_result.last_image_height hres.symm
            · obtain ⟨a1, a2, a3, a4, a5⟩ :=
                reduce_attempt_pins _ _ _ _ _ _ heqA
              exact Or.inr ⟨q, q2, d0, ha, k1.trans a1, k2.trans a2,
                k3.trans a3, fun j => (k4 j).trans (a4 j),
                fun j => (k5 j).trans (a5 j), k6, k7, k8⟩
        · obtain hL | ⟨q, q2, d0, ha, k1, k2, k3, k4, k5, k6, k7, k8⟩ :=
            ih _ _ _ _ _ _ _ _ _ _ hrun
          · exact Or.inl hL
          · obtain ⟨a1, a2, a3, a4, a5⟩ :=
              reduce_attempt_pins _ _ _ _ _ _ heqA
            exact Or.inr ⟨q, q2, d0, ha, k1.trans a1, k2.trans a2,
              k3.trans a3, fun j => (k4 j).trans (a4 j),
              fun j => (k5 j).trans (a5 j), k6, k7, k8⟩

/-- The shrink loop never clears a packed flag. -/
theorem reduce_loop_packed (fuel : Nat) : ∀ (p : japacker_t)
    (ra ii lsw lsh dw dh : Nat) (pO : japacker_t) (w h : Nat) (j : Nat),
    japacker_reduce_loop p ra ii lsw lsh dw dh fuel = .ok (pO, w, h) →
    (p.rects.getD j default).output.packed = true →
    (pO.rects.getD j default).output.packed = true := by
  induction fuel with
  | zero =>
    intro p ra ii lsw lsh dw dh pO w h j hrun hj
    cases hrun
    exact hj
  | succ fuel ih =>
    intro p ra ii lsw lsh dw dh pO w h j hrun hj
    simp only [japacker_reduce_loop] at hrun
    split at hrun
    · cases hrun
      exact hj
    · split at hrun
      · cases hrun
      · rename_i p2 failed heqA
        have hj2 := reduce_attempt_packed _ _ _ _ _ _ j heqA hj
        split at hrun
        · rename_i hfail
          subst hfail
          split at hrun
          · cases hrun
            exact hj2
          · exact ih _ _ _ _ _ _ _ _ _ _ j hrun hj2
        · exact ih _ _ _ _ _ _ _ _ _ _ j hrun hj2

/-- Claim C4 amended: when the shrink-to-fit optimizer returns normally it
never unsets a packed rectangle (every rectangle packed before the step is
still packed after it), and the recorded last-image width is the nominal
image width or a candidate width at which a full repack attempt of the
last-image rectangles succeeded — an attempt run on a state with the same
rectangle count, sorted view, options, rectangle inputs and image
assignments as this packer, whose empty-area store is freshly reset to one
area of exactly the candidate size recorded in its result.  The original
tolerance guarantee does not hold: the search stops when the halved deltas
reach zero and keeps the best successful size even when its area is far
outside the tolerance percentage of the rects area. -/
theorem c4_amended (p : japacker_t) (rects_area : Nat) (pR : japacker_t)
    (hred : japacker_reduce_last_image_size p rects_area = .ok pR) :
    (∀ j, (p.rects.getD j default).output.packed = true →
      (pR.rects.getD j default).output.packed = true) ∧
    (pR = p ∨
     pR.result.last_image_width = p.internal_data.image_width ∨
     ∃ q q2 d0, japacker_reduce_attempt q (u32sub p.result.images_needed 1) 0
         q.internal_data.num_rects = .ok (q2, false) ∧
       q.internal_data.num_rects = p.internal_data.num_rects ∧
       q.internal_data.sorted_rects = p.internal_data.sorted_rects ∧
       q.options = p.options ∧
       (∀ j, (q.rects.getD j default).input =
         (p.rects.getD j default).input) ∧
       (∀ j, (q.rects.getD j default).output.image_index =
         (p.rects.getD j default).output.image_index) ∧
       q.internal_data.empty_areas =
         (japacker_reset_empty_areas d0 q.result.last_image_width
           q.result.last_image_height).empty_areas ∧
       q.result.last_image_width = pR.result.last_image_width) := by
  simp only [japacker_reduce_last_image_size] at hred
  split at hred
  · cases hred
  · split at hred
    · cases hred
      exact ⟨fun j hj => hj, Or.inl rfl⟩
    · split at hred
      · cases hred
      · rename_i pOut lsw lsh heqL
        split at hred
        · rename_i hcond
          have hresR := reduce_restore_result _ _ _ _ _ hred
          constructor
          · intro j hj
            have h1 := reduce_loop_packed _ _ _ _ _ _ _ _ _ _ _ j heqL hj
            exact reduce_restore_packed _ _ _ _ _ j hred h1
          · have hw3 : pR.result.last_image_width = lsw := by rw [hresR]
            obtain hL | ⟨q, q2, d0, ha, k1, k2, k3, k4, k5, k6, k7, k8⟩ :=
              reduce_loop_size _ _ _ _ _ _ _ _ _ _ _ heqL
            · refine Or.inr (Or.inl ?_)
              rw [hw3, hL.1]
            · refine Or.inr (Or.inr
                ⟨q, q2, d0, ha, k1, k2, k3, k4, k5, k6, ?_⟩)
              rw [hw3]
              exact k7
        · rename_i hcond
          cases hred
          constructor
          · intro j hj
            exact reduce_loop_packed _ _ _ _ _ _ _ _ _ _ _ j heqL hj
          · have hc : lsw = pR.result.last_image_width := by omega
            obtain hL | ⟨q, q2, d0, ha, k1, k2, k3, k4, k5, k6, k7, k8⟩ :=
              reduce_loop_size _ _ _ _ _ _ _ _ _ _ _ heqL
            · refine Or.inr (Or.inl ?_)
              rw [← hc, hL.1]
            · refine Or.inr (Or.inr
                ⟨q, q2, d0, ha, k1, k2, k3, k4, k5, k6, ?_⟩)
              rw [← hc]
              exact k7

/-- Witness for the amended C4 at a concrete input: the 60 by 60 rect packed
into a 100 by 100 image stays packed through the shrink step, and the final
65 by 65 size (outside the 2 percent tolerance) is a successful repack
candidate reached by an attempt pinned to this packer. -/
theorem c4_witness :
    japacker_reduce_last_image_size c4_witness_packer 3600 =
      .ok c4_witness_pR ∧
    ((∀ j, (c4_witness_packer.rects.getD j default).output.packed = true →
       (c4_witness_pR.rects.getD j default).output.packed = true) ∧
     (c4_witness_pR = c4_witness_packer ∨
      c4_witness_pR.result.last_image_width =
        c4_witness_packer.internal_data.image_width ∨
      ∃ q q2 d0, japacker_reduce_attempt q
          (u32sub c4_witness_packer.result.images_needed 1) 0
          q.internal_data.num_rects = .ok (q2, false) ∧
        q.internal_data.num_rects =
          c4_witness_packer.internal_data.num_rects ∧
        q.internal_data.sorted_rects =
          c4_witness_packer.internal_data.sorted_rects ∧
        q.options = c4_witness_packer.options ∧
        (∀ j, (q.rects.getD j default).input =
          (c4_witness_packer.rects.getD j default).input) ∧
        (∀ j, (q.rects.getD j default).output.image_index =
          (c4_witness_packer.rects.getD j default).output.image_index) ∧
        q.internal_data.empty_areas =
          (japacker_reset_empty_areas d0 q.result.last_image_width
            q.result.last_image_height).empty_areas ∧
        q.result.last_image_width =
          c4_witness_pR.result.last_image_width)) :=
  ⟨by decide, c4_amended c4_witness_packer 3600 c4_witness_pR (by decide)⟩

/-- Modifying one pool slot and reading another leaves the read unchanged. -/
theorem arr_modify_getD_ne {α : Type} (a : Array α) (i j : Nat) (f : α → α)
    (d : α) (hij : i ≠ j) : (a.modify i f).getD j d = a.getD j d := by
  unfold Array.getD
  simp only [Array.size_modify, Array.get_eq_getElem]
  split
  · rename_i h
    exact Array.getElem_modify_of_ne hij f
      (by simp only [Array.size_modify]; exact h)
  · rfl

/-- Modifying one pool slot and reading it back: the modified value in
bounds, the default out of bounds. -/
theorem arr_modify_getD_self {α : Type} (a : Array α) (i : Nat) (f : α → α)
    (d : α) : (a.modify i f).getD i d =
      if i < a.size then f (a.getD i d) else d := by
  unfold Array.getD
  simp only [Array.size_modify, Array.get_eq_getElem]
  split
  · rename_i h
    rw [Array.getElem_modify_self f (by simp only [Array.size_modify]; exact h)]
  · rename_i h
    simp [h]

/-- Reading the modified slot through geta. -/
theorem geta_modArea_self (data : japacker_internal_data) (i : Nat)
    (f : japacker_empty_area → japacker_empty_area) :
    geta (modArea data i f) i =
      if i < data.empty_areas.list.size then f (geta data i) else default :=
  arr_modify_getD_self data.empty_areas.list i f default

/-- Reading another slot through geta after a modify. -/
theorem geta_modArea_ne (data : japacker_internal_data) (i j : Nat)
    (f : japacker_empty_area → japacker_empty_area) (hij : i ≠ j) :
    geta (modArea data i f) j = geta data j :=
  arr_modify_getD_ne data.empty_areas.list i j f default hij

/-- A chain segment certified by segOk is what the fuelled pointer walk
reads, as soon as the fuel covers its length. -/
theorem chainFrom_of_segOk (data : japacker_internal_data) :
    ∀ (l : List Nat) (prev cur : Option Nat) (fuel : Nat),
    segOk data prev cur l none → l.length ≤ fuel →
    chainFrom data cur fuel = l := by
  intro l
  induction l with
  | nil =>
    intro prev cur fuel hs _
    unfold segOk at hs
    subst hs
    cases fuel <;> rfl
  | cons i rest ih =>
    intro prev cur fuel hs hlen
    unfold segOk at hs
    obtain ⟨hcur, _, hrest⟩ := hs
    subst hcur
    cases fuel with
    | zero => simp at hlen
    | succ fuel =>
      unfold chainFrom
      simp only []
      rw [ih (some i) (geta data i).next fuel hrest (by simp at hlen; omega)]

/-- A distinct in-bounds index list is no longer than the pool. -/
theorem chain_length_le (data : japacker_internal_data) (l : List Nat)
    (hnd : l.Nodup)
    (hb : ∀ i ∈ l, i < data.empty_areas.list.size ∧
      i ≤ data.empty_areas.index) :
    l.length ≤ data.empty_areas.list.size := by
  have hsub : l.toFinset ⊆ Finset.range data.empty_areas.list.size := by
    intro x hx
    exact Finset.mem_range.2 (hb x (List.mem_toFinset.1 hx)).1
  have hcard := Finset.card_le_card hsub
  rw [Finset.card_range] at hcard
  rw [List.toFinset_card_of_nodup hnd] at hcard
  exact hcard

/-- Under the chain invariant, the observable walk reads exactly the chain,
so the observed footprints are the footprints of the chain records. -/
theorem chainGeos_of_WF (data : japacker_internal_data) (l : List Nat)
    (hwf : chainWF data l) : chainGeos data = geoList data l := by
  obtain ⟨hseg, _, hnd, hb⟩ := hwf
  unfold chainGeos chainIndices geoList
  rw [chainFrom_of_segOk data l none data.empty_areas.first _ hseg
    (Nat.le_trans (chain_length_le data l hnd hb) (Nat.le_succ _))]
  rfl

/-- A segment certificate only reads the records it lists. -/
theorem segOk_congr (data data2 : japacker_internal_data) :
    ∀ (l : List Nat) (prev cur after : Option Nat),
    (∀ i ∈ l, geta data2 i = geta data i) →
    segOk data prev cur l after → segOk data2 prev cur l after := by
  intro l
  induction l with
  | nil => intro prev cur after _ hs; exact hs
  | cons i rest ih =>
    intro prev cur after hg hs
    obtain ⟨h1, h2, h3⟩ := hs
    refine ⟨h1, ?_, ?_⟩
    · rw [hg i (by simp)]
      exact h2
    · rw [hg i (by simp)]
      exact ih (some i) _ after (fun j hj => hg j (by simp [hj])) h3

/-- entryPrev steps through a cons cell. -/
theorem entryPrev_cons (i : Nat) (l : List Nat) (prev : Option Nat) :
    entryPrev (i :: l) prev = entryPrev l (some i) := by
  cases l with
  | nil => rfl
  | cons j rest =>
    simp only [entryPrev, List.getLast?_cons_cons]
    cases h : (j :: rest).getLast? with
    | none =>
      have h2 : (j :: rest).getLast?.isSome := by
        rw [List.getLast?_isSome]
        simp
      rw [h] at h2
      cases h2
    | some x => rfl

/-- Splitting a segment certificate at an append. -/
theorem segOk_decomp (data : japacker_internal_data) :
    ∀ (l1 l2 : List Nat) (prev cur after : Option Nat),
    segOk data prev cur (l1 ++ l2) after →
    ∃ mid, segOk data prev cur l1 mid ∧
      segOk data (entryPrev l1 prev) mid l2 after := by
  intro l1
  induction l1 with
  | nil =>
    intro l2 prev cur after hs
    exact ⟨cur, rfl, hs⟩
  | cons i l1 ih =>
    intro l2 prev cur after hs
    obtain ⟨h1, h2, h3⟩ := hs
    obtain ⟨mid, hm1, hm2⟩ := ih l2 (some i) (geta data i).next after h3
    refine ⟨mid, ⟨h1, h2, hm1⟩, ?_⟩
    rw [entryPrev_cons]
    exact hm2

/-- Joining two segment certificates across an append. -/
theorem segOk_comp (data : japacker_internal_data) :
    ∀ (l1 l2 : List Nat) (prev cur mid after : Option Nat),
    segOk data prev cur l1 mid →
    segOk data (entryPrev l1 prev) mid l2 after →
    segOk data prev cur (l1 ++ l2) after := by
  intro l1
  induction l1 with
  | nil =>
    intro l2 prev cur mid after hs1 hs2
    unfold segOk at hs1
    subst hs1
    exact hs2
  | cons i l1 ih =>
    intro l2 prev cur mid after hs1 hs2
    obtain ⟨h1, h2, h3⟩ := hs1
    rw [entryPrev_cons] at hs2
    exact ⟨h1, h2, ih l2 (some i) (geta data i).next mid after h3 hs2⟩

/-- A pointer-only slot update keeps every footprint read. -/
theorem arr_modify_getD_geo (a : Array japacker_empty_area) (i j : Nat)
    (f : japacker_empty_area → japacker_empty_area)
    (hf : ∀ x, areaGeo (f x) = areaGeo x) :
    areaGeo ((a.modify i f).getD j default) = areaGeo (a.getD j default) := by
  by_cases hij : i = j
  · subst hij
    rw [arr_modify_getD_self]
    split
    · exact hf _
    · rfl
  · rw [arr_modify_getD_ne _ _ _ _ _ hij]

/-- Unlinking keeps the pool length. -/
theorem delist_size (data : japacker_internal_data) (k : Nat) :
    (japacker_delist_empty_area data k).empty_areas.list.size =
      data.empty_areas.list.size := by
  simp only [japacker_delist_empty_area]
  repeat' split
  all_goals simp [Array.size_modify]

/-- Unlinking keeps the high-water index. -/
theorem delist_index (data : japacker_internal_data) (k : Nat) :
    (japacker_delist_empty_area data k).empty_areas.index =
      data.empty_areas.index := by
  simp only [japacker_delist_empty_area]
  repeat' split
  all_goals rfl

/-- Unlinking keeps every footprint. -/
theorem delist_geo (data : japacker_internal_data) (k j : Nat) :
    areaGeo (geta (japacker_delist_empty_area data k) j) =
      areaGeo (geta data j) := by
  simp only [japacker_delist_empty_area, geta]
  repeat' split
  all_goals try simp only []
  all_goals repeat (rw [arr_modify_getD_geo] <;> try (intro x; rfl))

/-- The first pointer after an unlink. -/
theorem delist_first (data : japacker_internal_data) (k : Nat) :
    (japacker_delist_empty_area data k).empty_areas.first =
      if data.empty_areas.first = some k then (geta data k).next
      else data.empty_areas.first := by
  simp only [japacker_delist_empty_area, geta]
  repeat' split
  all_goals rfl

/-- The last pointer after an unlink. -/
theorem delist_last (data : japacker_internal_data) (k : Nat) :
    (japacker_delist_empty_area data k).empty_areas.last =
      if data.empty_areas.last = some k then (geta data k).prev
      else data.empty_areas.last := by
  simp only [japacker_delist_empty_area, geta]
  repeat' split
  all_goals rfl

/-- The unlinked record after an unlink: links cleared, all else kept. -/
theorem geta_delist_k (data : japacker_internal_data) (k : Nat)
    (hk : k < data.empty_areas.list.size)
    (hpk : (geta data k).prev ≠ some k)
    (hnk : (geta data k).next ≠ some k) :
    geta (japacker_delist_empty_area data k) k =
      { geta data k with prev := none, next := none } := by
  simp only [japacker_delist_empty_area, geta] at *
  repeat' split
  all_goals try subst_vars
  all_goals try simp_all [Array.getElem?_modify, Array.size_modify,
    Array.getElem?_eq_getElem, Array.getElem_modify_self,
    Array.getElem_modify_of_ne]
  all_goals try (rw [Array.getElem?_eq_getElem] <;> first | simp_all | omega)

/-- The predecessor record after an unlink: its next pointer now skips the
removed record, all else kept. -/
theorem geta_delist_p (data : japacker_internal_data) (k p : Nat)
    (hp : (geta data k).prev = some p)
    (hpsz : p < data.empty_areas.list.size)
    (hpk : k ≠ p)
    (hnp : (geta data k).next ≠ some p) :
    geta (japacker_delist_empty_area data k) p =
      { geta data p with next := (geta data k).next } := by
  simp only [japacker_delist_empty_area, geta] at *
  rw [hp]
  repeat' split
  all_goals try subst_vars
  all_goals try simp_all [Array.getElem?_modify, Array.size_modify,
    Array.getElem?_eq_getElem, Array.getElem_modify_self,
    Array.getElem_modify_of_ne]
  all_goals try (rw [Array.getElem?_eq_getElem] <;> first | simp_all | omega)

/-- The successor record after an unlink: its prev pointer now skips the
removed record, all else kept. -/
theorem geta_delist_n (data : japacker_internal_data) (k n : Nat)
    (hn : (geta data k).next = some n)
    (hnsz : n < data.empty_areas.list.size)
    (hnk : k ≠ n)
    (hpn : (geta data k).prev ≠ some n) :
    geta (japacker_delist_empty_area data k) n =
      { geta data n with prev := (geta data k).prev } := by
  simp only [japacker_delist_empty_area, geta] at *
  rw [hn]
  repeat' split
  all_goals try subst_vars
  all_goals try simp_all [Array.getElem?_modify, Array.size_modify,
    Array.getElem?_eq_getElem, Array.getElem_modify_self,
    Array.getElem_modify_of_ne]
  all_goals try (rw [Array.getElem?_eq_getElem] <;> first | simp_all | omega)

/-- Any other record is untouched by an unlink. -/
theorem geta_delist_other (data : japacker_internal_data) (k j : Nat)
    (hjk : k ≠ j)
    (hjp : (geta data k).prev ≠ some j)
    (hjn : (geta data k).next ≠ some j) :
    geta (japacker_delist_empty_area data k) j = geta data j := by
  simp only [japacker_delist_empty_area, geta] at *
  repeat' split
  all_goals try subst_vars
  all_goals try simp_all [Array.getElem?_modify, Array.size_modify,
    Array.getElem?_eq_getElem, Array.getElem_modify_self,
    Array.getElem_modify_of_ne]
  all_goals try (rw [Array.getElem?_eq_getElem] <;> first | simp_all | omega)

/-- With no last record, entryPrev is the entry predecessor rewritten. -/
theorem entryPrev_none (l : List Nat) : entryPrev l none = l.getLast? := by
  unfold entryPrev
  cases h : l.getLast? <;> rfl

/-- A segment entry predecessor read off a list is one of its members. -/
theorem entryPrev_mem (l : List Nat) (x : Nat)
    (h : entryPrev l none = some x) : x ∈ l := by
  rw [entryPrev_none] at h
  exact List.mem_of_mem_getLast? h

/-- Unlinking a listed record from a well-formed store leaves a well-formed
store over the chain without it. -/
theorem delist_spec (data : japacker_internal_data) (l1 l2 : List Nat)
    (k : Nat) (hwf : StoreWF data (l1 ++ k :: l2)) :
    StoreWF (japacker_delist_empty_area data k) (l1 ++ l2) := by
  obtain ⟨⟨hseg, hlast, hnd, hb⟩, hcl⟩ := hwf
  have hkb := hb k (by simp)
  have hnd2 := List.nodup_append.1 hnd
  obtain ⟨hnd1, hndk2, hdisj⟩ := hnd2
  have hkl2 : k ∉ l2 := (List.nodup_cons.1 hndk2).1
  have hndl2 : l2.Nodup := (List.nodup_cons.1 hndk2).2
  have hkl1 : k ∉ l1 := fun hc => hdisj hc (by simp)
  obtain ⟨mid, hseg1, hseg2⟩ := segOk_decomp data l1 (k :: l2) none
    data.empty_areas.first none hseg
  obtain ⟨hmid, hkprev, hseg2r⟩ := hseg2
  -- facts about the prev pointer of k
  have hprev_ne_k : (geta data k).prev ≠ some k := by
    rw [hkprev]
    intro hc
    exact hkl1 (entryPrev_mem l1 k hc)
  have hprev_l1 : ∀ x, (geta data k).prev = some x → x ∈ l1 := by
    intro x hx
    rw [hkprev] at hx
    exact entryPrev_mem l1 x hx
  -- facts about the next pointer of k
  have hnext_l2 : ∀ x, (geta data k).next = some x → x ∈ l2 := by
    intro x hx
    cases l2 with
    | nil =>
      unfold segOk at hseg2r
      rw [hx] at hseg2r
      cases hseg2r
    | cons j l2t =>
      obtain ⟨hj, _, _⟩ := hseg2r
      rw [hx] at hj
      cases hj
      simp
  have hnext_ne_k : (geta data k).next ≠ some k := by
    intro hc
    exact hkl2 (hnext_l2 k hc)
  -- untouched records: everything other than k, its prev and its next
  have hother : ∀ j, j ≠ k → j ∉ l1 → j ∉ l2 →
      geta (japacker_delist_empty_area data k) j = geta data j := by
    intro j hjk hjl1 hjl2
    refine geta_delist_other data k j (fun hc => hjk hc.symm) ?_ ?_
    · intro hc
      exact hjl1 (hprev_l1 j hc)
    · intro hc
      exact hjl2 (hnext_l2 j hc)
  refine ⟨⟨?_, ?_, ?_, ?_⟩, ?_⟩
  · -- the chain of the unlinked store
    have segB : segOk (japacker_delist_empty_area data k) (entryPrev l1 none)
        ((geta data k).next) l2 none := by
      cases l2 with
      | nil =>
        have hN : (geta data k).next = none := hseg2r
        exact hN
      | cons j l2t =>
        obtain ⟨hj, hjprev, hrest⟩ := hseg2r
        have hjb := hb j (by simp)
        have hdj : geta (japacker_delist_empty_area data k) j =
            { geta data j with prev := (geta data k).prev } := by
          refine geta_delist_n data k j hj hjb.1 ?_ ?_
          · intro hc
            exact hkl2 (by rw [hc]; simp)
          · intro hc
            exact hdisj (hprev_l1 j hc) (by simp)
        refine ⟨hj, ?_, ?_⟩
        · rw [hdj]
          exact hkprev
        · rw [hdj]
          refine segOk_congr data (japacker_delist_empty_area data k) l2t
            (some j) _ none ?_ hrest
          intro m hm
          refine geta_delist_other data k m ?_ ?_ ?_
          · intro hc
            exact hkl2 (by rw [hc]; simp [hm])
          · intro hc
            exact hdisj (hprev_l1 m hc) (by simp [hm])
          · rw [hj]
            intro hc
            injection hc with hc2
            have hjnd : j ∉ l2t := (List.nodup_cons.1 hndl2).1
            exact hjnd (by rw [hc2]; exact hm)
    have segA : segOk (japacker_delist_empty_area data k) none
        (japacker_delist_empty_area data k).empty_areas.first l1
        ((geta data k).next) := by
      rcases List.eq_nil_or_concat l1 with rfl | ⟨l1i, p, rfl⟩
      · have hf : data.empty_areas.first = some k := by
          have h2 : data.empty_areas.first = mid := hseg1
          rw [h2, hmid]
        have hf2 : (japacker_delist_empty_area data k).empty_areas.first =
            (geta data k).next := by
          rw [delist_first, if_pos hf]
        exact hf2
      · simp only [List.concat_eq_append] at *
        have hPp : entryPrev (l1i ++ [p]) none = some p := by
          rw [entryPrev_none, List.getLast?_concat]
        have hpmem : p ∈ l1i ++ [p] := by simp
        have hpb := hb p (by simp)
        have hpk2 : k ≠ p := fun hc => hkl1 (by rw [hc]; exact hpmem)
        obtain ⟨mid2, hseg1i, hseg1p⟩ := segOk_decomp data l1i [p] none
          data.empty_areas.first mid hseg1
        obtain ⟨hm2, hpprev, hpnext⟩ := hseg1p
        have hkprevp : (geta data k).prev = some p := by rw [hkprev, hPp]
        have hdp : geta (japacker_delist_empty_area data k) p =
            { geta data p with next := (geta data k).next } := by
          refine geta_delist_p data k p hkprevp hpb.1 hpk2 ?_
          intro hc
          exact hdisj hpmem (List.mem_cons_of_mem _ (hnext_l2 p hc))
        have hfne : data.empty_areas.first ≠ some k := by
          cases l1i with
          | nil =>
            have h1 : data.empty_areas.first = some p := by
              have h2 : data.empty_areas.first = mid2 := hseg1i
              rw [h2, hm2]
            rw [h1]
            intro hc
            injection hc with hc2
            exact hpk2 hc2.symm
          | cons i l1it =>
            obtain ⟨hi, _, _⟩ := hseg1i
            rw [hi]
            intro hc
            injection hc with hc2
            exact hkl1 (by rw [← hc2]; simp)
        have hfirst2 : (japacker_delist_empty_area data k).empty_areas.first =
            data.empty_areas.first := by
          rw [delist_first, if_neg hfne]
        have hseg1i2 : segOk (japacker_delist_empty_area data k) none
            data.empty_areas.first l1i mid2 := by
          refine segOk_congr data (japacker_delist_empty_area data k) l1i
            none _ mid2 ?_ hseg1i
          intro m hm
          have hml1 : m ∈ l1i ++ [p] := by simp [hm]
          refine geta_delist_other data k m ?_ ?_ ?_
          · intro hc
            exact hkl1 (by rw [hc]; exact hml1)
          · rw [hkprevp]
            intro hc
            injection hc with hc2
            obtain ⟨_, _, hdj2⟩ := List.nodup_append.1 hnd1
            exact hdj2 (show p ∈ l1i by rw [hc2]; exact hm) (by simp)
          · intro hc
            exact hdisj hml1 (List.mem_cons_of_mem _ (hnext_l2 m hc))
        have hsegp2 : segOk (japacker_delist_empty_area data k)
            (entryPrev l1i none) mid2 [p] ((geta data k).next) := by
          refine ⟨hm2, ?_, ?_⟩
          · rw [hdp]
            exact hpprev
          · rw [hdp]
            rfl
        rw [hfirst2]
        exact segOk_comp (japacker_delist_empty_area data k) l1i [p] none
          data.empty_areas.first mid2 ((geta data k).next) hseg1i2 hsegp2
    exact segOk_comp (japacker_delist_empty_area data k) l1 l2 none
      (japacker_delist_empty_area data k).empty_areas.first
      ((geta data k).next) none segA segB
  · -- the last pointer
    rw [delist_last]
    have hlast2 : data.empty_areas.last = (k :: l2).getLast? :=
      hlast.trans (List.getLast?_append_of_ne_nil _ (by simp))
    cases l2 with
    | nil =>
      have hl : data.empty_areas.last = some k := by rw [hlast2]; rfl
      rw [if_pos hl, hkprev, entryPrev_none]
      simp
    | cons j l2t =>
      have hgl : (k :: j :: l2t).getLast? = (j :: l2t).getLast? :=
        List.getLast?_cons_cons
      have hl : data.empty_areas.last ≠ some k := by
        rw [hlast2, hgl]
        intro hc
        exact hkl2 (List.mem_of_mem_getLast? hc)
      rw [if_neg hl, hlast2, hgl]
      exact (List.getLast?_append_of_ne_nil _ (by simp)).symm
  · -- distinctness
    exact List.nodup_append.2 ⟨hnd1, hndl2,
      fun a ha1 ha2 => hdisj ha1 (List.mem_cons_of_mem _ ha2)⟩
  · -- bounds
    intro i hi
    have hbi := hb i (by
      rcases List.mem_append.1 hi with h | h
      · exact List.mem_append.2 (Or.inl h)
      · exact List.mem_append.2 (Or.inr (List.mem_cons_of_mem _ h)))
    rw [delist_size, delist_index]
    exact hbi
  · -- cleared links outside the chain
    intro j hjsz hjmem
    rw [delist_size] at hjsz
    by_cases hjk : j = k
    · subst hjk
      rw [geta_delist_k data j hjsz hprev_ne_k hnext_ne_k]
      exact ⟨rfl, rfl⟩
    · have hj1 : j ∉ l1 := fun hc => hjmem (List.mem_append.2 (Or.inl hc))
      have hj2 : j ∉ l2 := fun hc => hjmem (List.mem_append.2 (Or.inr hc))
      rw [hother j hjk hj1 hj2]
      refine hcl j hjsz ?_
      intro hc
      rcases List.mem_append.1 hc with h | h
      · exact hj1 h
      · rcases List.mem_cons.1 h with h | h
        · exact hjk h
        · exact hj2 h

/-- getD on the pool written back as geta, used to normalize unfolded
definitions. -/
theorem geta_def (data : japacker_internal_data) (i : Nat) :
    data.empty_areas.list.getD i default = geta data i := rfl

/-- The backward insertion walk: entered at the tail of the still-unvisited
prefix lw of a well-formed chain lw ++ lr, with the record k unlinked and
cleared, it links k into the chain at some position no later than the
junction (after a record of lw, or right at the junction, or at the front),
touching only link fields. -/
theorem sort_walk_spec (data : japacker_internal_data) (k : Nat) :
    ∀ (lw lr : List Nat) (fuel : Nat),
    StoreWF data (lw ++ lr) →
    k < data.empty_areas.list.size →
    k ≤ data.empty_areas.index →
    k ∉ lw ++ lr →
    (geta data k).prev = none →
    (geta data k).next = none →
    lw ++ lr ≠ [] →
    lw.length < fuel →
    ∃ w1 w2, lw = w1 ++ w2 ∧
      StoreWF (japacker_sort_walk data k (entryPrev lw none) fuel)
        (w1 ++ k :: (w2 ++ lr)) ∧
      (∀ j, areaGeo (geta (japacker_sort_walk data k (entryPrev lw none) fuel)
        j) = areaGeo (geta data j)) ∧
      (japacker_sort_walk data k (entryPrev lw none)
        fuel).empty_areas.list.size = data.empty_areas.list.size ∧
      (japacker_sort_walk data k (entryPrev lw none) fuel).empty_areas.index =
        data.empty_areas.index := by
  intro lw
  induction lw using List.reverseRecOn with
  | nil =>
    intro lr fuel hwf hk hki hkl hkp hkn hne hflen
    cases lr with
    | nil => exact absurd rfl hne
    | cons f lrt =>
      obtain ⟨⟨hseg, hlast, hnd, hb⟩, hcl⟩ := hwf
      obtain ⟨hf, hfprev, hfrest⟩ := hseg
      cases fuel with
      | zero => simp at hflen
      | succ fu =>
        have hfb := hb f (by simp)
        have hfk : f ≠ k := fun hc => hkl (by rw [← hc]; simp)
        have hndf : (f :: lrt).Nodup := by simpa using hnd
        have hS : japacker_sort_walk data k (entryPrev ([] : List Nat) none)
            (fu + 1) = { data with empty_areas := { data.empty_areas with
              list := ((data.empty_areas.list.modify f fun x =>
                { x with prev := some k }).modify k fun x =>
                { x with next := some f }),
              first := some k } } := by
          rw [show entryPrev ([] : List Nat) none = none from rfl]
          unfold japacker_sort_walk
          simp only []
          rw [hf]
        have hgSk : geta (japacker_sort_walk data k
            (entryPrev ([] : List Nat) none) (fu + 1)) k =
            { geta data k with next := some f } := by
          rw [hS]
          simp only [geta, Array.getD]
          have h1 : f ≠ k := hfk
          simp [Array.getElem?_modify, Array.size_modify,
              Array.getElem?_eq_getElem, Array.getElem_modify_self,
              Array.getElem_modify_of_ne, hk, h1]
        have hgSf : geta (japacker_sort_walk data k
            (entryPrev ([] : List Nat) none) (fu + 1)) f =
            { geta data f with prev := some k } := by
          rw [hS]
          simp only [geta, Array.getD]
          have h1 : k ≠ f := fun hc => hfk hc.symm
          simp [Array.getElem?_modify, Array.size_modify,
              Array.getElem?_eq_getElem, Array.getElem_modify_self,
              Array.getElem_modify_of_ne, hfb.1, h1]
        have hgSo : ∀ j, j ≠ k → j ≠ f →
            geta (japacker_sort_walk data k
              (entryPrev ([] : List Nat) none) (fu + 1)) j = geta data j := by
          intro j hjk hjf
          rw [hS]
          simp only [geta, Array.getD]
          have h1 : k ≠ j := fun hc => hjk hc.symm
          have h2 : f ≠ j := fun hc => hjf hc.symm
          simp [Array.getElem?_modify, Array.size_modify,
              Array.getElem?_eq_getElem, Array.getElem_modify_self,
              Array.getElem_modify_of_ne, h1, h2]
        refine ⟨[], [], rfl, ⟨⟨?_, ?_, ?_, ?_⟩, ?_⟩, ?_, ?_, ?_⟩
        · refine ⟨?_, ?_, ?_⟩
          · rw [hS]
          · rw [hgSk]
            exact hkp
          · rw [hgSk]
            refine ⟨rfl, ?_, ?_⟩
            · rw [hgSf]
            · rw [hgSf]
              refine segOk_congr data _ lrt (some f) _ none ?_ hfrest
              intro m hm
              refine hgSo m ?_ ?_
              · intro hc
                exact hkl (by rw [← hc]; simp [hm])
              · intro hc
                exact (List.nodup_cons.1 hndf).1 (by rw [← hc]; exact hm)
        · rw [hS]
          simp only []
          rw [hlast]
          simp [List.getLast?_cons_cons]
        · simp only [List.nil_append]
          rw [List.nodup_cons]
          exact ⟨hkl, by simpa using hnd⟩
        · intro i hi
          rw [hS]
          simp only [Array.size_modify]
          simp only [List.nil_append] at hi
          rcases List.mem_cons.1 hi with h | h
          · subst h
            exact ⟨hk, hki⟩
          · exact hb i (by simpa using h)
        · intro j hjsz hjm
          rw [hS] at hjsz
          simp only [Array.size_modify] at hjsz
          simp only [List.nil_append] at hjm
          have hjk : j ≠ k := fun hc => hjm (by rw [hc]; simp)
          have hjf : j ≠ f := fun hc => hjm (by rw [hc]; simp)
          rw [hgSo j hjk hjf]
          refine hcl j hjsz ?_
          intro hc2
          simp only [List.nil_append] at hc2
          exact hjm (List.mem_cons_of_mem _ hc2)
        · intro j
          rw [hS]
          simp only [geta]
          repeat (rw [arr_modify_getD_geo] <;> try (intro x; rfl))
        · rw [hS]
          simp [Array.size_modify]
        · rw [hS]
  | append_singleton lwi c ih =>
    intro lr fuel hwf hk hki hkl hkp hkn hne hflen
    obtain ⟨⟨hseg, hlast, hnd, hb⟩, hcl⟩ := hwf
    obtain ⟨mid1, hsegLw, hsegLr⟩ := segOk_decomp data (lwi ++ [c]) lr none
      data.empty_areas.first none hseg
    obtain ⟨mid2, hsegLwi, hsegC⟩ := segOk_decomp data lwi [c] none
      data.empty_areas.first mid1 hsegLw
    obtain ⟨hm2, hcprev, hcnextm⟩ := hsegC
    have hcnext : (geta data c).next = mid1 := hcnextm
    have hPc : entryPrev (lwi ++ [c]) none = some c := by
      rw [entryPrev_none, List.getLast?_concat]
    rw [hPc] at hsegLr
    have hcmem : c ∈ lwi ++ [c] := by simp
    have hcb := hb c (by simp)
    have hkc : k ≠ c := fun hc => hkl (by rw [hc]; simp)
    obtain ⟨hndLw, hndLr, hdisjLwLr⟩ := List.nodup_append.1 hnd
    obtain ⟨hndLwi, hndCone, hdisjLwiC⟩ := List.nodup_append.1 hndLw
    have hcLwi : c ∉ lwi := fun hc2 => hdisjLwiC hc2 (by simp)
    have hcLr : c ∉ lr := fun hc2 => hdisjLwLr hcmem hc2
    cases fuel with
    | zero => simp at hflen
    | succ fu =>
      by_cases hcmp : (geta data c).comparator < (geta data k).comparator
      · cases lr with
        | nil =>
          have hlastc : data.empty_areas.last = some c := by
            rw [hlast]
            simp [List.getLast?_concat]
          have hS : japacker_sort_walk data k (entryPrev (lwi ++ [c]) none)
              (fu + 1) = { data with empty_areas := { data.empty_areas with
                list := ((data.empty_areas.list.modify k fun x =>
                  { x with prev := some c }).modify c fun x =>
                  { x with next := some k }),
                last := some k } } := by
            rw [hPc]
            unfold japacker_sort_walk
            simp only [geta_def]
            rw [if_pos hcmp, if_pos hlastc]
          have hSfirst : (japacker_sort_walk data k
              (entryPrev (lwi ++ [c]) none) (fu + 1)).empty_areas.first =
              data.empty_areas.first := by
            rw [hS]
          have hgSk : geta (japacker_sort_walk data k
              (entryPrev (lwi ++ [c]) none) (fu + 1)) k =
              { geta data k with prev := some c } := by
            rw [hS]
            simp only [geta, Array.getD]
            have h1 : c ≠ k := fun hc2 => hkc hc2.symm
            simp [Array.getElem?_modify, Array.size_modify,
              Array.getElem?_eq_getElem, Array.getElem_modify_self,
              Array.getElem_modify_of_ne, hk, h1]
          have hgSc : geta (japacker_sort_walk data k
              (entryPrev (lwi ++ [c]) none) (fu + 1)) c =
              { geta data c with next := some k } := by
            rw [hS]
            simp only [geta, Array.getD]
            simp [Array.getElem?_modify, Array.size_modify,
              Array.getElem?_eq_getElem, Array.getElem_modify_self,
              Array.getElem_modify_of_ne, hcb.1, hkc]
          have hgSo : ∀ j, j ≠ k → j ≠ c →
              geta (japacker_sort_walk data k
                (entryPrev (lwi ++ [c]) none) (fu + 1)) j = geta data j := by
            intro j hjk hjc
            rw [hS]
            simp only [geta, Array.getD]
            have h1 : k ≠ j := fun hc2 => hjk hc2.symm
            have h2 : c ≠ j := fun hc2 => hjc hc2.symm
            simp [Array.getElem?_modify, Array.size_modify,
              Array.getElem?_eq_getElem, Array.getElem_modify_self,
              Array.getElem_modify_of_ne, h1, h2]
          refine ⟨lwi ++ [c], [], by simp, ⟨⟨?_, ?_, ?_, ?_⟩, ?_⟩, ?_, ?_, ?_⟩
          · rw [hSfirst]
            refine segOk_comp _ (lwi ++ [c]) (k :: ([] ++ [])) none _ (some k)
              none ?_ ?_
            · refine segOk_comp _ lwi [c] none _ mid2 (some k) ?_ ?_
              · refine segOk_congr data _ lwi none _ mid2 ?_ hsegLwi
                intro m hm
                refine hgSo m ?_ ?_
                · intro hc2
                  exact hkl (by rw [← hc2]; simp [hm])
                · intro hc2
                  exact hcLwi (by rw [← hc2]; exact hm)
              · refine ⟨hm2, ?_, ?_⟩
                · rw [hgSc]
                  exact hcprev
                · rw [hgSc]
                  rfl
            · refine ⟨rfl, ?_, ?_⟩
              · rw [hgSk]
                exact hPc.symm
              · rw [hgSk]
                exact hkn
          · rw [hS]
            simp only []
            rw [show (lwi ++ [c]) ++ k :: ([] ++ []) = lwi ++ [c] ++ [k] from
              by simp]
            simp [List.getLast?_concat]
          · simp only [List.append_nil]
            refine List.nodup_append.2 ⟨hndLw, by simp, ?_⟩
            intro a ha hak
            rcases List.mem_cons.1 hak with h | h
            · exact hkl (by rw [← h]; simp [ha])
            · simp at h
          · intro i hi
            rw [hS]
            simp only [Array.size_modify]
            rcases List.mem_append.1 hi with h | h
            · exact hb i (by simp [h])
            · rcases List.mem_cons.1 h with h2 | h2
              · subst h2
                exact ⟨hk, hki⟩
              · simp at h2
          · intro j hjsz hjm
            rw [hS] at hjsz
            simp only [Array.size_modify] at hjsz
            have hjk : j ≠ k := fun hc2 => hjm (by rw [hc2]; simp)
            have hjc : j ≠ c := fun hc2 => hjm (by rw [hc2]; simp)
            rw [hgSo j hjk hjc]
            refine hcl j hjsz ?_
            intro hc2
            refine hjm ?_
            simp only [List.append_nil] at hc2
            exact List.mem_append.2 (Or.inl hc2)
          · intro j
            rw [hS]
            simp only [geta]
            repeat (rw [arr_modify_getD_geo] <;> try (intro x; rfl))
          · rw [hS]
            simp [Array.size_modify]
          · rw [hS]
        | cons f lrt =>
          obtain ⟨hf1, hfprev, hfrest⟩ := hsegLr
          have hlastne : data.empty_areas.last ≠ some c := by
            rw [hlast, List.getLast?_append_of_ne_nil _ (by simp)]
            intro hc2
            exact hcLr (List.mem_of_mem_getLast? hc2)
          have hcnextf : (geta data c).next = some f := by rw [hcnext, hf1]
          have hfb := hb f (by simp)
          have hfc : f ≠ c := fun hc2 => hcLr (by rw [← hc2]; simp)
          have hfk : f ≠ k := fun hc2 => hkl (by rw [← hc2]; simp)
          have hS : japacker_sort_walk data k (entryPrev (lwi ++ [c]) none)
              (fu + 1) = { data with empty_areas := { data.empty_areas with
                list := (((((data.empty_areas.list.modify k fun x =>
                  { x with next := some f }).modify f fun x =>
                  { x with prev := some k }).modify k fun x =>
                  { x with prev := some c }).modify c fun x =>
                  { x with next := some k })) } } := by
            rw [hPc]
            unfold japacker_sort_walk
            simp only [geta_def]
            rw [if_pos hcmp, if_neg hlastne, hcnextf]
          have hSfirst : (japacker_sort_walk data k
              (entryPrev (lwi ++ [c]) none) (fu + 1)).empty_areas.first =
              data.empty_areas.first := by
            rw [hS]
          have hgSk : geta (japacker_sort_walk data k
              (entryPrev (lwi ++ [c]) none) (fu + 1)) k =
              { geta data k with prev := some c, next := some f } := by
            rw [hS]
            simp only [geta, Array.getD]
            have h1 : c ≠ k := fun hc2 => hkc hc2.symm
            have h2 : f ≠ k := hfk
            simp [Array.getElem?_modify, Array.size_modify,
              Array.getElem?_eq_getElem, Array.getElem_modify_self,
              Array.getElem_modify_of_ne, hk, h1, h2]
          have hgSf : geta (japacker_sort_walk data k
              (entryPrev (lwi ++ [c]) none) (fu + 1)) f =
              { geta data f with prev := some k } := by
            rw [hS]
            simp only [geta, Array.getD]
            have h1 : c ≠ f := fun hc2 => hfc hc2.symm
            have h2 : k ≠ f := fun hc2 => hfk hc2.symm
            simp [Array.getElem?_modify, Array.size_modify,
              Array.getElem?_eq_getElem, Array.getElem_modify_self,
              Array.getElem_modify_of_ne, hfb.1, h1, h2]
          have hgSc : geta (japacker_sort_walk data k
              (entryPrev (lwi ++ [c]) none) (fu + 1)) c =
              { geta data c with next := some k } := by
            rw [hS]
            simp only [geta, Array.getD]
            simp [Array.getElem?_modify, Array.size_modify,
              Array.getElem?_eq_getElem, Array.getElem_modify_self,
              Array.getElem_modify_of_ne, hcb.1, hkc, hfc]
          have hgSo : ∀ j, j ≠ k → j ≠ c → j ≠ f →
              geta (japacker_sort_walk data k
                (entryPrev (lwi ++ [c]) none) (fu + 1)) j = geta data j := by
            intro j hjk hjc hjf
            rw [hS]
            simp only [geta, Array.getD]
            have h1 : k ≠ j := fun hc2 => hjk hc2.symm
            have h2 : c ≠ j := fun hc2 => hjc hc2.symm
            have h3 : f ≠ j := fun hc2 => hjf hc2.symm
            simp [Array.getElem?_modify, Array.size_modify,
              Array.getElem?_eq_getElem, Array.getElem_modify_self,
              Array.getElem_modify_of_ne, h1, h2, h3]
          refine ⟨lwi ++ [c], [], by simp, ⟨⟨?_, ?_, ?_, ?_⟩, ?_⟩, ?_, ?_, ?_⟩
          · rw [hSfirst]
            refine segOk_comp _ (lwi ++ [c]) (k :: ([] ++ f :: lrt)) none _
              (some k) none ?_ ?_
            · refine segOk_comp _ lwi [c] none _ mid2 (some k) ?_ ?_
              · refine segOk_congr data _ lwi none _ mid2 ?_ hsegLwi
                intro m hm
                refine hgSo m ?_ ?_ ?_
                · intro hc2
                  exact hkl (by rw [← hc2]; simp [hm])
                · intro hc2
                  exact hcLwi (by rw [← hc2]; exact hm)
                · intro hc2
                  exact hdisjLwLr (show m ∈ lwi ++ [c] from by simp [hm])
                    (show m ∈ f :: lrt from by rw [← hc2]; simp)
              · refine ⟨hm2, ?_, ?_⟩
                · rw [hgSc]
                  exact hcprev
                · rw [hgSc]
                  rfl
            · refine ⟨rfl, ?_, ?_⟩
              · rw [hgSk]
                exact hPc.symm
              · rw [hgSk]
                simp only [List.nil_append]
                refine ⟨rfl, ?_, ?_⟩
                · rw [hgSf]
                · rw [hgSf]
                  refine segOk_congr data _ lrt (some f) _ none ?_ hfrest
                  intro m hm
                  refine hgSo m ?_ ?_ ?_
                  · intro hc2
                    exact hkl (by rw [← hc2]; simp [hm])
                  · intro hc2
                    exact hcLr (by rw [← hc2]; simp [hm])
                  · intro hc2
                    exact (List.nodup_cons.1 hndLr).1 (by rw [← hc2]; exact hm)
          · rw [hS]
            simp only []
            rw [hlast, List.getLast?_append_of_ne_nil _ (by simp)]
            rw [show (lwi ++ [c]) ++ k :: ([] ++ f :: lrt) =
              (lwi ++ [c]) ++ (k :: f :: lrt) from by simp]
            rw [List.getLast?_append_of_ne_nil _ (by simp)]
            simp [List.getLast?_cons_cons]
          · refine List.nodup_append.2 ⟨hndLw, ?_, ?_⟩
            · simp only [List.nil_append]
              rw [List.nodup_cons]
              refine ⟨?_, hndLr⟩
              intro hc2
              exact hkl (by simp [hc2])
            · intro a ha hak
              simp only [List.nil_append] at hak
              rcases List.mem_cons.1 hak with h | h
              · refine hkl ?_
                rw [← h]
                simp at ha ⊢
                tauto
              · exact hdisjLwLr ha h
          · intro i hi
            rw [hS]
            simp only [Array.size_modify]
            rcases List.mem_append.1 hi with h | h
            · refine hb i ?_
              simp at h ⊢
              tauto
            · rcases List.mem_cons.1 h with h2 | h2
              · subst h2
                exact ⟨hk, hki⟩
              · simp only [List.nil_append] at h2
                refine hb i ?_
                simp at h2 ⊢
                tauto
          · intro j hjsz hjm
            rw [hS] at hjsz
            simp only [Array.size_modify] at hjsz
            have hjk : j ≠ k := fun hc2 => hjm (by rw [hc2]; simp)
            have hjc : j ≠ c := fun hc2 => hjm (by rw [hc2]; simp)
            have hjf : j ≠ f := fun hc2 => hjm (by rw [hc2]; simp)
            rw [hgSo j hjk hjc hjf]
            refine hcl j hjsz ?_
            intro hc2
            refine hjm ?_
            rcases List.mem_append.1 hc2 with h | h
            · exact List.mem_append.2 (Or.inl h)
            · refine List.mem_append.2 (Or.inr (List.mem_cons_of_mem _ ?_))
              simp [h]
          · intro j
            rw [hS]
            simp only [geta]
            repeat (rw [arr_modify_getD_geo] <;> try (intro x; rfl))
          · rw [hS]
            simp [Array.size_modify]
          · rw [hS]
      · have hSrec : japacker_sort_walk data k (entryPrev (lwi ++ [c]) none)
            (fu + 1) = japacker_sort_walk data k (entryPrev lwi none) fu := by
          rw [hPc]
          conv_lhs => unfold japacker_sort_walk
          simp only [geta_def]
          rw [if_neg hcmp, hcprev]
        rw [hSrec]
        have hchain : lwi ++ c :: lr = (lwi ++ [c]) ++ lr := by simp
        obtain ⟨w1, w2, hw, hWF, hgeo, hsz, hidx⟩ := ih (c :: lr) fu
          (by rw [hchain]; exact ⟨⟨hseg, hlast, hnd, hb⟩, hcl⟩) hk hki
          (by rw [hchain]; exact hkl) hkp hkn (by simp)
          (by simp at hflen; omega)
        refine ⟨w1, w2 ++ [c], by rw [hw]; simp, ?_, hgeo, hsz, hidx⟩
        have heq : w1 ++ k :: ((w2 ++ [c]) ++ lr) =
            w1 ++ k :: (w2 ++ c :: lr) := by simp
        rw [heq]
        exact hWF

/-- japacker_sort_empty_area: inserting an unlinked cleared record into a
well-formed store yields a well-formed store with the record spliced in
before the already-passed part lr, touching only link fields. -/
theorem sort_spec (data : japacker_internal_data) (k : Nat) (lw lr : List Nat)
    (hwf : StoreWF data (lw ++ lr))
    (hk : k < data.empty_areas.list.size)
    (hki : k ≤ data.empty_areas.index)
    (hkl : k ∉ lw ++ lr)
    (hkp : (geta data k).prev = none)
    (hkn : (geta data k).next = none) :
    ∃ w1 w2, lw = w1 ++ w2 ∧
      StoreWF (japacker_sort_empty_area data k (entryPrev lw none))
        (w1 ++ k :: (w2 ++ lr)) ∧
      (∀ j, areaGeo (geta (japacker_sort_empty_area data k
        (entryPrev lw none)) j) = areaGeo (geta data j)) ∧
      (japacker_sort_empty_area data k
        (entryPrev lw none)).empty_areas.list.size =
        data.empty_areas.list.size ∧
      (japacker_sort_empty_area data k
        (entryPrev lw none)).empty_areas.index =
        data.empty_areas.index := by
  unfold japacker_sort_empty_area
  by_cases hfe : data.empty_areas.first = none
  · rw [if_pos hfe]
    obtain ⟨⟨hseg, hlast, hnd, hb⟩, hcl⟩ := hwf
    have hchain : lw ++ lr = [] := by
      cases hch : lw ++ lr with
      | nil => rfl
      | cons a rest =>
        rw [hch] at hseg
        obtain ⟨h1, _, _⟩ := hseg
        rw [hfe] at h1
        cases h1
    obtain ⟨hlw, hlr⟩ := List.append_eq_nil.1 hchain
    subst hlw
    subst hlr
    refine ⟨[], [], rfl, ⟨⟨?_, ?_, ?_, ?_⟩, ?_⟩, ?_, ?_, ?_⟩
    · exact ⟨rfl, hkp, hkn⟩
    · rfl
    · simp
    · intro i hi
      simp at hi
      subst hi
      exact ⟨hk, hki⟩
    · intro j hjsz hjm
      simp at hjm
      exact hcl j hjsz (by simp)
    · intro j
      rfl
    · rfl
    · rfl
  · rw [if_neg hfe]
    have hne : lw ++ lr ≠ [] := by
      intro hc
      obtain ⟨⟨hseg, _, _, _⟩, _⟩ := hwf
      rw [hc] at hseg
      exact hfe hseg
    have hlen : lw.length < data.empty_areas.list.size + 1 := by
      obtain ⟨⟨_, _, hnd, hb⟩, _⟩ := hwf
      have h1 := chain_length_le data (lw ++ lr) hnd hb
      have h2 : lw.length ≤ (lw ++ lr).length := by simp
      omega
    exact sort_walk_spec data k lw lr (data.empty_areas.list.size + 1) hwf
      hk hki hkl hkp hkn hne hlen

/-- Splitting off one listed footprint from a cover count. -/
theorem coverCount_cons (g : JRectGeo) (rest : List JRectGeo) (px py : Nat) :
    coverCount (g :: rest) px py =
      coverCount rest px py + (if inGeo g px py = true then 1 else 0) := by
  simp [coverCount, List.countP_cons]

/-- Cover counts add across list append. -/
theorem coverCount_append (l1 l2 : List JRectGeo) (px py : Nat) :
    coverCount (l1 ++ l2) px py =
      coverCount l1 px py + coverCount l2 px py := by
  simp [coverCount, List.countP_append]

/-- The footprint list distributes over append. -/
theorem geoList_append (data : japacker_internal_data) (l1 l2 : List Nat) :
    geoList data (l1 ++ l2) = geoList data l1 ++ geoList data l2 := by
  simp [geoList]

/-- The footprint list over a cons. -/
theorem geoList_cons (data : japacker_internal_data) (a : Nat) (l : List Nat) :
    geoList data (a :: l) = geoOf data a :: geoList data l := rfl

/-- The footprint list only reads the records it lists. -/
theorem geoList_congr (d d2 : japacker_internal_data) (l : List Nat)
    (h : ∀ x ∈ l, areaGeo (geta d2 x) = areaGeo (geta d x)) :
    geoList d2 l = geoList d l := by
  unfold geoList geoOf
  exact List.map_congr_left fun x hx => by rw [h x hx]

/-- The cursor a chain segment starts at is its exit pointer or one of its
members. -/
theorem segOk_cur_mem (data : japacker_internal_data) (l : List Nat)
    (prev cur after : Option Nat) (h : segOk data prev cur l after) :
    cur = after ∨ ∃ f ∈ l, cur = some f := by
  cases l with
  | nil => exact Or.inl h
  | cons f rest => exact Or.inr ⟨f, by simp, h.1⟩

/-- The merge walk returns a listed record together with one of the four
exact-edge adjacency conditions against record i. -/
theorem merge_find_spec (data : japacker_internal_data) (i : Nat) :
    ∀ (l : List Nat) (prev cur : Option Nat) (fuel : Nat) (c : Nat)
      (kind : JMergeKind),
    segOk data prev cur l none →
    japacker_merge_find data i cur fuel = some (c, kind) →
    c ∈ l ∧
    ((kind = .left ∧ (geta data c).y = (geta data i).y ∧
        (geta data c).height = (geta data i).height ∧
        (geta data c).x + (geta data c).width = (geta data i).x) ∨
     (kind = .right ∧ (geta data c).y = (geta data i).y ∧
        (geta data c).height = (geta data i).height ∧
        (geta data i).x + (geta data i).width = (geta data c).x) ∨
     (kind = .top ∧ (geta data c).x = (geta data i).x ∧
        (geta data c).width = (geta data i).width ∧
        (geta data c).y + (geta data c).height = (geta data i).y) ∨
     (kind = .bottom ∧ (geta data c).x = (geta data i).x ∧
        (geta data c).width = (geta data i).width ∧
        (geta data i).y + (geta data i).height = (geta data c).y)) := by
  intro l
  induction l with
  | nil =>
    intro prev cur fuel c kind hseg hfind
    have hcur : cur = none := hseg
    subst hcur
    cases fuel with
    | zero => cases hfind
    | succ fu => cases hfind
  | cons a rest ih =>
    intro prev cur fuel c kind hseg hfind
    obtain ⟨hcur, haprev, hrest⟩ := hseg
    subst hcur
    cases fuel with
    | zero => cases hfind
    | succ fu =>
      simp only [japacker_merge_find] at hfind
      split at hfind
      · rename_i hcond
        cases hfind
        exact ⟨by simp, Or.inl ⟨rfl, hcond.1, hcond.2.1, hcond.2.2⟩⟩
      · split at hfind
        · rename_i hcond
          cases hfind
          exact ⟨by simp, Or.inr (Or.inl ⟨rfl, hcond.1, hcond.2.1, hcond.2.2⟩)⟩
        · split at hfind
          · rename_i hcond
            cases hfind
            exact ⟨by simp,
              Or.inr (Or.inr (Or.inl ⟨rfl, hcond.1, hcond.2.1, hcond.2.2⟩))⟩
          · split at hfind
            · rename_i hcond
              cases hfind
              exact ⟨by simp,
                Or.inr (Or.inr (Or.inr ⟨rfl, hcond.1, hcond.2.1, hcond.2.2⟩))⟩
            · obtain ⟨hm, hrest2⟩ := ih (some a) (geta data a).next fu c kind
                hrest hfind
              exact ⟨by simp [hm], hrest2⟩

/-- Absorbing an exactly adjacent footprint keeps the pointwise count. -/
theorem inGeo_absorb (aI aC aM : japacker_empty_area) (px py : Nat)
    (hadj :
      (aM.x = aC.x ∧ aM.y = aI.y ∧ aM.width = aI.width + aC.width ∧
        aM.height = aI.height ∧ aC.y = aI.y ∧ aC.height = aI.height ∧
        aC.x + aC.width = aI.x) ∨
      (aM.x = aI.x ∧ aM.y = aI.y ∧ aM.width = aI.width + aC.width ∧
        aM.height = aI.height ∧ aC.y = aI.y ∧ aC.height = aI.height ∧
        aI.x + aI.width = aC.x) ∨
      (aM.x = aI.x ∧ aM.y = aC.y ∧ aM.width = aI.width ∧
        aM.height = aI.height + aC.height ∧ aC.x = aI.x ∧
        aC.width = aI.width ∧ aC.y + aC.height = aI.y) ∨
      (aM.x = aI.x ∧ aM.y = aI.y ∧ aM.width = aI.width ∧
        aM.height = aI.height + aC.height ∧ aC.x = aI.x ∧
        aC.width = aI.width ∧ aI.y + aI.height = aC.y)) :
    (if inGeo (areaGeo aM) px py = true then 1 else 0) =
      (if inGeo (areaGeo aI) px py = true then 1 else 0) +
      (if inGeo (areaGeo aC) px py = true then 1 else 0) := by
  simp only [inGeo, areaGeo, decide_eq_true_eq]
  rcases hadj with ⟨h1, h2, h3, h4, h5, h6, h7⟩ | ⟨h1, h2, h3, h4, h5, h6, h7⟩ |
    ⟨h1, h2, h3, h4, h5, h6, h7⟩ | ⟨h1, h2, h3, h4, h5, h6, h7⟩ <;>
    split_ifs <;> omega

/-- An update of one unlisted record that keeps its links keeps the store
well formed. -/
theorem modArea_StoreWF (data : japacker_internal_data) (l : List Nat)
    (i : Nat) (f : japacker_empty_area → japacker_empty_area)
    (hwf : StoreWF data l) (hil : i ∉ l)
    (hf : ∀ x, (f x).prev = x.prev ∧ (f x).next = x.next) :
    StoreWF (modArea data i f) l := by
  obtain ⟨⟨hseg, hlast, hnd, hb⟩, hcl⟩ := hwf
  have hg : ∀ m ∈ l, geta (modArea data i f) m = geta data m := by
    intro m hm
    exact geta_modArea_ne data i m f (fun hc => hil (by rw [hc]; exact hm))
  refine ⟨⟨?_, hlast, hnd, ?_⟩, ?_⟩
  · exact segOk_congr data _ l none _ none hg hseg
  · intro m hm
    have := hb m hm
    simpa [modArea, Array.size_modify] using this
  · intro j hjsz hjm
    simp only [modArea, Array.size_modify] at hjsz
    by_cases hij : i = j
    · subst hij
      rw [geta_modArea_self, if_pos hjsz]
      obtain ⟨hp, hn⟩ := hcl i hjsz hjm
      exact ⟨(hf _).1.trans hp, (hf _).2.trans hn⟩
    · rw [geta_modArea_ne data i j f hij]
      exact hcl j hjsz hjm

/-- japacker_merge_adjacent_empty_areas on an unlisted cleared record: the
chain loses the absorbed records, the record grows to cover them exactly so
the joint footprint is pointwise unchanged, size, index and the cleared
links of the record are preserved, and a false merge flag means nothing
happened at all. -/
theorem merge_spec : ∀ (fuel : Nat) (data : japacker_internal_data)
    (l : List Nat) (i : Nat),
    StoreWF data l → i ∉ l →
    i < data.empty_areas.list.size → i ≤ data.empty_areas.index →
    (geta data i).prev = none → (geta data i).next = none →
    ∃ l2 : List Nat,
      (∀ x ∈ l2, x ∈ l) ∧
      StoreWF (japacker_merge_adjacent_empty_areas data i fuel).1 l2 ∧
      i ∉ l2 ∧
      (japacker_merge_adjacent_empty_areas data i
        fuel).1.empty_areas.list.size = data.empty_areas.list.size ∧
      (japacker_merge_adjacent_empty_areas data i fuel).1.empty_areas.index =
        data.empty_areas.index ∧
      (geta (japacker_merge_adjacent_empty_areas data i fuel).1 i).prev =
        none ∧
      (geta (japacker_merge_adjacent_empty_areas data i fuel).1 i).next =
        none ∧
      ((japacker_merge_adjacent_empty_areas data i fuel).2 = false →
        (japacker_merge_adjacent_empty_areas data i fuel).1 = data ∧
          l2 = l) ∧
      (∀ j, j ∉ l → j ≠ i →
        geta (japacker_merge_adjacent_empty_areas data i fuel).1 j =
          geta data j) ∧
      ∀ px py,
        coverCount (geoOf (japacker_merge_adjacent_empty_areas data i fuel).1
          i :: geoList (japacker_merge_adjacent_empty_areas data i fuel).1 l2)
          px py =
        coverCount (geoOf data i :: geoList data l) px py := by
  intro fuel
  induction fuel with
  | zero =>
    intro data l i hwf hil hisz hidx hip hin
    exact ⟨l, fun x hx => hx, hwf, hil, rfl, rfl, hip, hin,
      fun _ => ⟨rfl, rfl⟩, fun j _ _ => rfl, fun px py => rfl⟩
  | succ fu ih =>
    intro data l i hwf hil hisz hidx hip hin
    cases hfind : japacker_merge_find data i data.empty_areas.first
        (data.empty_areas.list.size + 1) with
    | none =>
      have hstep : japacker_merge_adjacent_empty_areas data i (fu + 1) =
          (data, false) := by
        conv_lhs => unfold japacker_merge_adjacent_empty_areas
        rw [hfind]
      rw [hstep]
      exact ⟨l, fun x hx => hx, hwf, hil, rfl, rfl, hip, hin,
        fun _ => ⟨rfl, rfl⟩, fun j _ _ => rfl, fun px py => rfl⟩
    | some res =>
      obtain ⟨c, kind⟩ := res
      obtain ⟨hcmem, hadj⟩ := merge_find_spec data i l none
        data.empty_areas.first (data.empty_areas.list.size + 1) c kind
        hwf.1.1 hfind
      obtain ⟨lc1, lc2, hlsplit⟩ := List.append_of_mem hcmem
      subst hlsplit
      have hic : i ≠ c := fun hc => hil (by rw [hc]; simp)
      -- characterise one merge step and name the intermediate state
      have hkey : ∃ dD, japacker_delist_empty_area (modArea data i fun a =>
            match kind with
            | JMergeKind.left => { a with x := (geta data c).x, width := a.width + (geta data c).width }
            | JMergeKind.right => { a with width := a.width + (geta data c).width }
            | JMergeKind.top => { a with y := (geta data c).y, height := a.height + (geta data c).height }
            | JMergeKind.bottom => { a with height := a.height + (geta data c).height }) c = dD ∧
          japacker_merge_adjacent_empty_areas data i (fu + 1) =
            ((japacker_merge_adjacent_empty_areas dD i fu).1, true) := by
        refine ⟨_, rfl, ?_⟩
        conv_lhs => unfold japacker_merge_adjacent_empty_areas
        rw [hfind]
      obtain ⟨dD, hdD, hstep⟩ := hkey
      -- the position of c in the chain gives its link facts
      obtain ⟨mid, hseg1, hseg2⟩ := segOk_decomp data lc1 (c :: lc2) none
        data.empty_areas.first none hwf.1.1
      obtain ⟨hmid, hcprev, hcseg⟩ := hseg2
      have hcprev_ne : ∀ j, j ∉ lc1 ++ c :: lc2 →
          (geta data c).prev ≠ some j := by
        intro j hj
        rw [hcprev]
        intro hc
        exact hj (List.mem_append.2 (Or.inl (entryPrev_mem lc1 j hc)))
      have hcnext_ne : ∀ j, j ∉ lc1 ++ c :: lc2 →
          (geta data c).next ≠ some j := by
        intro j hj
        rcases segOk_cur_mem data lc2 (some c) ((geta data c).next) none hcseg
          with h | ⟨f, hfm, hcur⟩
        · rw [h]; simp
        · rw [hcur]
          intro hc
          injection hc with hfi
          exact hj (by rw [← hfi]; simp [hfm])
      -- the intermediate state is well formed over the chain without c
      have hwfD : StoreWF dD (lc1 ++ lc2) := by
        rw [← hdD]
        exact delist_spec _ lc1 lc2 c (modArea_StoreWF data _ i _ hwf hil
          (by intro x; cases kind <;> exact ⟨rfl, rfl⟩))
      have hszD : dD.empty_areas.list.size = data.empty_areas.list.size := by
        rw [← hdD, delist_size]
        simp [modArea, Array.size_modify]
      have hidxD : dD.empty_areas.index = data.empty_areas.index := by
        rw [← hdD, delist_index]
        rfl
      have hiD : i ∉ lc1 ++ lc2 := by
        simp only [List.mem_append, List.mem_cons] at hil ⊢
        tauto
      have hiszD : i < dD.empty_areas.list.size := by
        rw [hszD]; exact hisz
      have hidx2 : i ≤ dD.empty_areas.index := by
        rw [hidxD]; exact hidx
      have hipD : (geta dD i).prev = none := by
        rw [← hdD]
        rw [geta_delist_other _ c i (Ne.symm hic)
          (by rw [geta_modArea_ne data i c _ hic]; exact hcprev_ne i hil)
          (by rw [geta_modArea_ne data i c _ hic]; exact hcnext_ne i hil)]
        rw [geta_modArea_self, if_pos hisz]
        cases kind <;> exact hip
      have hinD : (geta dD i).next = none := by
        rw [← hdD]
        rw [geta_delist_other _ c i (Ne.symm hic)
          (by rw [geta_modArea_ne data i c _ hic]; exact hcprev_ne i hil)
          (by rw [geta_modArea_ne data i c _ hic]; exact hcnext_ne i hil)]
        rw [geta_modArea_self, if_pos hisz]
        cases kind <;> exact hin
      obtain ⟨l2, hl2sub, hl2wf, hl2i, hl2sz, hl2idx, hl2p, hl2n, hl2b,
        hl2f, hl2cov⟩ := ih dD (lc1 ++ lc2) i hwfD hiD hiszD hidx2 hipD hinD
      rw [hstep]
      refine ⟨l2, ?_, hl2wf, hl2i, hl2sz.trans hszD, hl2idx.trans hidxD,
        hl2p, hl2n, ?_, ?_, ?_⟩
      · intro x hx
        have := hl2sub x hx
        simp only [List.mem_append, List.mem_cons] at this ⊢
        tauto
      · intro h
        simp at h
      · intro j hjl hji
        have hj12 : j ∉ lc1 ++ lc2 := by
          simp only [List.mem_append, List.mem_cons] at hjl ⊢
          tauto
        rw [hl2f j hj12 hji, ← hdD]
        rw [geta_delist_other _ c j (fun hc => hjl (by rw [← hc]; simp))
          (by rw [geta_modArea_ne data i c _ hic]; exact hcprev_ne j hjl)
          (by rw [geta_modArea_ne data i c _ hic]; exact hcnext_ne j hjl)]
        exact geta_modArea_ne data i j _ (fun hc => hji hc.symm)
      · intro px py
        rw [hl2cov px py]
        have e1 : geoList dD lc1 = geoList data lc1 :=
          geoList_congr data dD lc1 (fun x hx => by
            rw [← hdD, delist_geo, geta_modArea_ne data i x _
              (fun hcx => hil (by rw [hcx]; simp [hx]))])
        have e2 : geoList dD lc2 = geoList data lc2 :=
          geoList_congr data dD lc2 (fun x hx => by
            rw [← hdD, delist_geo, geta_modArea_ne data i x _
              (fun hcx => hil (by rw [hcx]; simp [hx]))])
        have habs : (if inGeo (areaGeo (geta dD i)) px py = true then 1
              else 0) =
            (if inGeo (areaGeo (geta data i)) px py = true then 1 else 0) +
            (if inGeo (areaGeo (geta data c)) px py = true then 1 else 0) := by
          rw [← hdD, delist_geo]
          rcases hadj with ⟨hk, h1, h2, h3⟩ | ⟨hk, h1, h2, h3⟩ |
            ⟨hk, h1, h2, h3⟩ | ⟨hk, h1, h2, h3⟩ <;> subst hk <;>
            rw [geta_modArea_self, if_pos hisz]
          · exact inGeo_absorb (geta data i) (geta data c) _ px py
              (Or.inl ⟨rfl, rfl, rfl, rfl, h1, h2, h3⟩)
          · exact inGeo_absorb (geta data i) (geta data c) _ px py
              (Or.inr (Or.inl ⟨rfl, rfl, rfl, rfl, h1, h2, h3⟩))
          · exact inGeo_absorb (geta data i) (geta data c) _ px py
              (Or.inr (Or.inr (Or.inl ⟨rfl, rfl, rfl, rfl, h1, h2, h3⟩)))
          · exact inGeo_absorb (geta data i) (geta data c) _ px py
              (Or.inr (Or.inr (Or.inr ⟨rfl, rfl, rfl, rfl, h1, h2, h3⟩)))
        simp only [coverCount_cons, geoList_append, coverCount_append,
          geoList_cons, geoOf]
        rw [e1, e2, habs]
        omega

/-- The empty cover count. -/
theorem coverCount_nil (px py : Nat) : coverCount ([] : List JRectGeo) px py = 0 := rfl

/-- The empty footprint list. -/
theorem geoList_nil (data : japacker_internal_data) : geoList data [] = [] := rfl

/-- The predecessor link of a listed record names the chain segment before
it. -/
theorem chain_prev_at (data : japacker_internal_data) (l1 l2 : List Nat)
    (i : Nat)
    (hseg : segOk data none data.empty_areas.first (l1 ++ i :: l2) none) :
    (geta data i).prev = entryPrev l1 none := by
  obtain ⟨mid, hseg1, hseg2⟩ := segOk_decomp data l1 (i :: l2) none
    data.empty_areas.first none hseg
  exact hseg2.2.1

/-- A listed record of a duplicate-free chain never links to itself. -/
theorem chain_self_links (data : japacker_internal_data) (l1 l2 : List Nat)
    (i : Nat)
    (hseg : segOk data none data.empty_areas.first (l1 ++ i :: l2) none)
    (hnd : (l1 ++ i :: l2).Nodup) :
    (geta data i).prev ≠ some i ∧ (geta data i).next ≠ some i := by
  obtain ⟨hnd1, hndc, hdisj⟩ := List.nodup_append.1 hnd
  have hil2 : i ∉ l2 := (List.nodup_cons.1 hndc).1
  have hil1 : i ∉ l1 := fun hm => hdisj hm (by simp)
  obtain ⟨mid, hseg1, hseg2⟩ := segOk_decomp data l1 (i :: l2) none
    data.empty_areas.first none hseg
  obtain ⟨hmid, hiprev, hiseg⟩ := hseg2
  constructor
  · rw [hiprev]
    intro hc
    exact hil1 (entryPrev_mem l1 i hc)
  · rcases segOk_cur_mem data l2 (some i) ((geta data i).next) none hiseg
      with h | ⟨f, hfm, hcur⟩
    · rw [h]; simp
    · rw [hcur]
      intro hc
      injection hc with hfi
      exact hil2 (hfi ▸ hfm)

/-- The fit walk returns a listed record large enough for the requested
rectangle. -/
theorem find_fit_spec (data : japacker_internal_data) (width height : Nat) :
    ∀ (l : List Nat) (prev cur : Option Nat) (fuel : Nat) (i : Nat),
    segOk data prev cur l none →
    japacker_find_fit data width height cur fuel = some i →
    i ∈ l ∧ height ≤ (geta data i).height ∧ width ≤ (geta data i).width := by
  intro l
  induction l with
  | nil =>
    intro prev cur fuel i hseg hfind
    have hcur : cur = none := hseg
    subst hcur
    cases fuel with
    | zero => cases hfind
    | succ fu => cases hfind
  | cons a rest ih =>
    intro prev cur fuel i hseg hfind
    obtain ⟨hcur, haprev, hrest⟩ := hseg
    subst hcur
    cases fuel with
    | zero => cases hfind
    | succ fu =>
      simp only [japacker_find_fit] at hfind
      split at hfind
      · obtain ⟨hm, hrest2⟩ := ih (some a) (geta data a).next fu i hrest hfind
        exact ⟨by simp [hm], hrest2⟩
      · rename_i hcond
        cases hfind
        push_neg at hcond
        exact ⟨by simp, hcond.1, hcond.2⟩

/-- japacker_shrink_resort on a listed, already reshaped record: the store
stays well formed over some chain whose joint footprint is pointwise that of
the chain it started from, and pool size and high-water index are kept. -/
theorem shrink_resort_spec (data : japacker_internal_data) (l1 l2 : List Nat)
    (i : Nat) (cmp : japacker_sort_type)
    (hwf : StoreWF data (l1 ++ i :: l2)) :
    ∃ lF : List Nat,
      StoreWF (japacker_shrink_resort data i cmp) lF ∧
      (japacker_shrink_resort data i cmp).empty_areas.list.size =
        data.empty_areas.list.size ∧
      (japacker_shrink_resort data i cmp).empty_areas.index =
        data.empty_areas.index ∧
      ∀ px py,
        coverCount (geoList (japacker_shrink_resort data i cmp) lF) px py =
        coverCount (geoList data (l1 ++ i :: l2)) px py := by
  have hib := hwf.1.2.2.2 i (by simp)
  have hprev0 : (geta data i).prev = entryPrev l1 none :=
    chain_prev_at data l1 l2 i hwf.1.1
  obtain ⟨hpne, hnne⟩ := chain_self_links data l1 l2 i hwf.1.1 hwf.1.2.2.1
  obtain ⟨hnd1, hndc, hdisj⟩ := List.nodup_append.1 hwf.1.2.2.1
  have hil2 : i ∉ l2 := (List.nodup_cons.1 hndc).1
  have hil1 : i ∉ l1 := fun hm => hdisj hm (by simp)
  have hi12 : i ∉ l1 ++ l2 := by
    simp only [List.mem_append]
    tauto
  have hd1k : geta (japacker_delist_empty_area data i) i =
      { geta data i with prev := none, next := none } :=
    geta_delist_k data i hib.1 hpne hnne
  -- name the intermediate states of the composite
  have hkey : ∃ d1 r, japacker_delist_empty_area data i = d1 ∧
      japacker_merge_adjacent_empty_areas d1 i
        (d1.empty_areas.list.size + 1) = r ∧
      japacker_shrink_resort data i cmp =
        japacker_sort_empty_area (modArea r.1 i (japacker_set_comparator cmp))
          i (if r.2 then r.1.empty_areas.last else (geta data i).prev) :=
    ⟨_, _, rfl, rfl, rfl⟩
  obtain ⟨d1, r, hd1, hr, hS⟩ := hkey
  have hwf1 : StoreWF d1 (l1 ++ l2) := by
    rw [← hd1]
    exact delist_spec data l1 l2 i hwf
  have hsz1 : d1.empty_areas.list.size = data.empty_areas.list.size := by
    rw [← hd1, delist_size]
  have hidx1 : d1.empty_areas.index = data.empty_areas.index := by
    rw [← hd1, delist_index]
  have hgeo1 : ∀ j, areaGeo (geta d1 j) = areaGeo (geta data j) := by
    intro j
    rw [← hd1]
    exact delist_geo data i j
  have hip1 : (geta d1 i).prev = none := by
    rw [← hd1, hd1k]
  have hin1 : (geta d1 i).next = none := by
    rw [← hd1, hd1k]
  obtain ⟨lM, hMsub, hMwf, hMi, hMsz, hMidx, hMp, hMn, hMb, hMframe,
      hMcov⟩ :=
    merge_spec (d1.empty_areas.list.size + 1) d1 (l1 ++ l2) i hwf1 hi12
      (by rw [hsz1]; exact hib.1) (by rw [hidx1]; exact hib.2) hip1 hin1
  rw [hr] at hMwf hMsz hMidx hMp hMn hMb hMframe hMcov
  have hszR : r.1.empty_areas.list.size = data.empty_areas.list.size :=
    hMsz.trans hsz1
  have hidxR : r.1.empty_areas.index = data.empty_areas.index :=
    hMidx.trans hidx1
  have hsz2 : (modArea r.1 i
      (japacker_set_comparator cmp)).empty_areas.list.size =
      r.1.empty_areas.list.size := by
    simp [modArea, Array.size_modify]
  have hidx2 : (modArea r.1 i
      (japacker_set_comparator cmp)).empty_areas.index =
      r.1.empty_areas.index := rfl
  have hwf2 : StoreWF (modArea r.1 i (japacker_set_comparator cmp)) lM :=
    modArea_StoreWF r.1 lM i _ hMwf hMi
      (by intro x; cases cmp <;> exact ⟨rfl, rfl⟩)
  have hgeo2 : ∀ j, areaGeo (geta (modArea r.1 i
      (japacker_set_comparator cmp)) j) = areaGeo (geta r.1 j) := by
    intro j
    by_cases hij : i = j
    · subst hij
      rw [geta_modArea_self, if_pos (by rw [hszR]; exact hib.1)]
      cases cmp <;> rfl
    · rw [geta_modArea_ne _ _ _ _ hij]
  have hisz2 : i < (modArea r.1 i
      (japacker_set_comparator cmp)).empty_areas.list.size := by
    rw [hsz2, hszR]; exact hib.1
  have hidxi2 : i ≤ (modArea r.1 i
      (japacker_set_comparator cmp)).empty_areas.index := by
    rw [hidx2, hidxR]; exact hib.2
  have hip2 : (geta (modArea r.1 i
      (japacker_set_comparator cmp)) i).prev = none := by
    rw [geta_modArea_self, if_pos (by rw [hszR]; exact hib.1)]
    cases cmp <;> exact hMp
  have hin2 : (geta (modArea r.1 i
      (japacker_set_comparator cmp)) i).next = none := by
    rw [geta_modArea_self, if_pos (by rw [hszR]; exact hib.1)]
    cases cmp <;> exact hMn
  cases hrb : r.2 with
  | true =>
    have hlast : r.1.empty_areas.last = entryPrev lM none := by
      rw [entryPrev_none]
      exact hMwf.1.2.1
    rw [hrb] at hS
    simp only [eq_self_iff_true, if_true] at hS
    rw [hlast] at hS
    obtain ⟨w1, w2, hw, hSwf, hSgeo, hSsz, hSidx⟩ :=
      sort_spec (modArea r.1 i (japacker_set_comparator cmp)) i lM []
        (by rw [List.append_nil]; exact hwf2) hisz2 hidxi2
        (by rw [List.append_nil]; exact hMi) hip2 hin2
    rw [← hS] at hSwf hSgeo hSsz hSidx
    refine ⟨w1 ++ i :: (w2 ++ []), hSwf, hSsz.trans (hsz2.trans hszR),
      hSidx.trans (hidx2.trans hidxR), ?_⟩
    intro px py
    rw [geoList_congr (modArea r.1 i (japacker_set_comparator cmp))
      (japacker_shrink_resort data i cmp) (w1 ++ i :: (w2 ++ []))
      (fun x _ => hSgeo x)]
    rw [geoList_congr r.1 (modArea r.1 i (japacker_set_comparator cmp))
      (w1 ++ i :: (w2 ++ [])) (fun x _ => hgeo2 x)]
    have hexp := hMcov px py
    rw [hw] at hexp
    simp only [coverCount_cons, coverCount_append, coverCount_nil,
      geoList_append, geoList_cons, geoList_nil, geoOf] at hexp ⊢
    rw [geoList_congr data d1 l1 (fun x _ => hgeo1 x),
      geoList_congr data d1 l2 (fun x _ => hgeo1 x), hgeo1 i] at hexp
    omega
  | false =>
    obtain ⟨hr1, hlMeq⟩ := hMb hrb
    rw [hrb] at hS
    simp only [Bool.false_eq_true, if_false] at hS
    rw [hprev0] at hS
    rw [hlMeq] at hwf2 hMi
    obtain ⟨w1, w2, hw, hSwf, hSgeo, hSsz, hSidx⟩ :=
      sort_spec (modArea r.1 i (japacker_set_comparator cmp)) i l1 l2
        hwf2 hisz2 hidxi2 hMi hip2 hin2
    rw [← hS] at hSwf hSgeo hSsz hSidx
    refine ⟨w1 ++ i :: (w2 ++ l2), hSwf, hSsz.trans (hsz2.trans hszR),
      hSidx.trans (hidx2.trans hidxR), ?_⟩
    intro px py
    rw [geoList_congr (modArea r.1 i (japacker_set_comparator cmp))
      (japacker_shrink_resort data i cmp) (w1 ++ i :: (w2 ++ l2))
      (fun x _ => hSgeo x)]
    rw [geoList_congr r.1 (modArea r.1 i (japacker_set_comparator cmp))
      (w1 ++ i :: (w2 ++ l2)) (fun x _ => hgeo2 x)]
    have hexp := hMcov px py
    rw [hlMeq, hw] at hexp
    rw [hw]
    simp only [coverCount_cons, coverCount_append, coverCount_nil,
      geoList_append, geoList_cons, geoList_nil, geoOf] at hexp ⊢
    rw [geoList_congr data d1 w1 (fun x _ => hgeo1 x),
      geoList_congr data d1 w2 (fun x _ => hgeo1 x),
      geoList_congr data d1 l2 (fun x _ => hgeo1 x), hgeo1 i] at hexp
    omega

/-- A chain segment only depends on the link fields of its members. -/
theorem segOk_congr_links (data data2 : japacker_internal_data) :
    ∀ (l : List Nat) (prev cur after : Option Nat),
    (∀ i ∈ l, (geta data2 i).prev = (geta data i).prev ∧
      (geta data2 i).next = (geta data i).next) →
    segOk data prev cur l after → segOk data2 prev cur l after := by
  intro l
  induction l with
  | nil => intro prev cur after _ hs; exact hs
  | cons i rest ih =>
    intro prev cur after hg hs
    obtain ⟨h1, h2, h3⟩ := hs
    refine ⟨h1, ?_, ?_⟩
    · rw [(hg i (by simp)).1]
      exact h2
    · rw [(hg i (by simp)).2]
      exact ih (some i) (geta data i).next after
        (fun m hm => hg m (by simp [hm])) h3

/-- Updating any one record without touching its links keeps the store well
formed over the same chain, even when the record is listed. -/
theorem modArea_StoreWF_links (data : japacker_internal_data) (l : List Nat)
    (i : Nat) (f : japacker_empty_area → japacker_empty_area)
    (hwf : StoreWF data l)
    (hf : ∀ x, (f x).prev = x.prev ∧ (f x).next = x.next) :
    StoreWF (modArea data i f) l := by
  obtain ⟨⟨hseg, hlast, hnd, hb⟩, hcl⟩ := hwf
  have hlinks : ∀ m, (geta (modArea data i f) m).prev = (geta data m).prev ∧
      (geta (modArea data i f) m).next = (geta data m).next := by
    intro m
    by_cases him : i = m
    · subst him
      rw [geta_modArea_self]
      by_cases hsz : i < data.empty_areas.list.size
      · rw [if_pos hsz]
        exact hf _
      · rw [if_neg hsz]
        have hdef : geta data i = default := by
          simp only [geta, Array.getD]
          rw [dif_neg hsz]
        rw [hdef]
        exact ⟨rfl, rfl⟩
    · rw [geta_modArea_ne data i m f him]
      exact ⟨rfl, rfl⟩
  refine ⟨⟨?_, hlast, hnd, ?_⟩, ?_⟩
  · exact segOk_congr_links data _ l none _ none (fun m _ => hlinks m) hseg
  · intro m hm
    have := hb m hm
    simpa [modArea, Array.size_modify] using this
  · intro j hjsz hjm
    simp only [modArea, Array.size_modify] at hjsz
    rw [(hlinks j).1, (hlinks j).2]
    exact hcl j hjsz hjm

/-- Two consecutive sorted inserts of fresh cleared records, the second
starting its backward walk at the first record's new predecessor (the shape
shared by the reinsert stages of shrink and split): the store stays well
formed, the pool size is kept, and the chain footprint gains exactly the two
records' footprints. -/
theorem sort2_spec (d : japacker_internal_data) (k1 k2 : Nat)
    (lw lr : List Nat)
    (hwf : StoreWF d (lw ++ lr))
    (hk1 : k1 < d.empty_areas.list.size) (hk1i : k1 ≤ d.empty_areas.index)
    (hk2 : k2 < d.empty_areas.list.size) (hk2i : k2 ≤ d.empty_areas.index)
    (hne : k1 ≠ k2)
    (hk1l : k1 ∉ lw ++ lr) (hk2l : k2 ∉ lw ++ lr)
    (hp1 : (geta d k1).prev = none) (hn1 : (geta d k1).next = none) :
    ∃ lF : List Nat,
      StoreWF (japacker_sort_empty_area
        (japacker_sort_empty_area d k1 (entryPrev lw none)) k2
        (geta (japacker_sort_empty_area d k1 (entryPrev lw none)) k1).prev)
        lF ∧
      (japacker_sort_empty_area (japacker_sort_empty_area d k1
        (entryPrev lw none)) k2
        (geta (japacker_sort_empty_area d k1 (entryPrev lw none)) k1).prev
        ).empty_areas.list.size = d.empty_areas.list.size ∧
      ∀ px py,
        coverCount (geoList (japacker_sort_empty_area
          (japacker_sort_empty_area d k1 (entryPrev lw none)) k2
          (geta (japacker_sort_empty_area d k1
            (entryPrev lw none)) k1).prev) lF) px py =
        (if inGeo (areaGeo (geta d k1)) px py = true then 1 else 0) +
        (if inGeo (areaGeo (geta d k2)) px py = true then 1 else 0) +
        coverCount (geoList d (lw ++ lr)) px py := by
  obtain ⟨w1, w2, hw, hS1wf, hS1geo, hS1sz, hS1idx⟩ :=
    sort_spec d k1 lw lr hwf hk1 hk1i hk1l hp1 hn1
  have hkey : ∃ S1, japacker_sort_empty_area d k1 (entryPrev lw none) = S1 :=
    ⟨_, rfl⟩
  obtain ⟨S1, hS1⟩ := hkey
  rw [hS1] at hS1wf hS1geo hS1sz hS1idx ⊢
  have hk1prev : (geta S1 k1).prev = entryPrev w1 none :=
    chain_prev_at S1 w1 (w2 ++ lr) k1 hS1wf.1.1
  have hk2chain : k2 ∉ w1 ++ k1 :: (w2 ++ lr) := by
    rw [hw] at hk2l
    simp only [List.mem_append, List.mem_cons] at hk2l ⊢
    push_neg
    push_neg at hk2l
    exact ⟨hk2l.1.1, fun hc => hne hc.symm, hk2l.1.2, hk2l.2⟩
  have hk2cl := hS1wf.2 k2 (by rw [hS1sz]; exact hk2) hk2chain
  rw [hk1prev]
  obtain ⟨u1, u2, hu, hS2wf, hS2geo, hS2sz, hS2idx⟩ :=
    sort_spec S1 k2 w1 (k1 :: (w2 ++ lr)) hS1wf (by rw [hS1sz]; exact hk2)
      (by rw [hS1idx]; exact hk2i) hk2chain hk2cl.1 hk2cl.2
  refine ⟨u1 ++ k2 :: (u2 ++ (k1 :: (w2 ++ lr))), hS2wf,
    hS2sz.trans hS1sz, ?_⟩
  intro px py
  rw [geoList_congr S1 (japacker_sort_empty_area S1 k2 (entryPrev w1 none))
    (u1 ++ k2 :: (u2 ++ (k1 :: (w2 ++ lr)))) (fun x _ => hS2geo x)]
  rw [geoList_congr d S1 (u1 ++ k2 :: (u2 ++ (k1 :: (w2 ++ lr))))
    (fun x _ => hS1geo x)]
  rw [hw, hu]
  simp only [coverCount_cons, coverCount_append, coverCount_nil,
    geoList_append, geoList_cons, geoList_nil, geoOf]
  omega

/-- The wide-remainder guillotine: the placed rectangle, the piece below it
and the full-height piece to its right tile the original area pointwise. -/
theorem inGeo_split_wide (X Y W H w h px py : Nat) (hw : w ≤ W) (hh : h ≤ H) :
    (if inGeo { x := X, y := Y, w := w, h := h } px py = true then 1
      else 0) +
    (if inGeo { x := X, y := Y + h, w := w, h := H - h } px py = true then 1
      else 0) +
    (if inGeo { x := X + w, y := Y, w := W - w, h := H } px py = true then 1
      else 0) =
    (if inGeo { x := X, y := Y, w := W, h := H } px py = true then 1
      else 0) := by
  simp only [inGeo, decide_eq_true_eq]
  split_ifs <;> omega

/-- The tall-remainder guillotine: the placed rectangle, the piece to its
right and the full-width piece below tile the original area pointwise. -/
theorem inGeo_split_tall (X Y W H w h px py : Nat) (hw : w ≤ W) (hh : h ≤ H) :
    (if inGeo { x := X, y := Y, w := w, h := h } px py = true then 1
      else 0) +
    (if inGeo { x := X + w, y := Y, w := W - w, h := h } px py = true then 1
      else 0) +
    (if inGeo { x := X, y := Y + h, w := W, h := H - h } px py = true then 1
      else 0) =
    (if inGeo { x := X, y := Y, w := W, h := H } px py = true then 1
      else 0) := by
  simp only [inGeo, decide_eq_true_eq]
  split_ifs <;> omega

/-- A vertical cut: the placed full-height rectangle and the remainder to
its right tile the original area pointwise. -/
theorem inGeo_cut_right (X Y W H w px py : Nat) (hw : w ≤ W) :
    (if inGeo { x := X, y := Y, w := w, h := H } px py = true then 1
      else 0) +
    (if inGeo { x := X + w, y := Y, w := W - w, h := H } px py = true then 1
      else 0) =
    (if inGeo { x := X, y := Y, w := W, h := H } px py = true then 1
      else 0) := by
  simp only [inGeo, decide_eq_true_eq]
  split_ifs <;> omega

/-- A horizontal cut: the placed full-width rectangle and the remainder
below it tile the original area pointwise. -/
theorem inGeo_cut_bottom (X Y W H h px py : Nat) (hh : h ≤ H) :
    (if inGeo { x := X, y := Y, w := W, h := h } px py = true then 1
      else 0) +
    (if inGeo { x := X, y := Y + h, w := W, h := H - h } px py = true then 1
      else 0) =
    (if inGeo { x := X, y := Y, w := W, h := H } px py = true then 1
      else 0) := by
  simp only [inGeo, decide_eq_true_eq]
  split_ifs <;> omega

/-- japacker_split_geometry: links, chain, size and index are untouched, no
third record moves, and the two written records tile the original record
minus the placed rectangle. -/
theorem split_geometry_spec (d : japacker_internal_data) (i ni w h : Nat)
    (l : List Nat) (hwf : StoreWF d l)
    (hisz : i < d.empty_areas.list.size)
    (hini : i ≠ ni)
    (hw : w ≤ (geta d i).width) (hh : h ≤ (geta d i).height) :
    StoreWF (japacker_split_geometry d i ni w h) l ∧
    (∀ j, j ≠ i → j ≠ ni →
      geta (japacker_split_geometry d i ni w h) j = geta d j) ∧
    (japacker_split_geometry d i ni w h).empty_areas.list.size =
      d.empty_areas.list.size ∧
    (japacker_split_geometry d i ni w h).empty_areas.index =
      d.empty_areas.index ∧
    (japacker_split_geometry d i ni w h).empty_areas.first =
      d.empty_areas.first ∧
    (japacker_split_geometry d i ni w h).empty_areas.last =
      d.empty_areas.last ∧
    (geta (japacker_split_geometry d i ni w h) i).prev = (geta d i).prev ∧
    (geta (japacker_split_geometry d i ni w h) i).next = (geta d i).next ∧
    (geta (japacker_split_geometry d i ni w h) ni).prev =
      (geta d ni).prev ∧
    (geta (japacker_split_geometry d i ni w h) ni).next =
      (geta d ni).next ∧
    (ni < d.empty_areas.list.size →
      ∀ px py,
      (if inGeo { x := (geta d i).x, y := (geta d i).y, w := w, h := h }
        px py = true then 1 else 0) +
      (if inGeo (areaGeo (geta (japacker_split_geometry d i ni w h) ni))
        px py = true then 1 else 0) +
      (if inGeo (areaGeo (geta (japacker_split_geometry d i ni w h) i))
        px py = true then 1 else 0) =
      (if inGeo (areaGeo (geta d i)) px py = true then 1 else 0)) := by
  have hkey : ∃ M, japacker_split_geometry d i ni w h = M := ⟨_, rfl⟩
  obtain ⟨M, hM⟩ := hkey
  have hbody : M =
      if (geta d i).height - h < (geta d i).width - w then
        modArea (modArea d ni fun x =>
          { x with x := (geta d i).x, y := (geta d i).y + h, width := w, height := (geta d i).height - h }) i
          fun x => { x with x := x.x + w, width := x.width - w }
      else
        modArea (modArea d ni fun x =>
          { x with x := (geta d i).x + w, y := (geta d i).y, width := (geta d i).width - w, height := h }) i
          fun x => { x with y := x.y + h, height := x.height - h } := by
    rw [← hM]
    unfold japacker_split_geometry
    rfl
  rw [hM]
  by_cases hbr : (geta d i).height - h < (geta d i).width - w
  · rw [if_pos hbr] at hbody
    subst hbody
    have hgi : geta (modArea (modArea d ni fun x =>
        { x with x := (geta d i).x, y := (geta d i).y + h, width := w, height := (geta d i).height - h }) i
        fun x => { x with x := x.x + w, width := x.width - w }) i =
        { geta d i with x := (geta d i).x + w, width := (geta d i).width - w } := by
      rw [geta_modArea_self,
        if_pos (by simpa [modArea, Array.size_modify] using hisz)]
      rw [geta_modArea_ne _ _ _ _ (fun hc => hini hc.symm)]
    refine ⟨?_, ?_, ?_, rfl, rfl, rfl, ?_, ?_, ?_, ?_, ?_⟩
    · exact modArea_StoreWF_links _ l i _
        (modArea_StoreWF_links _ l ni _ hwf (fun x => ⟨rfl, rfl⟩))
        (fun x => ⟨rfl, rfl⟩)
    · intro j hji hjni
      rw [geta_modArea_ne _ _ _ _ (fun hc => hji hc.symm),
        geta_modArea_ne _ _ _ _ (fun hc => hjni hc.symm)]
    · simp [modArea, Array.size_modify]
    · rw [hgi]
    · rw [hgi]
    · rw [geta_modArea_ne _ _ _ _ hini, geta_modArea_self]
      by_cases hnisz : ni < d.empty_areas.list.size
      · rw [if_pos hnisz]
      · rw [if_neg hnisz]
        have hdef : geta d ni = default := by
          simp only [geta, Array.getD]
          rw [dif_neg hnisz]
        rw [hdef]
    · rw [geta_modArea_ne _ _ _ _ hini, geta_modArea_self]
      by_cases hnisz : ni < d.empty_areas.list.size
      · rw [if_pos hnisz]
      · rw [if_neg hnisz]
        have hdef : geta d ni = default := by
          simp only [geta, Array.getD]
          rw [dif_neg hnisz]
        rw [hdef]
    · intro hnisz px py
      have hgni : geta (modArea (modArea d ni fun x =>
          { x with x := (geta d i).x, y := (geta d i).y + h, width := w, height := (geta d i).height - h }) i
          fun x => { x with x := x.x + w, width := x.width - w }) ni =
          { geta d ni with x := (geta d i).x, y := (geta d i).y + h, width := w, height := (geta d i).height - h } := by
        rw [geta_modArea_ne _ _ _ _ hini, geta_modArea_self, if_pos hnisz]
      rw [hgi, hgni]
      have := inGeo_split_wide (geta d i).x (geta d i).y (geta d i).width
        (geta d i).height w h px py hw hh
      simpa [areaGeo] using this
  · rw [if_neg hbr] at hbody
    subst hbody
    have hgi : geta (modArea (modArea d ni fun x =>
        { x with x := (geta d i).x + w, y := (geta d i).y, width := (geta d i).width - w, height := h }) i
        fun x => { x with y := x.y + h, height := x.height - h }) i =
        { geta d i with y := (geta d i).y + h, height := (geta d i).height - h } := by
      rw [geta_modArea_self,
        if_pos (by simpa [modArea, Array.size_modify] using hisz)]
      rw [geta_modArea_ne _ _ _ _ (fun hc => hini hc.symm)]
    refine ⟨?_, ?_, ?_, rfl, rfl, rfl, ?_, ?_, ?_, ?_, ?_⟩
    · exact modArea_StoreWF_links _ l i _
        (modArea_StoreWF_links _ l ni _ hwf (fun x => ⟨rfl, rfl⟩))
        (fun x => ⟨rfl, rfl⟩)
    · intro j hji hjni
      rw [geta_modArea_ne _ _ _ _ (fun hc => hji hc.symm),
        geta_modArea_ne _ _ _ _ (fun hc => hjni hc.symm)]
    · simp [modArea, Array.size_modify]
    · rw [hgi]
    · rw [hgi]
    · rw [geta_modArea_ne _ _ _ _ hini, geta_modArea_self]
      by_cases hnisz : ni < d.empty_areas.list.size
      · rw [if_pos hnisz]
      · rw [if_neg hnisz]
        have hdef : geta d ni = default := by
          simp only [geta, Array.getD]
          rw [dif_neg hnisz]
        rw [hdef]
    · rw [geta_modArea_ne _ _ _ _ hini, geta_modArea_self]
      by_cases hnisz : ni < d.empty_areas.list.size
      · rw [if_pos hnisz]
      · rw [if_neg hnisz]
        have hdef : geta d ni = default := by
          simp only [geta, Array.getD]
          rw [dif_neg hnisz]
        rw [hdef]
    · intro hnisz px py
      have hgni : geta (modArea (modArea d ni fun x =>
          { x with x := (geta d i).x + w, y := (geta d i).y, width := (geta d i).width - w, height := h }) i
          fun x => { x with y := x.y + h, height := x.height - h }) ni =
          { geta d ni with x := (geta d i).x + w, y := (geta d i).y, width := (geta d i).width - w, height := h } := by
        rw [geta_modArea_ne _ _ _ _ hini, geta_modArea_self, if_pos hnisz]
      rw [hgi, hgni]
      have := inGeo_split_tall (geta d i).x (geta d i).y (geta d i).width
        (geta d i).height w h px py hw hh
      simpa [areaGeo] using this

/-- japacker_split_empty_area on a listed record large enough for the
rectangle: on success the store stays well formed over some chain, the pool
size is kept, and the placed rectangle footprint together with the new chain
footprint is pointwise the old chain footprint. -/
theorem split_spec (data : japacker_internal_data) (l1 l2 : List Nat)
    (i width height : Nat) (D : japacker_internal_data)
    (hwf : StoreWF data (l1 ++ i :: l2))
    (hw : width ≤ (geta data i).width)
    (hh : height ≤ (geta data i).height)
    (hok : japacker_split_empty_area data i width height = .ok D) :
    ∃ lF : List Nat,
      StoreWF D lF ∧
      D.empty_areas.list.size = data.empty_areas.list.size ∧
      ∀ px py,
        (if inGeo { x := (geta data i).x, y := (geta data i).y, w := width, h := height } px py = true then 1 else 0) +
        coverCount (geoList D lF) px py =
        coverCount (geoList data (l1 ++ i :: l2)) px py := by
  have hib := hwf.1.2.2.2 i (by simp)
  obtain ⟨hnd1, hndc, hdisj⟩ := List.nodup_append.1 hwf.1.2.2.1
  have hil2 : i ∉ l2 := (List.nodup_cons.1 hndc).1
  have hil1 : i ∉ l1 := fun hm => hdisj hm (by simp)
  have hi12 : i ∉ l1 ++ l2 := by
    simp only [List.mem_append]
    tauto
  by_cases hcap : data.empty_areas.index + 1 < data.empty_areas.list.size
  swap
  · have hersp : japacker_split_empty_area data i width height =
        .error .oobSplit := by
      unfold japacker_split_empty_area
      rw [if_neg hcap]
    rw [hersp] at hok
    cases hok
  have hnichain : data.empty_areas.index + 1 ∉ l1 ++ i :: l2 := by
    intro hm
    have := (hwf.1.2.2.2 _ hm).2
    omega
  have hni12 : data.empty_areas.index + 1 ∉ l1 ++ l2 := by
    intro hm
    apply hnichain
    simp only [List.mem_append, List.mem_cons] at hm ⊢
    tauto
  have hini : i ≠ data.empty_areas.index + 1 := by
    have := hib.2
    omega
  cases hcmp : data.empty_areas.set_comparator with
  | none =>
    have hersp : japacker_split_empty_area data i width height =
        .error .nullComparator := by
      unfold japacker_split_empty_area
      rw [if_pos hcap, hcmp]
    rw [hersp] at hok
    cases hok
  | some cmp =>
    have hkey : ∃ d2 d3 r1 r2,
        japacker_split_geometry { data with empty_areas := { data.empty_areas with index := data.empty_areas.index + 1 } } i (data.empty_areas.index + 1) width height = d2 ∧
        japacker_delist_empty_area d2 i = d3 ∧
        japacker_merge_adjacent_empty_areas d3 i
          (d3.empty_areas.list.size + 1) = r1 ∧
        japacker_merge_adjacent_empty_areas r1.1
          (data.empty_areas.index + 1)
          (r1.1.empty_areas.list.size + 1) = r2 ∧
        japacker_split_empty_area data i width height =
          .ok (japacker_split_resort r2.1 i (data.empty_areas.index + 1)
            (geta d2 i).prev (r1.2 || r2.2) cmp) := by
      refine ⟨_, _, _, _, rfl, rfl, rfl, rfl, ?_⟩
      unfold japacker_split_empty_area
      rw [if_pos hcap, hcmp]
    obtain ⟨d2, d3, r1, r2, hd2, hd3, hr1, hr2, hterm⟩ := hkey
    rw [hterm] at hok
    injection hok with hD
    subst hD
    -- the index bump keeps the store well formed
    have hwfB : StoreWF { data with empty_areas := { data.empty_areas with index := data.empty_areas.index + 1 } } (l1 ++ i :: l2) := by
      obtain ⟨⟨hseg, hlast, hnd, hb⟩, hcl⟩ := hwf
      refine ⟨⟨?_, hlast, hnd, ?_⟩, ?_⟩
      · exact segOk_congr data _ _ none _ none (fun m _ => rfl) hseg
      · intro m hm
        exact ⟨(hb m hm).1, le_trans (hb m hm).2 (Nat.le_succ _)⟩
      · exact hcl
    -- the geometry stage
    obtain ⟨hwf2, hframe2, hsz2, hidx2, hfirst2, hlast2, hip2, hin2, hnp2,
      hnn2, htile⟩ := split_geometry_spec
        { data with empty_areas := { data.empty_areas with index := data.empty_areas.index + 1 } }
        i (data.empty_areas.index + 1) width height (l1 ++ i :: l2) hwfB
        hib.1 hini hw hh
    rw [hd2] at hwf2 hframe2 hsz2 hidx2 hfirst2 hlast2 hip2 hin2 hnp2 hnn2 htile
    have hframe2d : ∀ j, j ≠ i → j ≠ data.empty_areas.index + 1 →
        geta d2 j = geta data j := hframe2
    have hsz2d : d2.empty_areas.list.size = data.empty_areas.list.size :=
      hsz2
    have hidx2d : d2.empty_areas.index = data.empty_areas.index + 1 := hidx2
    have hip2d : (geta d2 i).prev = (geta data i).prev := hip2
    have hin2d : (geta d2 i).next = (geta data i).next := hin2
    have hnp2d : (geta d2 (data.empty_areas.index + 1)).prev =
        (geta data (data.empty_areas.index + 1)).prev := hnp2
    have hnn2d : (geta d2 (data.empty_areas.index + 1)).next =
        (geta data (data.empty_areas.index + 1)).next := hnn2
    have htiled : ∀ px py,
        (if inGeo { x := (geta data i).x, y := (geta data i).y, w := width, h := height } px py = true then 1 else 0) +
        (if inGeo (areaGeo (geta d2 (data.empty_areas.index + 1))) px py = true then 1 else 0) +
        (if inGeo (areaGeo (geta d2 i)) px py = true then 1 else 0) =
        (if inGeo (areaGeo (geta data i)) px py = true then 1 else 0) :=
      htile hcap
    have hnicleared := hwf.2 (data.empty_areas.index + 1) hcap hnichain
    have hni2p : (geta d2 (data.empty_areas.index + 1)).prev = none :=
      hnp2d.trans hnicleared.1
    have hni2n : (geta d2 (data.empty_areas.index + 1)).next = none :=
      hnn2d.trans hnicleared.2
    have hoprev : (geta d2 i).prev = entryPrev l1 none :=
      hip2d.trans (chain_prev_at data l1 l2 i hwf.1.1)
    -- the unlink stage
    obtain ⟨hselfp, hselfn⟩ := chain_self_links d2 l1 l2 i hwf2.1.1
      hwf2.1.2.2.1
    have hwf3 : StoreWF d3 (l1 ++ l2) := by
      rw [← hd3]
      exact delist_spec d2 l1 l2 i hwf2
    have hsz3 : d3.empty_areas.list.size = data.empty_areas.list.size := by
      rw [← hd3, delist_size]
      exact hsz2d
    have hidx3 : d3.empty_areas.index = data.empty_areas.index + 1 := by
      rw [← hd3, delist_index]
      exact hidx2d
    have hgeo3 : ∀ j, areaGeo (geta d3 j) = areaGeo (geta d2 j) := by
      intro j
      rw [← hd3]
      exact delist_geo d2 i j
    have hd3i : geta d3 i = { geta d2 i with prev := none, next := none } := by
      rw [← hd3]
      exact geta_delist_k d2 i (by rw [hsz2d]; exact hib.1) hselfp hselfn
    have hd3ni : geta d3 (data.empty_areas.index + 1) =
        geta d2 (data.empty_areas.index + 1) := by
      rw [← hd3]
      refine geta_delist_other d2 i (data.empty_areas.index + 1) hini ?_ ?_
      · rw [hoprev]
        intro hc
        exact hnichain (List.mem_append.2 (Or.inl (entryPrev_mem l1 _ hc)))
      · obtain ⟨mid, hs1, hs2⟩ := segOk_decomp d2 l1 (i :: l2) none
          d2.empty_areas.first none hwf2.1.1
        obtain ⟨hmid, hiprev2, hiseg2⟩ := hs2
        rcases segOk_cur_mem d2 l2 (some i) ((geta d2 i).next) none hiseg2
          with hnx | ⟨f, hfm, hnx⟩
        · rw [hnx]; simp
        · rw [hnx]
          intro hc
          injection hc with hfi
          exact hnichain (by rw [← hfi]; simp [hfm])
    have hni3p : (geta d3 (data.empty_areas.index + 1)).prev = none := by
      rw [hd3ni]; exact hni2p
    have hni3n : (geta d3 (data.empty_areas.index + 1)).next = none := by
      rw [hd3ni]; exact hni2n
    -- first merge, on i
    obtain ⟨lM1, hM1sub, hM1wf, hM1i, hM1sz, hM1idx, hM1p, hM1n, hM1b, hM1f,
      hM1cov⟩ := merge_spec (d3.empty_areas.list.size + 1) d3 (l1 ++ l2) i
        hwf3 hi12 (by rw [hsz3]; exact hib.1)
        (by rw [hidx3]; exact le_trans hib.2 (Nat.le_succ _))
        (by rw [hd3i]) (by rw [hd3i])
    rw [hr1] at hM1wf hM1sz hM1idx hM1p hM1n hM1b hM1f hM1cov
    have hszR1 : r1.1.empty_areas.list.size = data.empty_areas.list.size :=
      hM1sz.trans hsz3
    have hidxR1 : r1.1.empty_areas.index = data.empty_areas.index + 1 :=
      hM1idx.trans hidx3
    have hniM1 : data.empty_areas.index + 1 ∉ lM1 :=
      fun hm => hni12 (hM1sub _ hm)
    have hninr1 : geta r1.1 (data.empty_areas.index + 1) =
        geta d3 (data.empty_areas.index + 1) :=
      hM1f _ hni12 (fun hc => hini hc.symm)
    -- second merge, on the fresh record
    obtain ⟨lM2, hM2sub, hM2wf, hM2ni, hM2sz, hM2idx, hM2p, hM2n, hM2b, hM2f,
      hM2cov⟩ := merge_spec (r1.1.empty_areas.list.size + 1) r1.1 lM1
        (data.empty_areas.index + 1) hM1wf hniM1
        (by rw [hszR1]; exact hcap) (by rw [hidxR1])
        (by rw [hninr1]; exact hni3p) (by rw [hninr1]; exact hni3n)
    rw [hr2] at hM2wf hM2sz hM2idx hM2p hM2n hM2b hM2f hM2cov
    have hszR2 : r2.1.empty_areas.list.size = data.empty_areas.list.size :=
      hM2sz.trans hszR1
    have hidxR2 : r2.1.empty_areas.index = data.empty_areas.index + 1 :=
      hM2idx.trans hidxR1
    have hiM2 : i ∉ lM2 := fun hm => hM1i (hM2sub _ hm)
    have hir2 : geta r2.1 i = geta r1.1 i := hM2f i hM1i hini
    -- the comparator stage
    have hkey2 : ∃ dc, modArea (modArea r2.1 i (japacker_set_comparator cmp))
        (data.empty_areas.index + 1) (japacker_set_comparator cmp) = dc :=
      ⟨_, rfl⟩
    obtain ⟨dc, hdc⟩ := hkey2
    have hdcwf : StoreWF dc lM2 := by
      rw [← hdc]
      exact modArea_StoreWF_links _ lM2 _ _
        (modArea_StoreWF_links _ lM2 _ _ hM2wf
          (by intro x; cases cmp <;> exact ⟨rfl, rfl⟩))
        (by intro x; cases cmp <;> exact ⟨rfl, rfl⟩)
    have hdcsz : dc.empty_areas.list.size = data.empty_areas.list.size := by
      rw [← hdc]
      simp only [modArea, Array.size_modify]
      exact hszR2
    have hdcidx : dc.empty_areas.index = data.empty_areas.index + 1 := by
      rw [← hdc]
      exact hidxR2
    have hgdc : ∀ j, areaGeo (geta dc j) = areaGeo (geta r2.1 j) := by
      intro j
      rw [← hdc]
      by_cases hjni : data.empty_areas.index + 1 = j
      · subst hjni
        rw [geta_modArea_self,
          if_pos (by simp only [modArea, Array.size_modify]; rw [hszR2]; exact hcap)]
        have hmid : areaGeo (japacker_set_comparator cmp
            (geta (modArea r2.1 i (japacker_set_comparator cmp))
              (data.empty_areas.index + 1))) =
            areaGeo (geta (modArea r2.1 i (japacker_set_comparator cmp))
              (data.empty_areas.index + 1)) := by
          cases cmp <;> rfl
        rw [hmid, geta_modArea_ne _ _ _ _ hini]
      · rw [geta_modArea_ne _ _ _ _ hjni]
        by_cases hji : i = j
        · subst hji
          rw [geta_modArea_self, if_pos (by rw [hszR2]; exact hib.1)]
          cases cmp <;> rfl
        · rw [geta_modArea_ne _ _ _ _ hji]
    have hr2ip : (geta r2.1 i).prev = none := by
      rw [hir2]; exact hM1p
    have hr2in : (geta r2.1 i).next = none := by
      rw [hir2]; exact hM1n
    have hdcip : (geta dc i).prev = none := by
      rw [← hdc]
      rw [geta_modArea_ne _ _ _ _ (fun hc => hini hc.symm)]
      rw [geta_modArea_self, if_pos (by rw [hszR2]; exact hib.1)]
      cases cmp <;> exact hr2ip
    have hdcin : (geta dc i).next = none := by
      rw [← hdc]
      rw [geta_modArea_ne _ _ _ _ (fun hc => hini hc.symm)]
      rw [geta_modArea_self, if_pos (by rw [hszR2]; exact hib.1)]
      cases cmp <;> exact hr2in
    have hdcnp : (geta dc (data.empty_areas.index + 1)).prev = none := by
      rw [← hdc]
      rw [geta_modArea_self,
        if_pos (by simp only [modArea, Array.size_modify]; rw [hszR2]; exact hcap)]
      have hmid : (geta (modArea r2.1 i (japacker_set_comparator cmp))
          (data.empty_areas.index + 1)).prev = none := by
        rw [geta_modArea_ne _ _ _ _ hini]
        exact hM2p
      cases cmp <;> exact hmid
    have hdcnn : (geta dc (data.empty_areas.index + 1)).next = none := by
      rw [← hdc]
      rw [geta_modArea_self,
        if_pos (by simp only [modArea, Array.size_modify]; rw [hszR2]; exact hcap)]
      have hmid : (geta (modArea r2.1 i (japacker_set_comparator cmp))
          (data.empty_areas.index + 1)).next = none := by
        rw [geta_modArea_ne _ _ _ _ hini]
        exact hM2n
      cases cmp <;> exact hmid
    -- the reinsert stage, characterised branch by branch
    have hres : japacker_split_resort r2.1 i (data.empty_areas.index + 1)
        (geta d2 i).prev (r1.2 || r2.2) cmp =
        if (r1.2 || r2.2) = false then
          japacker_sort_empty_area (japacker_sort_empty_area dc i
            (geta d2 i).prev) (data.empty_areas.index + 1)
            (geta (japacker_sort_empty_area dc i (geta d2 i).prev) i).prev
        else
          if (geta dc (data.empty_areas.index + 1)).comparator <
              (geta dc i).comparator then
            japacker_sort_empty_area (japacker_sort_empty_area dc i
              dc.empty_areas.last) (data.empty_areas.index + 1)
              (geta (japacker_sort_empty_area dc i
                dc.empty_areas.last) i).prev
          else
            japacker_sort_empty_area (japacker_sort_empty_area dc
              (data.empty_areas.index + 1) dc.empty_areas.last) i
              (geta (japacker_sort_empty_area dc
                (data.empty_areas.index + 1) dc.empty_areas.last)
                (data.empty_areas.index + 1)).prev := by
      rw [← hdc]
      unfold japacker_split_resort
      rfl
    -- shared geometry transports for the final count
    have eI2 : areaGeo (geta d3 i) = areaGeo (geta d2 i) := by
      rw [hd3i]
      rfl
    have eNi2 : areaGeo (geta r1.1 (data.empty_areas.index + 1)) =
        areaGeo (geta d2 (data.empty_areas.index + 1)) := by
      rw [hninr1, hd3ni]
    have eL2a : geoList d3 l1 = geoList data l1 :=
      geoList_congr data d3 l1 (fun x hx => by
        rw [hgeo3 x, hframe2d x (fun hc => hi12 (by rw [← hc]; simp [hx]))
          (fun hc => hni12 (by rw [← hc]; simp [hx]))])
    have eL2b : geoList d3 l2 = geoList data l2 :=
      geoList_congr data d3 l2 (fun x hx => by
        rw [hgeo3 x, hframe2d x (fun hc => hi12 (by rw [← hc]; simp [hx]))
          (fun hc => hni12 (by rw [← hc]; simp [hx]))])
    rw [hres]
    by_cases hmerged : (r1.2 || r2.2) = false
    · rw [if_pos hmerged]
      obtain ⟨hr1f, hr2f⟩ := Bool.or_eq_false_iff.1 hmerged
      obtain ⟨hr1eq, hlM1eq⟩ := hM1b hr1f
      obtain ⟨hr2eq, hlM2eq⟩ := hM2b hr2f
      rw [hoprev]
      rw [hlM2eq, hlM1eq] at hdcwf
      obtain ⟨lF, hFwf, hFsz, hFcov⟩ := sort2_spec dc i
        (data.empty_areas.index + 1) l1 l2 hdcwf
        (by rw [hdcsz]; exact hib.1)
        (by rw [hdcidx]; exact le_trans hib.2 (Nat.le_succ _))
        (by rw [hdcsz]; exact hcap) (by rw [hdcidx]) hini hi12 hni12
        hdcip hdcin
      refine ⟨lF, hFwf, hFsz.trans hdcsz, ?_⟩
      intro px py
      rw [hFcov px py]
      have e0 : geoList dc (l1 ++ l2) = geoList data (l1 ++ l2) :=
        geoList_congr data dc (l1 ++ l2) (fun x hx => by
          rw [hgdc x, hr2eq, hr1eq, hgeo3 x,
            hframe2d x (fun hc => hi12 (hc ▸ hx)) (fun hc => hni12 (hc ▸ hx))])
      have eI : areaGeo (geta dc i) = areaGeo (geta d2 i) := by
        rw [hgdc i, hir2, hr1eq, hd3i]
        rfl
      have eNi : areaGeo (geta dc (data.empty_areas.index + 1)) =
          areaGeo (geta d2 (data.empty_areas.index + 1)) := by
        rw [hgdc _, hr2eq, hninr1, hd3ni]
      rw [e0, eI, eNi]
      have ht := htiled px py
      simp only [coverCount_cons, coverCount_append, coverCount_nil,
        geoList_append, geoList_cons, geoList_nil, geoOf]
      omega
    · rw [if_neg hmerged]
      have hlastdc : dc.empty_areas.last = entryPrev lM2 none := by
        rw [entryPrev_none]
        exact hdcwf.1.2.1
      by_cases hcmporder : (geta dc (data.empty_areas.index + 1)).comparator
          < (geta dc i).comparator
      · rw [if_pos hcmporder, hlastdc]
        obtain ⟨lF, hFwf, hFsz, hFcov⟩ := sort2_spec dc i
          (data.empty_areas.index + 1) lM2 [] (by rw [List.append_nil]; exact hdcwf)
          (by rw [hdcsz]; exact hib.1)
          (by rw [hdcidx]; exact le_trans hib.2 (Nat.le_succ _))
          (by rw [hdcsz]; exact hcap) (by rw [hdcidx]) hini
          (by simpa using hiM2) (by simpa using hM2ni) hdcip hdcin
        refine ⟨lF, hFwf, hFsz.trans hdcsz, ?_⟩
        intro px py
        rw [hFcov px py]
        have eL : geoList dc lM2 = geoList r2.1 lM2 :=
          geoList_congr r2.1 dc lM2 (fun x _ => hgdc x)
        have eI : areaGeo (geta dc i) = areaGeo (geta r1.1 i) := by
          rw [hgdc i, hir2]
        have eNi : areaGeo (geta dc (data.empty_areas.index + 1)) =
            areaGeo (geta r2.1 (data.empty_areas.index + 1)) := hgdc _
        rw [List.append_nil, eL, eI, eNi]
        have hC1 := hM1cov px py
        have hC2 := hM2cov px py
        have ht := htiled px py
        simp only [coverCount_cons, coverCount_append, coverCount_nil,
          geoList_append, geoList_cons, geoList_nil, geoOf] at hC1 hC2 ⊢
        rw [eI2, eL2a, eL2b] at hC1
        rw [eNi2] at hC2
        omega
      · rw [if_neg hcmporder, hlastdc]
        obtain ⟨lF, hFwf, hFsz, hFcov⟩ := sort2_spec dc
          (data.empty_areas.index + 1) i lM2 [] (by rw [List.append_nil]; exact hdcwf)
          (by rw [hdcsz]; exact hcap) (by rw [hdcidx])
          (by rw [hdcsz]; exact hib.1)
          (by rw [hdcidx]; exact le_trans hib.2 (Nat.le_succ _))
          (fun hc => hini hc.symm)
          (by simpa using hM2ni) (by simpa using hiM2) hdcnp hdcnn
        refine ⟨lF, hFwf, hFsz.trans hdcsz, ?_⟩
        intro px py
        rw [hFcov px py]
        have eL : geoList dc lM2 = geoList r2.1 lM2 :=
          geoList_congr r2.1 dc lM2 (fun x _ => hgdc x)
        have eI : areaGeo (geta dc i) = areaGeo (geta r1.1 i) := by
          rw [hgdc i, hir2]
        have eNi : areaGeo (geta dc (data.empty_areas.index + 1)) =
            areaGeo (geta r2.1 (data.empty_areas.index + 1)) := hgdc _
        rw [List.append_nil, eL, eI, eNi]
        have hC1 := hM1cov px py
        have hC2 := hM2cov px py
        have ht := htiled px py
        simp only [coverCount_cons, coverCount_append, coverCount_nil,
          geoList_append, geoList_cons, geoList_nil, geoOf] at hC1 hC2 ⊢
        rw [eI2, eL2a, eL2b] at hC1
        rw [eNi2] at hC2
        omega

/-- A successful japacker_pack_rect_noretry placement consumes empty space
exactly: the store stays well formed over some chain of the same pool, and
the placed footprint plus the new chain footprint is pointwise the old chain
footprint. -/
theorem pack_rect_noretry_cover (data : japacker_internal_data)
    (l : List Nat) (rect : japacker_rect) (d2 : japacker_internal_data)
    (rp : japacker_rect)
    (hwf : StoreWF data l)
    (hok : japacker_pack_rect_noretry data rect = .ok (d2, rp, true)) :
    ∃ lF : List Nat,
      StoreWF d2 lF ∧
      d2.empty_areas.list.size = data.empty_areas.list.size ∧
      ∀ px py,
        (if inGeo (footprintOf rp) px py = true then 1 else 0) +
        coverCount (geoList d2 lF) px py =
        coverCount (geoList data l) px py := by
  simp only [japacker_pack_rect_noretry] at hok
  generalize hW : (if rect.output.rotated = false then rect.input.width else rect.input.height) = W at hok
  generalize hH : (if rect.output.rotated = false then rect.input.height else rect.input.width) = H at hok
  split at hok
  · cases hok
  · rename_i i hf
    obtain ⟨him, hHle, hWle⟩ := find_fit_spec data _ _ l none
      data.empty_areas.first (data.empty_areas.list.size + 1) i hwf.1.1 hf
    have hib := hwf.1.2.2.2 i him
    have hfp : footprintOf { rect with output := { rect.output with x := (geta data i).x, y := (geta data i).y, packed := true } } =
        { x := (geta data i).x, y := (geta data i).y, w := W, h := H } := by
      rw [← hW, ← hH]
      cases hrot : rect.output.rotated <;> simp [footprintOf, hrot]
    obtain ⟨la, lb, hl⟩ := List.append_of_mem him
    subst hl
    obtain ⟨hndla, hndc, hdisj⟩ := List.nodup_append.1 hwf.1.2.2.1
    have hilb : i ∉ lb := (List.nodup_cons.1 hndc).1
    have hila : i ∉ la := fun hm => hdisj hm (by simp)
    split at hok
    · rename_i hexact
      cases hok
      refine ⟨la ++ lb, delist_spec data la lb i hwf, by rw [delist_size],
        ?_⟩
      intro px py
      rw [hfp, hexact.1, hexact.2]
      have e1 : geoList (japacker_delist_empty_area data i) (la ++ lb) =
          geoList data (la ++ lb) :=
        geoList_congr data _ _ (fun x _ => delist_geo data i x)
      rw [e1]
      simp only [coverCount_cons, coverCount_append, geoList_append,
        geoList_cons, geoOf]
      have eA : areaGeo (geta data i) = { x := (geta data i).x, y := (geta data i).y, w := (geta data i).width, h := (geta data i).height } := rfl
      rw [eA]
      omega
    · rename_i hnex
      split at hok
      · rename_i hsameh
        split at hok
        · cases hok
        · rename_i cmp hcmp
          cases hok
          have hwf1 : StoreWF (modArea data i fun x =>
              { x with x := x.x + W, width := x.width - W })
              (la ++ i :: lb) :=
            modArea_StoreWF_links data _ i _ hwf (fun x => ⟨rfl, rfl⟩)
          obtain ⟨lF, hFwf, hFsz, hFidx, hFcov⟩ :=
            shrink_resort_spec _ la lb i cmp hwf1
          refine ⟨lF, hFwf,
            hFsz.trans (by simp [modArea, Array.size_modify]), ?_⟩
          intro px py
          rw [hfp, hFcov px py]
          have eA : areaGeo (geta data i) = { x := (geta data i).x, y := (geta data i).y, w := (geta data i).width, h := (geta data i).height } := rfl
          have egi : areaGeo (geta (modArea data i fun x =>
              { x with x := x.x + W, width := x.width - W }) i) =
              { x := (geta data i).x + W, y := (geta data i).y, w := (geta data i).width - W, h := (geta data i).height } := by
            rw [geta_modArea_self, if_pos hib.1]
            rfl
          have ela : geoList (modArea data i fun x =>
              { x with x := x.x + W, width := x.width - W }) la =
              geoList data la :=
            geoList_congr data _ la (fun x hx => by
              rw [geta_modArea_ne data i x _ (fun hc => hila (hc ▸ hx))])
          have elb : geoList (modArea data i fun x =>
              { x with x := x.x + W, width := x.width - W }) lb =
              geoList data lb :=
            geoList_congr data _ lb (fun x hx => by
              rw [geta_modArea_ne data i x _ (fun hc => hilb (hc ▸ hx))])
          have hcut := inGeo_cut_right (geta data i).x (geta data i).y
            (geta data i).width (geta data i).height
            W px py hWle
          simp only [coverCount_cons, coverCount_append, geoList_append,
            geoList_cons, geoOf]
          rw [ela, elb, egi, eA, hsameh]
          omega
      · rename_i hnh
        split at hok
        · rename_i hsamew
          split at hok
          · cases hok
          · rename_i cmp hcmp
            cases hok
            have hwf1 : StoreWF (modArea data i fun x =>
                { x with y := x.y + H, height := x.height - H })
                (la ++ i :: lb) :=
              modArea_StoreWF_links data _ i _ hwf (fun x => ⟨rfl, rfl⟩)
            obtain ⟨lF, hFwf, hFsz, hFidx, hFcov⟩ :=
              shrink_resort_spec _ la lb i cmp hwf1
            refine ⟨lF, hFwf,
              hFsz.trans (by simp [modArea, Array.size_modify]), ?_⟩
            intro px py
            rw [hfp, hFcov px py]
            have eA : areaGeo (geta data i) = { x := (geta data i).x, y := (geta data i).y, w := (geta data i).width, h := (geta data i).height } := rfl
            have egi : areaGeo (geta (modArea data i fun x =>
                { x with y := x.y + H, height := x.height - H }) i) =
                { x := (geta data i).x, y := (geta data i).y + H, w := (geta data i).width, h := (geta data i).height - H } := by
              rw [geta_modArea_self, if_pos hib.1]
              rfl
            have ela : geoList (modArea data i fun x =>
                { x with y := x.y + H, height := x.height - H }) la =
                geoList data la :=
              geoList_congr data _ la (fun x hx => by
                rw [geta_modArea_ne data i x _ (fun hc => hila (hc ▸ hx))])
            have elb : geoList (modArea data i fun x =>
                { x with y := x.y + H, height := x.height - H }) lb =
                geoList data lb :=
              geoList_congr data _ lb (fun x hx => by
                rw [geta_modArea_ne data i x _ (fun hc => hilb (hc ▸ hx))])
            have hcut := inGeo_cut_bottom (geta data i).x (geta data i).y
              (geta data i).width (geta data i).height
              H px py hHle
            simp only [coverCount_cons, coverCount_append, geoList_append,
              geoList_cons, geoOf]
            rw [ela, elb, egi, eA, hsamew]
            omega
        · rename_i hnw
          cases hsp : japacker_split_empty_area data i W H with
          | error e =>
            rw [hsp] at hok
            cases hok
          | ok D =>
            rw [hsp] at hok
            cases hok
            obtain ⟨lF, hFwf, hFsz, hFcov⟩ := split_spec data la lb i
              W H d2 hwf hWle hHle hsp
            refine ⟨lF, hFwf, hFsz, ?_⟩
            intro px py
            rw [hfp]
            exact hFcov px py

/-- A successful japacker_pack_rect placement (with or without the rotation
retry) consumes empty space exactly. -/
theorem pack_rect_cover (data : japacker_internal_data) (l : List Nat)
    (rect : japacker_rect) (ar : Bool) (d2 : japacker_internal_data)
    (rp : japacker_rect)
    (hwf : StoreWF data l)
    (hok : japacker_pack_rect data rect ar = .ok (d2, rp, true)) :
    ∃ lF : List Nat,
      StoreWF d2 lF ∧
      d2.empty_areas.list.size = data.empty_areas.list.size ∧
      ∀ px py,
        (if inGeo (footprintOf rp) px py = true then 1 else 0) +
        coverCount (geoList d2 lF) px py =
        coverCount (geoList data l) px py := by
  cases h1 : japacker_pack_rect_noretry data rect with
  | error e =>
    have hred : japacker_pack_rect data rect ar = .error e := by
      unfold japacker_pack_rect
      rw [h1]
    rw [hred] at hok
    cases hok
  | ok t =>
    obtain ⟨dm, rm, sm⟩ := t
    cases sm with
    | true =>
      have hred : japacker_pack_rect data rect ar = .ok (dm, rm, true) := by
        unfold japacker_pack_rect
        rw [h1]
      rw [hred] at hok
      cases hok
      exact pack_rect_noretry_cover data l rect d2 rp hwf h1
    | false =>
      obtain ⟨hdm, hrm⟩ := pack_rect_noretry_ok_false h1
      have hred : japacker_pack_rect data rect ar =
          (if ar = true then japacker_pack_rect_noretry dm
            { rm with output := { rm.output with rotated := true } }
          else .ok (dm, rm, false)) := by
        unfold japacker_pack_rect
        rw [h1]
      rw [hred] at hok
      cases ar with
      | false =>
        rw [if_neg (by simp)] at hok
        cases hok
      | true =>
        rw [if_pos rfl] at hok
        subst hdm
        exact pack_rect_noretry_cover dm l _ d2 rp hwf hok

/-- A single region spanning the whole destination partitions it exactly. -/
theorem exactPartition_single (W H : Nat) :
    exactPartition [{ x := 0, y := 0, w := W, h := H }] W H := by
  intro px py
  simp only [coverCount, List.countP_cons, List.countP_nil, inGeo,
    decide_eq_true_eq]
  split_ifs <;> omega

/-- Every successful placement run keeps the joint footprint of the placed
rectangles and the empty-area chain pointwise equal to the footprint of the
chain it started from. -/
theorem runPlacements_cover :
    ∀ (steps : List (japacker_rect × Bool)) (data : japacker_internal_data)
      (l : List Nat) (dF : japacker_internal_data) (fps : List JRectGeo),
    StoreWF data l →
    runPlacements data steps = some (dF, fps) →
    ∃ lF : List Nat, StoreWF dF lF ∧
      ∀ px py, coverCount (fps ++ geoList dF lF) px py =
        coverCount (geoList data l) px py := by
  intro steps
  induction steps with
  | nil =>
    intro data l dF fps hwf hrun
    simp only [runPlacements] at hrun
    cases hrun
    exact ⟨l, hwf, fun px py => rfl⟩
  | cons step rest ih =>
    intro data l dF fps hwf hrun
    obtain ⟨r, a⟩ := step
    simp only [runPlacements] at hrun
    cases hpk : japacker_pack_rect data r a with
    | error e =>
      rw [hpk] at hrun
      cases hrun
    | ok t =>
      obtain ⟨d, rp, success⟩ := t
      rw [hpk] at hrun
      cases success with
      | false =>
        simp only [Bool.false_eq_true, if_false] at hrun
        cases hrun
      | true =>
        simp only [if_true] at hrun
        obtain ⟨lM, hMwf, hMsz, hMcov⟩ := pack_rect_cover data l r a d rp
          hwf hpk
        cases hrest : runPlacements d rest with
        | none =>
          rw [hrest] at hrun
          cases hrun
        | some q =>
          obtain ⟨dF2, fps2⟩ := q
          rw [hrest] at hrun
          cases hrun
          obtain ⟨lF, hFwf, hFcov⟩ := ih d lM dF fps2 hMwf hrest
          refine ⟨lF, hFwf, ?_⟩
          intro px py
          have h1 := hFcov px py
          have h2 := hMcov px py
          simp only [List.cons_append, coverCount_cons, coverCount_append]
            at h1 ⊢
          omega

/-- Claim C1: for every sequence of successful placements performed by
japacker_pack_rect on a single destination image whose empty-area store
starts as any well-formed chain tiling the destination exactly (in
particular the single image-spanning area japacker_pack starts from), the
placed footprints together with the remaining empty areas form an exact
partition of the destination rectangle: every destination pixel is covered
by exactly one region (placed or empty) and no pixel outside it is covered
at all, which simultaneously states pairwise disjointness and gap-freeness. -/
theorem c1_tiling_invariant (W H : Nat) (data : japacker_internal_data)
    (l : List Nat) (steps : List (japacker_rect × Bool))
    (dF : japacker_internal_data) (fps : List JRectGeo)
    (hwf : StoreWF data l)
    (hpart : exactPartition (geoList data l) W H)
    (hrun : runPlacements data steps = some (dF, fps)) :
    exactPartition (fps ++ chainGeos dF) W H := by
  obtain ⟨lF, hFwf, hFcov⟩ := runPlacements_cover steps data l dF fps hwf
    hrun
  intro px py
  rw [chainGeos_of_WF dF lF hFwf.1]
  rw [hFcov px py]
  exact hpart px py

/-- The tiling invariant at the worked placement sequence of the header
walkthrough: a 100 by 100 rect and two 50 by 50 rects into a 150 by 100
image that starts as one empty area. -/
theorem c1_witness :
    exactPartition (c1_run.2 ++ chainGeos c1_run.1) 150 100 :=
  c1_tiling_invariant 150 100 c1_data0 [0] c1_steps c1_run.1 c1_run.2
    (by decide) (exactPartition_single 150 100) (by rfl)

end Japacker
